import Mathlib

/-!
# n64: a toy 64-bit instruction set, its assembler and its emulator

A shallow embedding of `instruction.hpp`, `binary.cpp`, `assembler_main.cpp` and
`emulator_main.cpp`, followed by theorems about the embedded code.

Conventions of the embedding.

* Unsigned machine integers are natural numbers; every place where the C++ wraps or
  truncates is written out (`% 2 ^ 64`, a bit-field write keeps `width` bits).
* The union `n64::instruction::instruction` is the natural number whose binary digits are
  the bits of its object representation on the little-endian target the code is written
  for (`endian.h`, `__attribute__((__packed__))`): bit `i` of the number is bit `i % 8` of
  byte `i / 8`.  Bit-fields are allocated from the least significant bit upwards.
* `std::string` is `List Char`; string constants are written `"...".toList`.
* Code that calls `exit(EXIT_FAILURE)`, lets an exception escape, or has undefined
  behaviour returns `Except.error`.
-/

set_option linter.dupNamespace false
set_option maxRecDepth 8192

namespace n64

/-! ## `instruction.hpp`: the packed instruction word -/

/-- Models `n64::instruction::THREE_ADDRESS = 0b011`. -/
def THREE_ADDRESS : Nat := 0b011
/-- Models `n64::instruction::BINOMIAL = 0b010`. -/
def BINOMIAL : Nat := 0b010
/-- Models `n64::instruction::UNARY = 0b001`. -/
def UNARY : Nat := 0b001
/-- Models `n64::instruction::REGISTER_IMMEDIATE = 0b100`. -/
def REGISTER_IMMEDIATE : Nat := 0b100
/-- Models `n64::instruction::NO_OPERAND = 0b000`. -/
def NO_OPERAND : Nat := 0b000
/-- Models `n64::instruction::WIDTH = 8`: the number of bytes of one record of a binary file. -/
def WIDTH : Nat := 8

/-- A bit-field member: the position of its least significant bit inside the object and
its declared width. -/
structure bitfield where
  offset : Nat
  width : Nat
deriving DecidableEq

/-- Reading a bit-field member of the object `x`. -/
def bitfield.get (f : bitfield) (x : Nat) : Nat :=
  (x >>> f.offset) % 2 ^ f.width

/-- Writing `v` to a bit-field member of the object `x`: the value is truncated to the
declared width, the bits below and above the member are kept. -/
def bitfield.set (f : bitfield) (x v : Nat) : Nat :=
  (x % 2 ^ f.offset) ||| ((v % 2 ^ f.width) <<< f.offset)
    ||| ((x >>> (f.offset + f.width)) <<< (f.offset + f.width))

/-- The union `n64::instruction::instruction`, as the number formed by the bits of its
object representation.  Its size is 16 bytes: the member `u` is 10 bytes long (see
`unary`), every other member is 8 bytes long. -/
abbrev instruction := Nat

/-- Members of `struct three_address` (packed, 64 bits). -/
def three_address.instruction : bitfield := ⟨0, 8⟩
def three_address.type : bitfield := ⟨8, 3⟩
def three_address.destination : bitfield := ⟨11, 7⟩
def three_address.source1 : bitfield := ⟨18, 7⟩
def three_address.source2 : bitfield := ⟨25, 7⟩
def three_address.destination_option : bitfield := ⟨32, 10⟩
def three_address.source1_option : bitfield := ⟨42, 10⟩
def three_address.source2_option : bitfield := ⟨52, 10⟩
def three_address._reserved : bitfield := ⟨62, 2⟩

/-- Members of `struct binomial` (packed, 64 bits). -/
def binomial.instruction : bitfield := ⟨0, 8⟩
def binomial.type : bitfield := ⟨8, 2⟩
def binomial.operand1 : bitfield := ⟨10, 7⟩
def binomial.operand2 : bitfield := ⟨17, 7⟩
def binomial.operand1_option : bitfield := ⟨24, 20⟩
def binomial.operand2_option : bitfield := ⟨44, 20⟩

/-- Members of `struct unary`.  The struct is packed, but its third member is an anonymous
union of two structs that are not packed themselves: the union is an ordinary (non
bit-field) member, so it starts at the next byte boundary, byte 2, and is 8 bytes long.
`struct unary` is therefore 10 bytes long; bits 10..15 are padding and the 54-bit payload
occupies bits 16..69, of which only bits 16..63 lie inside the member `data`. -/
def unary.instruction : bitfield := ⟨0, 8⟩
def unary.type : bitfield := ⟨8, 2⟩
/-- Member `u.reg.operand`. -/
def unary.reg.operand : bitfield := ⟨16, 7⟩
/-- Member `u.reg.operand_option`. -/
def unary.reg.operand_option : bitfield := ⟨23, 47⟩
/-- Member `u.imm.immediate`. -/
def unary.imm.immediate : bitfield := ⟨16, 54⟩

/-- Members of `struct register_immediate` (packed, 64 bits). -/
def register_immediate.instruction : bitfield := ⟨0, 8⟩
def register_immediate.reg : bitfield := ⟨8, 7⟩
def register_immediate.immediate : bitfield := ⟨15, 49⟩

/-- Members of `struct no_operand` (packed, 64 bits). -/
def no_operand.instruction : bitfield := ⟨0, 8⟩
def no_operand._reserved : bitfield := ⟨8, 56⟩

/-- Members of the anonymous struct `instruction.instruction` of the union: the opcode
byte seen as format (`type`, the low 3 bits) and operation code (`instruction`). -/
def instruction.type : bitfield := ⟨0, 3⟩
def instruction.instruction : bitfield := ⟨3, 5⟩
def instruction._reserved : bitfield := ⟨8, 56⟩

/-- Member `data` of the union: the first 8 bytes of the object, as a `std::uint64_t`. -/
def instruction.data : bitfield := ⟨0, 64⟩

/-- Models `n64::reg::id`. -/
def reg.id.R0 : Nat := 0
def reg.id.RS : List Nat :=
  [1, 2, 3, 4, 5, 6, 7, 8, 9, 10, 11, 12, 13, 14, 15, 16, 17, 18, 19, 20, 21, 22, 23, 24, 25,
   26, 27, 28, 29, 30, 31, 32]
def reg.id.RT : List Nat :=
  [33, 34, 35, 36, 37, 38, 39, 40, 41, 42, 43, 44, 45, 46, 47, 48, 49, 50, 51, 52, 53, 54, 55,
   56, 57, 58, 59, 60, 61, 62, 63, 64]
def reg.id.IP : Nat := 65
def reg.id.FLAGS : Nat := 66
def reg.id.SP : Nat := 67
def reg.id.BP : Nat := 68

/-! ## `binary.cpp`: the binary file codec -/

/-- The object representation of an `n`-byte unsigned integer: its bytes in memory order,
least significant first. -/
def to_bytes : Nat → Nat → List Nat
  | 0, _ => []
  | n + 1, x => x % 256 :: to_bytes n (x / 256)

/-- The unsigned integer whose object representation is the given bytes. -/
def of_bytes : List Nat → Nat
  | [] => 0
  | b :: bs => b + 256 * of_bytes bs

/-- Models `htobe64` of `endian.h` on a little-endian host: the 8 bytes are reversed. -/
def htobe64 (x : Nat) : Nat := of_bytes (to_bytes 8 x).reverse

/-- Models `be64toh` of `endian.h` on a little-endian host: the 8 bytes are reversed. -/
def be64toh (x : Nat) : Nat := of_bytes (to_bytes 8 x).reverse

/-- Models `save_binary`: the bytes written to the output file.  For every instruction the 8
bytes of `htobe64(ins.data)` are written. -/
def save_binary (instructions : List instruction) : List Nat :=
  instructions.flatMap fun ins => to_bytes WIDTH (htobe64 (instruction.data.get ins))

/-- An input `std::fstream`: the bytes not yet read and the `eofbit`. -/
structure fstream where
  content : List Nat
  eofbit : Bool

/-- Models `fin.read(buf, n)`: extracts `n` bytes into the front of `buf`.  When the end of the
file is reached first, the bytes that were available are stored, the rest of `buf` is
left as it was and `eofbit` is set. -/
def fstream.read (fin : fstream) (buf : List Nat) (n : Nat) : List Nat × fstream :=
  if n ≤ fin.content.length then
    (fin.content.take n ++ buf.drop n, ⟨fin.content.drop n, fin.eofbit⟩)
  else
    (fin.content ++ buf.drop fin.content.length, ⟨[], true⟩)

/-- The loop `while(!fin.eof())` of `load_binary`; `instructions` is the vector built so
far. -/
def load_binary.loop (fin : fstream) (instructions : List instruction) : List instruction :=
  if fin.eofbit then instructions
  else
    let ins : instruction := 0
    let r := fin.read (to_bytes 16 ins) WIDTH
    let ins := of_bytes r.1
    let ins := instruction.data.set ins (be64toh (instruction.data.get ins))
    load_binary.loop r.2 (instructions ++ [ins])
termination_by (if fin.eofbit then 0 else fin.content.length + 1)
decreasing_by
  simp only [fstream.read, WIDTH]
  split <;> simp_all
  omega

/-- Models `load_binary`: the instructions read from a file with the given bytes. -/
def load_binary (file : List Nat) : List instruction :=
  load_binary.loop ⟨file, false⟩ []

/-! ## `assembler_main.cpp`: text utilities -/

/-- Models `std::string`. -/
abbrev string := List Char

/-- Models `std::isspace` in the classic locale, which `boost::algorithm::trim` and the regex
class `\s` use: space, `\t`, `\n`, `\v`, `\f`, `\r`. -/
def isspace (c : Char) : Bool :=
  c = ' ' || c = '\t' || c = '\n' || c = '\x0b' || c = '\x0c' || c = '\r'

/-- Models `::tolower` in the classic locale: `A`..`Z` are mapped to `a`..`z`. -/
def tolower (c : Char) : Char := c.toLower

/-- Models `boost::algorithm::trim`: removes the white space at both ends. -/
def trim (s : string) : string :=
  ((s.dropWhile isspace).reverse.dropWhile isspace).reverse

/-- Models `boost::is_any_of(set)`. -/
def is_any_of (set : string) (c : Char) : Bool := set.contains c

/-- Models `boost::algorithm::split(result, input, pred)` (token compression off): the input is
cut at every character satisfying `pred`; `n` delimiters give `n + 1` tokens, so the
result is never empty. -/
def split (input : string) (pred : Char → Bool) : List string :=
  match input with
  | [] => [[]]
  | c :: cs =>
    if pred c then [] :: split cs pred
    else
      match split cs pred with
      | [] => [[c]]
      | t :: ts => (c :: t) :: ts

/-- Models `s.find(c)`: the index of the first occurrence of `c`, `none` for `npos`. -/
def find (s : string) (c : Char) : Option Nat :=
  match s with
  | [] => none
  | x :: xs => if x = c then some 0 else (find xs c).map (· + 1)

/-- Models `s.substr(pos)`. -/
def substr (s : string) (pos : Nat) : string := s.drop pos

/-! ### Regular expressions

The regular expressions of the source are alternatives of sequences of character
classes, each class taken once, `*` or `+` times.  Matching follows the ECMAScript rules
of `std::regex`: alternatives are tried in order, quantifiers are greedy and backtrack. -/

inductive quantifier where
  | one
  | star
  | plus

structure atom where
  cls : Char → Bool
  q : quantifier

/-- A regular expression: the list of its alternatives. -/
abbrev regex := List (List atom)

/-- Matching `cls*` followed by `next`: as many characters as possible are taken first. -/
def match_star (cls : Char → Bool) (next : string → Option string) : string → Option string
  | [] => next []
  | c :: t =>
    if cls c then
      match match_star cls next t with
      | some r => some r
      | none => next (c :: t)
    else next (c :: t)

/-- Matching a sequence of atoms at the front of the input, followed by `next`; the
result is what `next` returns for the first way of matching that it accepts. -/
def match_seq : List atom → (string → Option string) → string → Option string
  | [], next, s => next s
  | ⟨cls, .one⟩ :: rest, next, s =>
    match s with
    | [] => none
    | c :: t => if cls c then match_seq rest next t else none
  | ⟨cls, .star⟩ :: rest, next, s => match_star cls (match_seq rest next) s
  | ⟨cls, .plus⟩ :: rest, next, s =>
    match s with
    | [] => none
    | c :: t => if cls c then match_star cls (match_seq rest next) t else none

/-- Matching a regular expression at the front of the input: the first alternative that
matches wins. -/
def match_at (r : regex) (next : string → Option string) (s : string) : Option string :=
  r.firstM fun alt => match_seq alt next s

/-- Models `std::regex_match(s, r)`: the whole of `s` matches `r`. -/
def regex_match (s : string) (r : regex) : Bool :=
  (match_at r (fun rest => if rest.isEmpty then some [] else none) s).isSome

/-- The loop of `std::regex_replace`: `skip` characters of an earlier match are still to
be passed over. -/
def regex_replace.go (r : regex) (fmt : string) : Nat → string → string
  | _, [] => []
  | skip + 1, _ :: t => regex_replace.go r fmt skip t
  | 0, c :: t =>
    match match_at r some (c :: t) with
    | some rest =>
      if (c :: t).length - rest.length = 0 then c :: regex_replace.go r fmt 0 t
      else fmt ++ regex_replace.go r fmt ((c :: t).length - rest.length - 1) t
    | none => c :: regex_replace.go r fmt 0 t

/-- Models `std::regex_replace(s, r, fmt)`: every match of `r` in `s`, found from left to right
without overlap, is replaced by `fmt`.  No regular expression of the source matches the
empty string; an empty match is passed over. -/
def regex_replace (s : string) (r : regex) (fmt : string) : string :=
  regex_replace.go r fmt 0 s

/-- The class `\s`. -/
def cls_space : Char → Bool := isspace
/-- The class of one literal character. -/
def cls_char (c : Char) : Char → Bool := fun x => x = c
/-- A class given by a range `lo-hi`. -/
def cls_range (lo hi : Char) : Char → Bool := fun x => lo ≤ x && x ≤ hi

/-- Models `std::regex(R"(\s*,\s*)")`. -/
def REGEX_COMMA : regex :=
  [[⟨cls_space, .star⟩, ⟨cls_char ',', .one⟩, ⟨cls_space, .star⟩]]
/-- Models `std::regex(R"(\s*:\s*)")`. -/
def REGEX_COLON : regex :=
  [[⟨cls_space, .star⟩, ⟨cls_char ':', .one⟩, ⟨cls_space, .star⟩]]
/-- Models `std::regex(R"(\[\s*)")`. -/
def REGEX_OPEN : regex := [[⟨cls_char '[', .one⟩, ⟨cls_space, .star⟩]]
/-- Models `std::regex(R"(\s*\])")`. -/
def REGEX_CLOSE : regex := [[⟨cls_space, .star⟩, ⟨cls_char ']', .one⟩]]

/-- Models `NUMBERS`, the "decimal, octal or hexadecimal regex" of `assemble_line`:
`0x[0-9a-fA-F]+|0[0-7]+|[0-9][1-9]*|0`. -/
def NUMBERS : regex :=
  [ [⟨cls_char '0', .one⟩, ⟨cls_char 'x', .one⟩,
      ⟨fun c => cls_range '0' '9' c || cls_range 'a' 'f' c || cls_range 'A' 'F' c, .plus⟩],
    [⟨cls_char '0', .one⟩, ⟨cls_range '0' '7', .plus⟩],
    [⟨cls_range '0' '9', .one⟩, ⟨cls_range '1' '9', .star⟩],
    [⟨cls_char '0', .one⟩] ]

/-! ## `assembler_main.cpp`: the assembler -/

/-- The ways in which the assembler stops without a result.  The first five are the
diagnostics written to `std::cerr` before `exit(EXIT_FAILURE)`, with exactly the values
that are printed (`line` is the printed line number, `index + 1`); the others are an
exception escaping from `std::stoull` and undefined behaviour (an index past the end of a
vector). -/
inductive asm_error where
  | unknown_operand (name : string) (line : Nat)
  | operands_count_mismatch (line : Nat) (passed : Nat)
  | unknown_instruction (name : string) (line : Nat)
  | undefined_identifier (label : string) (line : Nat)
  | must_be_immediate (line : Nat)
  | invalid_argument
  | out_of_range
  | undefined_behaviour
deriving DecidableEq

/-- The text written to `std::cerr` for a diagnostic (nothing for the last three). -/
def asm_error.message : asm_error → String
  | .unknown_operand name line =>
    "error: unknown operand \"" ++ String.mk name ++ "\". near line " ++ toString line ++ "\n"
  | .operands_count_mismatch line passed =>
    "error: operands count mismatch. 3 operands expected. near line " ++ toString line ++ "\n"
      ++ "       you passed " ++ toString passed ++ " operands.\n"
  | .unknown_instruction name line =>
    "error: unknown instruction \"" ++ String.mk name ++ "\". near line " ++ toString line
      ++ "\n"
  | .undefined_identifier label line =>
    "error: undefined identifier \"" ++ String.mk label ++ "\". near line " ++ toString line
      ++ "\n"
  | .must_be_immediate line =>
    "error: operand 2 must be immediate. near line " ++ toString line ++ "\n"
  | _ => ""

/-- Equality of results is decidable. -/
instance instDecidableEqExcept {ε α : Type} [DecidableEq ε] [DecidableEq α] :
    DecidableEq (Except ε α) := fun a b =>
  match a, b with
  | .ok x, .ok y =>
    if h : x = y then isTrue (by rw [h]) else isFalse (by intro e; injection e; contradiction)
  | .error x, .error y =>
    if h : x = y then isTrue (by rw [h]) else isFalse (by intro e; injection e; contradiction)
  | .ok _, .error _ => isFalse (by intro e; contradiction)
  | .error _, .ok _ => isFalse (by intro e; contradiction)

/-- Models `instruction_info_t = std::tuple<std::uint8_t, unsigned>`: operation code and format. -/
abbrev instruction_info_t := Nat × Nat
/-- Models `instruction_map_t`: mnemonic to operation code and format. -/
abbrev instruction_map_t := List (string × instruction_info_t)
/-- Models `register_map_t`: register name to register number. -/
abbrev register_map_t := List (string × Nat)
/-- Models `system_info_t = std::tuple<instruction_map_t, register_map_t>`. -/
abbrev system_info_t := instruction_map_t × register_map_t

/-- The value of a digit character, as `strtoull` reads it. -/
def digit_value (c : Char) : Option Nat :=
  if '0' ≤ c && c ≤ '9' then some (c.toNat - '0'.toNat)
  else if 'a' ≤ c && c ≤ 'z' then some (c.toNat - 'a'.toNat + 10)
  else if 'A' ≤ c && c ≤ 'Z' then some (c.toNat - 'A'.toNat + 10)
  else none

/-- Whether `c` is a digit of the given base. -/
def is_digit (base : Nat) (c : Char) : Bool :=
  match digit_value c with
  | some v => v < base
  | none => false

/-- Models `std::stoull(str, nullptr, base)`: leading white space is skipped, a sign is
accepted, with base 16 a prefix `0x` or `0X` before a hex digit is skipped, then the
longest run of digits is converted.  No digit at all throws `std::invalid_argument`, a
value that does not fit 64 bits throws `std::out_of_range`; a minus sign negates modulo
`2 ^ 64`. -/
def stoull (str : string) (base : Nat) : Except asm_error Nat :=
  let s := str.dropWhile isspace
  let signed : Bool × string :=
    match s with
    | '-' :: t => (true, t)
    | '+' :: t => (false, t)
    | _ => (false, s)
  let s :=
    match signed.2 with
    | '0' :: x :: h :: t =>
      if base = 16 && (x = 'x' || x = 'X') && is_digit 16 h then h :: t else signed.2
    | _ => signed.2
  let digits := s.takeWhile (is_digit base)
  if digits.isEmpty then .error .invalid_argument
  else
    let v := digits.foldl (fun acc c => acc * base + (digit_value c).getD 0) 0
    if 2 ^ 64 ≤ v then .error .out_of_range
    else .ok (if signed.1 then (2 ^ 64 - v) % 2 ^ 64 else v)

/-- The lambda `decode_immediate` of `assemble_line`. -/
def decode_immediate (num : string) : Except asm_error Nat :=
  if num.head? = some '0' && num.length ≠ 1 then
    if num[1]? = some 'x' then stoull (substr num 2) 16
    else stoull (substr num 1) 8
  else stoull num 10

/-- Models `decode_operand`: register number, register option and register type of an operand
string.  `op[0]` and `op[op.size()-1]` exist because `split` never returns an empty
vector. -/
def decode_operand (reg_map : register_map_t) (operand : string) (index : Nat) :
    Except asm_error (Nat × Nat × Nat) :=
  if operand.head? = some '[' then
    -- pointer
    let operand := regex_replace (regex_replace operand REGEX_OPEN []) REGEX_CLOSE []
    let op := (split operand (is_any_of "+".toList)).map trim
    match reg_map.lookup (op.getD 0 []) with
    | none => .error (.unknown_operand (op.getD 0 []) (index + 1))
    | some reg =>
      if 1 < op.length then
        match stoull (op.getD 1 []) 10 with
        | .error e => .error e
        | .ok option => .ok (reg, option, 1)
      else .ok (reg, 0, 1)
  else
    -- register
    let op := (split operand (is_any_of " ".toList)).map trim
    -- size is specified
    let option :=
      if 2 < op.length then
        if op.getD 0 [] = "byte".toList then 1
        else if op.getD 0 [] = "word".toList then 2
        else if op.getD 0 [] = "dword".toList then 3
        else 0
      else 0
    let re := op.getD (op.length - 1) []
    match reg_map.lookup re with
    | none => .error (.unknown_operand (op.getD 0 []) (index + 1))
    | some reg => .ok (reg, option, 0)

/-- The lambda `operand_count_check` of `assemble_line`. -/
def operand_count_check (index : Nat) (count passed : Nat) : Except asm_error Unit :=
  if passed ≠ count then .error (.operands_count_mismatch (index + 1) passed) else .ok ()

/-- The predicate given to `std::find_if` in `get_absolute_label_address`: `line` begins
with `label` (which already ends in `:`). -/
def label_matches (label line : string) : Bool :=
  if label.length > line.length then false
  else (List.range label.length).all fun i => decide (label.get? i = line.get? i)

/-- The lambda `get_absolute_label_address` of `assemble_line`: the index of the first
line that begins with `label:`. -/
def get_absolute_label_address (lines : List string) (index : Nat) (label : string) :
    Except asm_error Nat :=
  let label := label ++ ":".toList
  let itr := lines.findIdx (label_matches label)
  if itr = lines.length then
    .error (.undefined_identifier label.dropLast (index + 1))
  else .ok (itr % 2 ^ 64)

/-- Models `JUMP_TYPE_OPERATORS`: jump or call operators. -/
def JUMP_TYPE_OPERATORS : List string :=
  ["call".toList, "jmp".toList, "jr".toList, "je".toList, "jne".toList, "ja".toList,
   "jae".toList, "jb".toList, "jbe".toList]

/-- The `switch(type)` of `assemble_line`: the operands are decoded and written to the
members of the format.  `ins` already holds the opcode byte, `parts0` is the mnemonic. -/
def assemble_operands (rm : register_map_t) (lines : List string) (index : Nat)
    (parts0 : string) (type : Nat) (operand : List string) (ins : instruction) :
    Except asm_error instruction :=
  if type = THREE_ADDRESS then do
    operand_count_check index 3 operand.length
    let (rd, od, td) ← decode_operand rm (operand.getD 0 []) index
    let ins := three_address.destination.set ins rd
    let ins := three_address.destination_option.set ins (od % 2 ^ 32)
    let ins := three_address.type.set ins (three_address.type.get ins ||| (td <<< 2))
    let (rs1, os1, ts1) ← decode_operand rm (operand.getD 1 []) index
    let ins := three_address.source1.set ins rs1
    let ins := three_address.source1_option.set ins (os1 % 2 ^ 32)
    let ins := three_address.type.set ins (three_address.type.get ins ||| (ts1 <<< 1))
    let (rs2, os2, ts2) ← decode_operand rm (operand.getD 2 []) index
    let ins := three_address.source2.set ins rs2
    let ins := three_address.source2_option.set ins (os2 % 2 ^ 32)
    let ins := three_address.type.set ins (three_address.type.get ins ||| ts2)
    pure ins
  else if type = BINOMIAL then do
    operand_count_check index 2 operand.length
    let (o1, oo1, ot1) ← decode_operand rm (operand.getD 0 []) index
    let ins := binomial.operand1.set ins o1
    let ins := binomial.operand1_option.set ins (oo1 % 2 ^ 32)
    let ins := binomial.type.set ins (binomial.type.get ins ||| (ot1 <<< 1))
    let (o2, oo2, ot2) ← decode_operand rm (operand.getD 1 []) index
    let ins := binomial.operand2.set ins o2
    let ins := binomial.operand2_option.set ins (oo2 % 2 ^ 32)
    let ins := binomial.type.set ins (binomial.type.get ins ||| ot2)
    pure ins
  else if type = UNARY then do
    operand_count_check index 1 operand.length
    if regex_match (operand.getD 0 []) NUMBERS then do
      let immediate ← decode_immediate (operand.getD 0 [])
      let ins := unary.imm.immediate.set ins immediate
      let ins := unary.type.set ins 0b11
      pure ins
    else if parts0 ∈ JUMP_TYPE_OPERATORS then do
      let absolute_address ← get_absolute_label_address lines index (operand.getD 0 [])
      let ins := unary.imm.immediate.set ins absolute_address
      let ins := unary.type.set ins 0b11
      pure ins
    else do
      let (r, ro, rt) ← decode_operand rm (operand.getD 0 []) index
      let ins := unary.reg.operand.set ins r
      let ins := unary.reg.operand_option.set ins ro
      let ins := unary.type.set ins rt
      pure ins
  else if type = REGISTER_IMMEDIATE then do
    operand_count_check index 2 operand.length
    let (r, _, _) ← decode_operand rm (operand.getD 0 []) index
    let ins := register_immediate.reg.set ins r
    if !regex_match (operand.getD 1 []) NUMBERS then
      throw (.must_be_immediate (index + 1))
    let immediate ← decode_immediate (operand.getD 1 [])
    let ins := register_immediate.immediate.set ins immediate
    pure ins
  else pure ins

/-- The part of `assemble_line` after the pseudo-instructions are processed: the lookup
of the mnemonic `parts[0]`, the opcode byte, the split of `parts[1]` into operands and
the `switch(type)`.  Reading `parts[1]` of a one-element vector is undefined. -/
def assemble_parts (sys_info : system_info_t) (lines : List string) (index : Nat)
    (parts : List string) : Except asm_error instruction :=
  match sys_info.1.lookup (parts.getD 0 []) with
  | none => .error (.unknown_instruction (parts.getD 0 []) (index + 1))
  | some (number, type) => do
    -- set instruction opcode
    let ins : instruction := 0
    let ins := instruction.type.set ins type
    let ins := instruction.instruction.set ins number
    let operand ←
      if type ≠ NO_OPERAND then
        match parts[1]? with
        | none => throw .undefined_behaviour
        | some p => pure (split p (is_any_of ",".toList))
      else pure []
    assemble_operands sys_info.2 lines index (parts.getD 0 []) type operand ins

/-- The block "process pseudo-instructions" of `assemble_line`. -/
def process_pseudo_instructions (index : Nat) (parts : List string) :
    Except asm_error (List string) :=
  if parts.getD 0 [] = "nop".toList then
    .ok (parts.set 0 "xchg".toList ++ ["r0,r0".toList])
  else if parts.getD 0 [] = "raise".toList then
    .ok (parts.set 0 "cmp".toList ++ ["r0,r0".toList])
  else if parts.getD 0 [] = "mov".toList then
    match parts[1]? with
    | none => .error .undefined_behaviour
    | some p => do
      let operand := split p (is_any_of ",".toList)
      operand_count_check index 2 operand.length
      pure ((parts.set 0 "add".toList).set 1
        (operand.getD 0 [] ++ ",".toList ++ operand.getD 1 [] ++ ",r0".toList))
  else .ok parts

/-- The block "check line has label" of `assemble_line`: the text after the first `:`,
trimmed. -/
def strip_label (line : string) : string :=
  match find line ':' with
  | some colon_index => trim (substr line (colon_index + 1))
  | none => trim line

/-- Models `assemble_line`: assembles the line `lines[index]`; `none` is `boost::none`, the
result for a line that holds a label only. -/
def assemble_line (sys_info : system_info_t) (lines : List string) (index : Nat) :
    Except asm_error (Option instruction) :=
  match lines[index]? with
  | none => .error .undefined_behaviour
  | some line =>
    let line := strip_label line
    if line.isEmpty then .ok none
    else do
      let parts := split line (is_any_of " ".toList)
      let parts ← process_pseudo_instructions index parts
      let ins ← assemble_parts sys_info lines index parts
      pure (some ins)

/-- Models `std::remove_if(first, last, pred)` on a vector of strings, without the `erase` that
would shrink the vector.  The elements that do not satisfy `pred` are moved to the front,
in order; the vector keeps its length.  Behind them every slot holds what is left in it:
an element that satisfies `pred` and was never overwritten, or a moved-from string, which
is empty. -/
def remove_if (lines : List string) (pred : string → Bool) : List string :=
  let kept := lines.filter fun line => !pred line
  kept ++ (lines.drop kept.length).map fun line => if pred line then line else []

/-- Models `reformat_data`: reformats the source code into lines.  The result of
`std::remove_if` (the new logical end) is discarded by the source, so the vector that is
returned has one entry for every piece of the split. -/
def reformat_data (content : string) : List string :=
  -- convert to lower case
  let content := content.map tolower
  -- remove useless spaces
  let content := regex_replace content REGEX_COMMA ",".toList
  let content := regex_replace content REGEX_COLON ":".toList
  -- split lines
  let lines := split content (is_any_of "\n;".toList)
  let lines := lines.map trim
  -- remove empty line
  remove_if lines fun line => line.isEmpty

/-- The loop of `assemble` over the line indices `i`, `i + 1`, ... (`n` of them). -/
def assemble.loop (sys_info : system_info_t) (lines : List string) :
    Nat → Nat → List instruction → Except asm_error (List instruction)
  | 0, _, instructions => .ok instructions
  | n + 1, i, instructions =>
    match assemble_line sys_info lines i with
    | .error e => .error e
    | .ok none => assemble.loop sys_info lines n (i + 1) instructions
    | .ok (some ins) => assemble.loop sys_info lines n (i + 1) (instructions ++ [ins])

/-- Models `assemble`: assembles all lines of a source text (the content of the input file). -/
def assemble (sys_info : system_info_t) (content : string) :
    Except asm_error (List instruction) :=
  let lines := reformat_data content
  assemble.loop sys_info lines lines.length 0 []

/-- The table `instruction_map` of `main`. -/
def instruction_map : instruction_map_t :=
  [ ("add".toList,   (0b00000, THREE_ADDRESS)),
    ("sub".toList,   (0b00001, THREE_ADDRESS)),
    ("mul".toList,   (0b00010, THREE_ADDRESS)),
    ("div".toList,   (0b00011, THREE_ADDRESS)),
    ("shr".toList,   (0b00100, THREE_ADDRESS)),
    ("shl".toList,   (0b00101, THREE_ADDRESS)),
    ("inc".toList,   (0b00000, UNARY)),
    ("dec".toList,   (0b00001, UNARY)),
    ("not".toList,   (0b00000, BINOMIAL)),
    ("and".toList,   (0b00110, THREE_ADDRESS)),
    ("or".toList,    (0b00111, THREE_ADDRESS)),
    ("xor".toList,   (0b01000, THREE_ADDRESS)),

    ("call".toList,  (0b00010, UNARY)),
    ("jmp".toList,   (0b00011, UNARY)),
    ("jr".toList,    (0b00100, UNARY)),

    ("je".toList,    (0b00101, UNARY)),
    ("jne".toList,   (0b00110, UNARY)),
    ("ja".toList,    (0b00111, UNARY)),
    ("jae".toList,   (0b01000, UNARY)),
    ("jb".toList,    (0b01001, UNARY)),
    ("jbe".toList,   (0b01010, UNARY)),

    ("push".toList,  (0b01011, UNARY)),
    ("pop".toList,   (0b01100, UNARY)),

    ("hlt".toList,   (0b00000, NO_OPERAND)),
    ("xchg".toList,  (0b00001, BINOMIAL)),
    ("ret".toList,   (0b00001, NO_OPERAND)),
    ("cmp".toList,   (0b00010, BINOMIAL)),
    ("asgn".toList,  (0b00000, REGISTER_IMMEDIATE)),
    ("asgnh".toList, (0b00001, REGISTER_IMMEDIATE)),
    ("asgnl".toList, (0b00010, REGISTER_IMMEDIATE)) ]

/-- The table `register_map` of `main`; `BOOST_PP_REPEAT(32, RS_REGISTER, 0)` gives the
entries `rs0` .. `rs31`, `BOOST_PP_REPEAT(32, RT_REGISTER, 0)` the entries `rt0` ..
`rt31`. -/
def register_map : register_map_t :=
  [("r0".toList, reg.id.R0)]
    ++ (List.range 32).map (fun n => (("rs" ++ toString n).toList, reg.id.RS.getD n 0))
    ++ (List.range 32).map (fun n => (("rt" ++ toString n).toList, reg.id.RT.getD n 0))
    ++ [("ip".toList, reg.id.IP), ("flags".toList, reg.id.FLAGS), ("sp".toList, reg.id.SP),
        ("bp".toList, reg.id.BP)]

/-- The value `system_info_t(instruction_map, register_map)` that `main` passes to
`assemble`. -/
def system_info : system_info_t := (instruction_map, register_map)

/-! ## `emulator_main.cpp`: the emulator -/

/-- Class `flags`: the flags register, one 64-bit word. -/
structure flags where
  _value : Nat
deriving DecidableEq

/-- Models `flags::_set(bit, w)`. -/
def flags._set (f : flags) (bit : Nat) (w : Bool) : flags :=
  if w then ⟨(f._value ||| (1 <<< bit)) % 2 ^ 64⟩
  else ⟨f._value &&& (2 ^ 64 - 1 - (1 <<< bit) % 2 ^ 64)⟩

/-- Models `flags::_get(bit)`. -/
def flags._get (f : flags) (bit : Nat) : Bool :=
  (f._value &&& (1 <<< bit)) != 0

/-- Models `flags::equal(bool)`: set equal flag. -/
def flags.set_equal (f : flags) (w : Bool) : flags := f._set 0 w
/-- Models `flags::equal()`: get equal flag. -/
def flags.equal (f : flags) : Bool := f._get 0
/-- Models `flags::above(bool)`: set above flag. -/
def flags.set_above (f : flags) (w : Bool) : flags := f._set 1 w
/-- Models `flags::above()`: get above flag. -/
def flags.above (f : flags) : Bool := f._get 1
/-- Models `flags::halt(bool)`: set halt flag. -/
def flags.set_halt (f : flags) (w : Bool) : flags := f._set 2 w
/-- Models `flags::halt()`: get halt flag. -/
def flags.halt (f : flags) : Bool := f._get 2

/-- The ways in which the emulator stops without a state: undefined behaviour of the C++
(an index past the end of the instruction vector, `back()` of an empty stack, a division
by zero, a shift by 64 or more), and, for the run loop only, an exhausted step budget. -/
inductive fault where
  | undefined_behaviour
  | out_of_fuel
deriving DecidableEq

/-- Class `stack`: the stack emulator, a vector of bytes. -/
structure stack where
  _stack : List Nat
deriving DecidableEq

/-- Models `stack::_push_impl(data, len)`: push backend. -/
def stack._push_impl (s : stack) (data : List Nat) (len : Nat) : stack :=
  ⟨s._stack ++ data.take len⟩

/-- The loop of `stack::_pop_impl`, at counter `i` with `n` iterations left:
`buf[len-i-1]=_stack.back(); _stack.pop_back();`. -/
def stack._pop_impl.loop (len : Nat) :
    Nat → Nat → stack → List Nat → Except fault (stack × List Nat)
  | 0, _, s, buf => .ok (s, buf)
  | n + 1, i, s, buf =>
    match s._stack.getLast? with
    | none => .error .undefined_behaviour
    | some b => stack._pop_impl.loop len n (i + 1) ⟨s._stack.dropLast⟩ (buf.set (len - i - 1) b)

/-- Models `stack::_pop_impl(buf, len)`: pop backend; returns the stack and the buffer. -/
def stack._pop_impl (s : stack) (buf : List Nat) (len : Nat) :
    Except fault (stack × List Nat) :=
  stack._pop_impl.loop len len 0 s buf

/-- Models `stack::push(std::uint64_t)`: push as 64bit. -/
def stack.push64 (s : stack) (_64 : Nat) : stack := s._push_impl (to_bytes 8 _64) 8
/-- Models `stack::push(std::uint32_t)`: push as 32bit. -/
def stack.push32 (s : stack) (_32 : Nat) : stack := s._push_impl (to_bytes 4 _32) 4
/-- Models `stack::push(std::uint16_t)`: push as 16bit. -/
def stack.push16 (s : stack) (_16 : Nat) : stack := s._push_impl (to_bytes 2 _16) 2
/-- Models `stack::push(std::uint8_t)`: push as 8bit. -/
def stack.push8 (s : stack) (_8 : Nat) : stack := s._push_impl (to_bytes 1 _8) 1

/-- Models `stack::pop(std::uint64_t&)`: pop as 64bit; `_64` is the old value of the buffer. -/
def stack.pop64 (s : stack) (_64 : Nat) : Except fault (stack × Nat) :=
  (s._pop_impl (to_bytes 8 _64) 8).map fun r => (r.1, of_bytes r.2)
/-- Models `stack::pop(std::uint32_t&)`: pop as 32bit. -/
def stack.pop32 (s : stack) (_32 : Nat) : Except fault (stack × Nat) :=
  (s._pop_impl (to_bytes 4 _32) 4).map fun r => (r.1, of_bytes r.2)
/-- Models `stack::pop(std::uint16_t&)`: pop as 16bit. -/
def stack.pop16 (s : stack) (_16 : Nat) : Except fault (stack × Nat) :=
  (s._pop_impl (to_bytes 2 _16) 2).map fun r => (r.1, of_bytes r.2)
/-- Models `stack::pop(std::uint8_t&)`: pop as 8bit. -/
def stack.pop8 (s : stack) (_8 : Nat) : Except fault (stack × Nat) :=
  (s._pop_impl (to_bytes 1 _8) 1).map fun r => (r.1, of_bytes r.2)

/-- Class `cpu`: the cpu emulator.  `_registers` is the array of 128 words.  `_cerr`
records the calls of `raise_exception`: the exception types reported on `std::cerr`,
oldest first (the text of the dump is not modelled). -/
structure cpu where
  _registers : List Nat
  _flags : flags
  _instructions : List instruction
  _stack : stack
  _cerr : List Nat
deriving DecidableEq

/-- Models `cpu::IP`. -/
def cpu.IP : Nat := reg.id.IP
/-- Models `cpu::UD`: the exception type "undefined instruction". -/
def cpu.UD : Nat := 0

/-- The constructor `cpu(std::vector<instruction> i)`: registers and flags are
zero-initialised, the stack is empty. -/
def cpu.new (i : List instruction) : cpu :=
  ⟨List.replicate 128 0, ⟨0⟩, i, ⟨[]⟩, []⟩

/-- Reading `_registers[i]`. -/
def cpu.reg (c : cpu) (i : Nat) : Nat := c._registers.getD i 0

/-- Writing `_registers[i]`. -/
def cpu.set_reg (c : cpu) (i : Nat) (v : Nat) : cpu :=
  { c with _registers := c._registers.set i v }

/-- Models `cpu::halted`. -/
def cpu.halted (c : cpu) : Bool := c._flags.halt

/-- Models `cpu::raise_exception(type)`: the report on `std::cerr`, then `_flags.halt(false)`. -/
def cpu.raise_exception (c : cpu) (type : Nat) : cpu :=
  { c with _cerr := c._cerr ++ [type], _flags := c._flags.set_halt false }

/-- Models `cpu::has_next`. -/
def cpu.has_next (c : cpu) : Bool := c._instructions.length > c.reg cpu.IP

/-- The case `THREE_ADDRESS` of `cpu::next`. -/
def cpu.next_three_address (c : cpu) (ins : instruction) : Except fault cpu :=
  let dest := three_address.destination.get ins
  let src1 := c.reg (three_address.source1.get ins)
  let src2 := c.reg (three_address.source2.get ins)
  match instruction.instruction.get ins with
  | 0b00000 => .ok (c.set_reg dest ((src1 + src2) % 2 ^ 64)) -- add
  | 0b00001 => .ok (c.set_reg dest ((src1 + (2 ^ 64 - src2 % 2 ^ 64)) % 2 ^ 64)) -- sub
  | 0b00010 => .ok (c.set_reg dest ((src1 * src2) % 2 ^ 64)) -- mul
  | 0b00011 => -- div
    if src2 = 0 then .error .undefined_behaviour else .ok (c.set_reg dest (src1 / src2))
  | 0b00100 => -- shr
    if 64 ≤ src2 then .error .undefined_behaviour else .ok (c.set_reg dest (src1 >>> src2))
  | 0b00101 => -- shl
    if 64 ≤ src1 then .error .undefined_behaviour
    else .ok (c.set_reg dest ((src1 <<< src1) % 2 ^ 64))
  | 0b00110 => .ok (c.set_reg dest (src1 &&& src2)) -- and
  | 0b00111 => .ok (c.set_reg dest (src1 ||| src2)) -- or
  | 0b01000 => .ok (c.set_reg dest (src1 ^^^ src2)) -- xor
  | _ => .ok (c.raise_exception cpu.UD)

/-- The case `BINOMIAL` of `cpu::next`. -/
def cpu.next_binomial (c : cpu) (ins : instruction) : Except fault cpu :=
  let operand1 := binomial.operand1.get ins
  let operand2 := binomial.operand2.get ins
  let op1 := c.reg operand1
  let op2 := c.reg operand2
  match instruction.instruction.get ins with
  | 0b00000 => .ok (c.set_reg operand1 ((2 ^ 64 - 1) ^^^ op2)) -- not
  | 0b00001 => -- xchg
    if operand1 ≠ operand2 then .ok ((c.set_reg operand1 op2).set_reg operand2 op1)
    else .ok c
  | 0b00010 => -- cmp
    let c := { c with _flags := c._flags.set_equal (op1 == op2) }
    .ok { c with _flags := c._flags.set_equal (decide (op1 > op2)) }
  | _ => .ok (c.raise_exception cpu.UD)

/-- The first `switch(ins.u.type)` of the case `UNARY`: the value of `data`. -/
def cpu.unary_data (c : cpu) (ins : instruction) : Nat :=
  match unary.type.get ins with
  | 0b00 => c.reg (unary.reg.operand.get ins) -- register
  | 0b01 => 0 -- pointer: memory not implemented
  | 0b11 => unary.imm.immediate.get ins -- immediate
  | _ => 0

/-- The `switch(ins.instruction.instruction)` of the case `UNARY`: the state, `data`,
`assign` and `jump` after it; `none` for the `default` label. -/
def cpu.unary_switch (c : cpu) (ins : instruction) (data : Nat) :
    Except fault (Option (cpu × Nat × Bool × Bool)) :=
  match instruction.instruction.get ins with
  | 0b00000 => .ok (some (c, (data + 1) % 2 ^ 64, true, false)) -- inc
  | 0b00001 => .ok (some (c, (data + (2 ^ 64 - 1)) % 2 ^ 64, true, false)) -- dec
  | 0b01011 => .ok (some ({ c with _stack := c._stack.push64 data }, data, false, false)) -- push
  | 0b01100 => -- pop
    match c._stack.pop64 data with
    | .error e => .error e
    | .ok (s, data) => .ok (some ({ c with _stack := s }, data, true, false))
  | 0b00010 => -- call
    .ok (some ({ c with _stack := c._stack.push64 (c.reg cpu.IP) }, data, false, true))
  | 0b00011 => .ok (some (c, data, false, true)) -- jmp
  | 0b00100 => .ok (some (c, data, false, true)) -- jr
  | 0b00101 => .ok (some (c, data, false, c._flags.equal)) -- je
  | 0b00110 => .ok (some (c, data, false, !c._flags.equal)) -- jne
  | 0b00111 => .ok (some (c, data, false, c._flags.above)) -- ja
  | 0b01000 => .ok (some (c, data, false, c._flags.equal || c._flags.above)) -- jae
  | 0b01001 => .ok (some (c, data, false, !c._flags.equal && !c._flags.above)) -- jb
  | 0b01010 => .ok (some (c, data, false, !c._flags.above)) -- jbe
  | _ => .ok none

/-- The end of the case `UNARY`: `if(assign) ...` and `if(jump) ...`. -/
def cpu.unary_finish (c : cpu) (ins : instruction) (data : Nat) (assign jump : Bool) : cpu :=
  let c :=
    if assign then
      match unary.type.get ins with
      | 0b00 => c.set_reg (unary.reg.operand.get ins) data -- register
      | _ => c -- pointer: memory not implemented
    else c
  if jump then c.set_reg cpu.IP data else c

/-- The case `UNARY` of `cpu::next`. -/
def cpu.next_unary (c : cpu) (ins : instruction) : Except fault cpu :=
  match c.unary_switch ins (c.unary_data ins) with
  | .error e => .error e
  | .ok none => .ok (c.raise_exception cpu.UD)
  | .ok (some (c, data, assign, jump)) => .ok (c.unary_finish ins data assign jump)

/-- The case `NO_OPERAND` of `cpu::next`. -/
def cpu.next_no_operand (c : cpu) (ins : instruction) : Except fault cpu :=
  match instruction.instruction.get ins with
  | 0b00000 => .ok { c with _flags := c._flags.set_halt true } -- hlt
  | 0b00001 => -- ret
    match c._stack.pop64 (c.reg cpu.IP) with
    | .error e => .error e
    | .ok (s, ip) => .ok ({ c with _stack := s }.set_reg cpu.IP ip)
  | _ => .ok (c.raise_exception cpu.UD)

/-- The case `REGISTER_IMMEDIATE` of `cpu::next`. -/
def cpu.next_register_immediate (c : cpu) (ins : instruction) : Except fault cpu :=
  let reg := register_immediate.reg.get ins
  let imm := register_immediate.immediate.get ins
  match instruction.instruction.get ins with
  | 0 => .ok (c.set_reg reg imm) -- asgn
  | 0b00001 => -- asgnh
    let imm := imm &&& 0xffffffff
    let imm := (imm <<< 32) % 2 ^ 64
    let imm := imm ||| (c.reg reg &&& 0xffffffff)
    .ok (c.set_reg reg imm)
  | 0b00010 => -- asgnl
    let imm := imm &&& 0xffffffff
    let imm := imm ||| (c.reg reg &&& (0xffffffff <<< 32))
    .ok (c.set_reg reg imm)
  | _ => .ok (c.raise_exception cpu.UD)

/-- Models `cpu::next`: run next instruction. -/
def cpu.next (c : cpu) : Except fault cpu :=
  if c._flags.halt then .ok c
  else
    match c._instructions[c.reg cpu.IP]? with
    | none => .error .undefined_behaviour
    | some ins =>
      let c := c.set_reg cpu.IP ((c.reg cpu.IP + 1) % 2 ^ 64)
      let type := instruction.type.get ins
      if type = THREE_ADDRESS then c.next_three_address ins
      else if type = BINOMIAL then c.next_binomial ins
      else if type = UNARY then c.next_unary ins
      else if type = NO_OPERAND then c.next_no_operand ins
      else if type = REGISTER_IMMEDIATE then c.next_register_immediate ins
      else .ok c

/-- The loop `while(c.has_next() && !c.halted()) c.next();` of `main`, with a budget of
`fuel` cycles: the state in which the loop ends, or `out_of_fuel` when the loop is still
running after `fuel` cycles. -/
def run : Nat → cpu → Except fault cpu
  | 0, c => if c.has_next && !c.halted then .error .out_of_fuel else .ok c
  | fuel + 1, c =>
    if c.has_next && !c.halted then
      match c.next with
      | .error e => .error e
      | .ok c => run fuel c
    else .ok c

/-- The emulator `main` on a binary file with the given bytes. -/
def emulator_main (fuel : Nat) (file : List Nat) : Except fault cpu :=
  run fuel (cpu.new (load_binary file))

/-! ## States and runs of the emulator -/

/-- The states that the C++ types allow: 128 registers of 64 bits, a 64-bit flags word, a
stack of bytes, and an instruction vector whose size fits 64 bits. -/
def cpu.wf (c : cpu) : Prop :=
  c._registers.length = 128 ∧ (∀ v ∈ c._registers, v < 2 ^ 64) ∧ c._flags._value < 2 ^ 64
    ∧ (∀ b ∈ c._stack._stack, b < 256) ∧ c._instructions.length < 2 ^ 64

instance cpu.wf.instDecidable (c : cpu) : Decidable c.wf := by
  unfold cpu.wf
  infer_instance

/-- Executing `n` cycles: `n` calls of `cpu::next`, one after the other. -/
def cycles : Nat → cpu → Except fault cpu
  | 0, c => .ok c
  | n + 1, c =>
    match c.next with
    | .error e => .error e
    | .ok c => cycles n c

/-- Whether a cycle of `cpu::next` on the word `ins` assigns to `_registers[r]` (the
increment of the instruction pointer at the fetch and the assignment `_registers[IP]=data`
of a jump apart): `dest=...` in a defined case of THREE_ADDRESS; `op1= ~op2` of `not`;
`std::swap(op1, op2)` of `xchg` when the two operands differ; `_registers[operand]=data`
of `inc`, `dec` and `pop` (the cases that set `assign`) with the register subtype;
`reg=imm` in a defined case of REGISTER_IMMEDIATE.  A word that only reads `r` (`cmp`,
`push`, a source operand, `xchg r,r`) does not write it. -/
def writes_register (ins : instruction) (r : Nat) : Bool :=
  decide
    ((instruction.type.get ins = THREE_ADDRESS ∧ instruction.instruction.get ins ≤ 0b01000
        ∧ three_address.destination.get ins = r)
      ∨ (instruction.type.get ins = BINOMIAL ∧ instruction.instruction.get ins = 0b00000
          ∧ binomial.operand1.get ins = r)
      ∨ (instruction.type.get ins = BINOMIAL ∧ instruction.instruction.get ins = 0b00001
          ∧ binomial.operand1.get ins ≠ binomial.operand2.get ins
          ∧ (binomial.operand1.get ins = r ∨ binomial.operand2.get ins = r))
      ∨ (instruction.type.get ins = UNARY ∧ unary.type.get ins = 0b00
          ∧ (instruction.instruction.get ins = 0b00000
              ∨ instruction.instruction.get ins = 0b00001
              ∨ instruction.instruction.get ins = 0b01100)
          ∧ unary.reg.operand.get ins = r)
      ∨ (instruction.type.get ins = REGISTER_IMMEDIATE
          ∧ instruction.instruction.get ins ≤ 0b00010
          ∧ register_immediate.reg.get ins = r))

/-! ## Sequences of stack operations -/

/-- The overload of `stack::push` for an unsigned integer of `width` bytes (1, 2, 4 or
8). -/
def stack.push (s : stack) (width value : Nat) : stack :=
  match width with
  | 1 => s.push8 value
  | 2 => s.push16 value
  | 4 => s.push32 value
  | _ => s.push64 value

/-- The overload of `stack::pop` for an unsigned integer of `width` bytes (1, 2, 4 or 8);
`old` is the value that the buffer holds before the call. -/
def stack.pop (s : stack) (width old : Nat) : Except fault (stack × Nat) :=
  match width with
  | 1 => s.pop8 old
  | 2 => s.pop16 old
  | 4 => s.pop32 old
  | _ => s.pop64 old

/-- Pushing a list of values in order, each given as (width, value). -/
def stack.push_all (s : stack) : List (Nat × Nat) → stack
  | [] => s
  | (width, value) :: rest => (s.push width value).push_all rest

/-- Popping in order, each pop given as (width, old value of the buffer); the result is
the final stack and the values popped, in the order of the pops. -/
def stack.pop_all (s : stack) : List (Nat × Nat) → Except fault (stack × List Nat)
  | [] => .ok (s, [])
  | (width, old) :: rest =>
    match s.pop width old with
    | .error e => .error e
    | .ok (s, value) =>
      match s.pop_all rest with
      | .error e => .error e
      | .ok (s, values) => .ok (s, value :: values)

/-! ## Member lists of the formats -/

/-- The members of `struct three_address`, in declaration order. -/
def three_address.fields : List bitfield :=
  [three_address.instruction, three_address.type, three_address.destination,
   three_address.source1, three_address.source2, three_address.destination_option,
   three_address.source1_option, three_address.source2_option, three_address._reserved]

/-- The members of `struct binomial`, in declaration order. -/
def binomial.fields : List bitfield :=
  [binomial.instruction, binomial.type, binomial.operand1, binomial.operand2,
   binomial.operand1_option, binomial.operand2_option]

/-- The members of `struct register_immediate`, in declaration order. -/
def register_immediate.fields : List bitfield :=
  [register_immediate.instruction, register_immediate.reg, register_immediate.immediate]

/-! # Theorems -/

/-! ## Bit-fields -/


theorem bitfield.testBit_get (f : bitfield) (x i : Nat) :
    (f.get x).testBit i = (decide (i < f.width) && x.testBit (f.offset + i)) := by
  simp [bitfield.get, Nat.testBit_mod_two_pow, Nat.testBit_shiftRight]

theorem bitfield.testBit_set (f : bitfield) (x v j : Nat) :
    (f.set x v).testBit j =
      if j < f.offset then x.testBit j
      else if j < f.offset + f.width then v.testBit (j - f.offset)
      else x.testBit j := by
  simp only [bitfield.set, Nat.testBit_or, Nat.testBit_mod_two_pow, Nat.testBit_shiftRight,
    Nat.testBit_shiftLeft]
  by_cases h1 : j < f.offset
  · have h2 : ¬ j ≥ f.offset := by omega
    have h3 : ¬ j ≥ f.offset + f.width := by omega
    simp [h1, h2, h3]
  · by_cases h2 : j < f.offset + f.width
    · have h3 : ¬ j ≥ f.offset + f.width := by omega
      have h4 : j ≥ f.offset := by omega
      have h5 : j - f.offset < f.width := by omega
      simp [h1, h2, h3, h4, h5]
    · have h3 : j ≥ f.offset + f.width := by omega
      have h4 : j ≥ f.offset := by omega
      have h5 : ¬ j - f.offset < f.width := by omega
      have h6 : f.offset + f.width + (j - (f.offset + f.width)) = j := by omega
      simp [h1, h2, h3, h4, h5, h6]

theorem bitfield.get_set_same (f : bitfield) (x v : Nat) :
    f.get (f.set x v) = v % 2 ^ f.width := by
  apply Nat.eq_of_testBit_eq
  intro i
  rw [bitfield.testBit_get, bitfield.testBit_set, Nat.testBit_mod_two_pow]
  by_cases h : i < f.width
  · have h1 : ¬ f.offset + i < f.offset := by omega
    have h2 : f.offset + i < f.offset + f.width := by omega
    simp [h, h1, h2]
  · simp [h]

theorem bitfield.get_set_disjoint (f g : bitfield) (x v : Nat)
    (h : f.offset + f.width ≤ g.offset ∨ g.offset + g.width ≤ f.offset) :
    g.get (f.set x v) = g.get x := by
  apply Nat.eq_of_testBit_eq
  intro i
  rw [bitfield.testBit_get, bitfield.testBit_get, bitfield.testBit_set]
  by_cases hi : i < g.width
  · rcases h with h | h
    · have h1 : ¬ g.offset + i < f.offset := by omega
      have h2 : ¬ g.offset + i < f.offset + f.width := by omega
      simp [h1, h2]
    · have h1 : g.offset + i < f.offset := by omega
      simp [h1]
  · simp [hi]

theorem bitfield.get_lt (f : bitfield) (x : Nat) : f.get x < 2 ^ f.width := by
  unfold bitfield.get
  exact Nat.mod_lt _ (by positivity)

theorem bitfield.set_lt (f : bitfield) (x v n : Nat) (hx : x < 2 ^ n)
    (hf : f.offset + f.width ≤ n) : f.set x v < 2 ^ n := by
  apply Nat.lt_pow_two_of_testBit
  intro i hi
  rw [bitfield.testBit_set]
  have h1 : ¬ i < f.offset := by omega
  have h2 : ¬ i < f.offset + f.width := by omega
  simp only [h1, h2, if_false]
  exact Nat.testBit_lt_two_pow (lt_of_lt_of_le hx (Nat.pow_le_pow_right (by norm_num) hi))


/-! ## The binary file codec -/

theorem to_bytes_length (n x : Nat) : (to_bytes n x).length = n := by
  induction n generalizing x with
  | zero => rfl
  | succ n ih => simp [to_bytes, ih]

theorem to_bytes_lt (n x : Nat) : ∀ b ∈ to_bytes n x, b < 256 := by
  induction n generalizing x with
  | zero => simp [to_bytes]
  | succ n ih =>
    intro b hb
    simp only [to_bytes, List.mem_cons] at hb
    rcases hb with hb | hb
    · omega
    · exact ih _ b hb

theorem of_bytes_to_bytes (n x : Nat) : of_bytes (to_bytes n x) = x % 256 ^ n := by
  induction n generalizing x with
  | zero => simp [to_bytes, of_bytes, Nat.mod_one]
  | succ n ih =>
    simp only [to_bytes, of_bytes, ih]
    rw [pow_succ, Nat.mul_comm (256 ^ n) 256, Nat.mod_mul]

theorem to_bytes_of_bytes (bs : List Nat) (h : ∀ b ∈ bs, b < 256) :
    to_bytes bs.length (of_bytes bs) = bs := by
  induction bs with
  | nil => rfl
  | cons b bs ih =>
    have hb : b < 256 := h b (List.mem_cons_self _ _)
    have ih := ih fun c hc => h c (List.mem_cons_of_mem _ hc)
    simp only [List.length_cons, to_bytes, of_bytes]
    have h1 : (b + 256 * of_bytes bs) % 256 = b := by omega
    have h2 : (b + 256 * of_bytes bs) / 256 = of_bytes bs := by omega
    rw [h1, h2, ih]

theorem of_bytes_append_zeros (bs : List Nat) (k : Nat) :
    of_bytes (bs ++ List.replicate k 0) = of_bytes bs := by
  induction bs with
  | nil =>
    induction k with
    | zero => rfl
    | succ k ih =>
      simp only [List.nil_append] at ih
      simp [List.replicate_succ, of_bytes, ih]
  | cons b bs ih => simp [of_bytes, ih]

theorem to_bytes_zero (n : Nat) : to_bytes n 0 = List.replicate n 0 := by
  induction n with
  | zero => rfl
  | succ n ih => simp [to_bytes, List.replicate_succ, ih]

/-- Swapping the bytes twice gives the word back. -/
theorem be64toh_htobe64 (x : Nat) (hx : x < 2 ^ 64) : be64toh (htobe64 x) = x := by
  unfold be64toh htobe64
  have hl : (to_bytes 8 x).reverse.length = 8 := by simp [to_bytes_length]
  have h := to_bytes_of_bytes (to_bytes 8 x).reverse
    (fun b hb => to_bytes_lt 8 x b (List.mem_reverse.mp hb))
  rw [hl] at h
  rw [h, List.reverse_reverse, of_bytes_to_bytes]
  exact Nat.mod_eq_of_lt (by norm_num at hx ⊢; exact hx)

/-- The 8 bytes written for one word, read back into a zeroed instruction. -/
theorem of_bytes_record (x : Nat) :
    of_bytes (to_bytes 8 (htobe64 x) ++ List.replicate 8 0) = htobe64 x := by
  rw [of_bytes_append_zeros, of_bytes_to_bytes]
  unfold htobe64
  have hl : (to_bytes 8 x).reverse.length = 8 := by simp [to_bytes_length]
  have h := to_bytes_of_bytes (to_bytes 8 x).reverse
    (fun b hb => to_bytes_lt 8 x b (List.mem_reverse.mp hb))
  rw [hl] at h
  have h2 := of_bytes_to_bytes 8 (of_bytes (to_bytes 8 x).reverse)
  rw [h] at h2
  exact h2.symm

theorem data_get (x : Nat) : instruction.data.get x = x % 2 ^ 64 := by
  simp [bitfield.get, instruction.data]

theorem data_set (x v : Nat) (hx : x < 2 ^ 64) :
    instruction.data.set x v = v % 2 ^ 64 := by
  have h : x >>> 64 = 0 := by
    rw [Nat.shiftRight_eq_div_pow]
    exact Nat.div_eq_of_lt hx
  simp [bitfield.set, instruction.data, h, Nat.mod_one]

theorem htobe64_lt (x : Nat) : htobe64 x < 2 ^ 64 := by
  have h := of_bytes_record x
  rw [of_bytes_append_zeros, of_bytes_to_bytes] at h
  rw [← h]
  exact Nat.mod_lt _ (by norm_num)

theorem load_binary_loop_save_binary (seq acc : List instruction) :
    load_binary.loop ⟨save_binary seq, false⟩ acc
      = acc ++ seq.map instruction.data.get ++ [0] := by
  induction seq generalizing acc with
  | nil =>
    rw [load_binary.loop]
    simp only [save_binary, List.flatMap_nil, fstream.read, WIDTH]
    rw [load_binary.loop]
    simp [to_bytes_zero, of_bytes_append_zeros, of_bytes, data_get, be64toh, data_set]
  | cons ins seq ih =>
    rw [load_binary.loop]
    have hlen : 8 ≤ (save_binary (ins :: seq)).length := by
      simp [save_binary, to_bytes_length, WIDTH]
    have htake : (save_binary (ins :: seq)).take 8
        = to_bytes 8 (htobe64 (instruction.data.get ins)) := by
      simp [save_binary, WIDTH, List.take_append_of_le_length, to_bytes_length]
    have hdrop : (save_binary (ins :: seq)).drop 8 = save_binary seq := by
      simp [save_binary, WIDTH, List.drop_append_of_le_length, to_bytes_length]
    have hz : (to_bytes 16 0).drop 8 = List.replicate 8 0 := by
      simp [to_bytes_zero]
    simp only [fstream.read, WIDTH, hlen, if_true, htake, hdrop, hz, Bool.false_eq_true,
      if_false]
    rw [of_bytes_record, data_get (htobe64 _), Nat.mod_eq_of_lt (htobe64_lt _),
      be64toh_htobe64 _ (bitfield.get_lt instruction.data ins),
      data_set _ _ (htobe64_lt _), ih]
    simp [data_get]

/-- Claim C1 (fails on the code).  Loading the bytes that `save_binary` writes for an
instruction sequence does not return the sequence: `load_binary` returns the 64-bit words
of the sequence followed by one more record, a zero word.  The loop `while(!fin.eof())`
runs once more after the last record, because `eofbit` is only set by the read that
fails. -/
theorem load_binary_save_binary_appends_zero_record (seq : List instruction) :
    load_binary (save_binary seq) = seq.map instruction.data.get ++ [0] := by
  unfold load_binary
  rw [load_binary_loop_save_binary]
  simp


/-! ## Format purity -/

/-- Two different members of one of the 64-bit formats do not overlap. -/
theorem fields_disjoint :
    ∀ fields ∈ [three_address.fields, binomial.fields, register_immediate.fields],
      ∀ f ∈ fields, ∀ g ∈ fields, f ≠ g →
        f.offset + f.width ≤ g.offset ∨ g.offset + g.width ≤ f.offset := by
  decide

/-- Claim C2.  For the THREE_ADDRESS, BINOMIAL and REGISTER_IMMEDIATE formats: when the
field values fit their declared widths, the word obtained by writing all the fields into
a zeroed instruction fits 64 bits and every field read back from it has the value
written; and writing any member of a format leaves every other member of that format
unchanged, whatever the word and the value written. -/
theorem format_fields_round_trip
    (op t d s1 s2 od o1 o2 bt b1 b2 bo1 bo2 r imm : Nat)
    (hop : op < 2 ^ 8) (ht : t < 2 ^ 3) (hd : d < 2 ^ 7) (hs1 : s1 < 2 ^ 7)
    (hs2 : s2 < 2 ^ 7) (hod : od < 2 ^ 10) (ho1 : o1 < 2 ^ 10) (ho2 : o2 < 2 ^ 10)
    (hbt : bt < 2 ^ 2) (hb1 : b1 < 2 ^ 7) (hb2 : b2 < 2 ^ 7) (hbo1 : bo1 < 2 ^ 20)
    (hbo2 : bo2 < 2 ^ 20) (hr : r < 2 ^ 7) (himm : imm < 2 ^ 49) :
    (let w :=
        three_address.source2_option.set (three_address.source1_option.set
          (three_address.destination_option.set (three_address.source2.set
            (three_address.source1.set (three_address.destination.set
              (three_address.type.set (three_address.instruction.set 0 op) t) d) s1) s2)
            od) o1) o2;
      w < 2 ^ 64 ∧ three_address.instruction.get w = op ∧ three_address.type.get w = t
        ∧ three_address.destination.get w = d ∧ three_address.source1.get w = s1
        ∧ three_address.source2.get w = s2 ∧ three_address.destination_option.get w = od
        ∧ three_address.source1_option.get w = o1
        ∧ three_address.source2_option.get w = o2)
    ∧ (let w :=
        binomial.operand2_option.set (binomial.operand1_option.set (binomial.operand2.set
          (binomial.operand1.set (binomial.type.set (binomial.instruction.set 0 op) bt) b1)
          b2) bo1) bo2;
      w < 2 ^ 64 ∧ binomial.instruction.get w = op ∧ binomial.type.get w = bt
        ∧ binomial.operand1.get w = b1 ∧ binomial.operand2.get w = b2
        ∧ binomial.operand1_option.get w = bo1 ∧ binomial.operand2_option.get w = bo2)
    ∧ (let w :=
        register_immediate.immediate.set
          (register_immediate.reg.set (register_immediate.instruction.set 0 op) r) imm;
      w < 2 ^ 64 ∧ register_immediate.instruction.get w = op
        ∧ register_immediate.reg.get w = r ∧ register_immediate.immediate.get w = imm)
    ∧ (∀ fields ∈ [three_address.fields, binomial.fields, register_immediate.fields],
        ∀ f ∈ fields, ∀ g ∈ fields, f ≠ g →
          ∀ x v : Nat, g.get (f.set x v) = g.get x ∧ f.get (f.set x v) = v % 2 ^ f.width) := by
  refine ⟨?_, ?_, ?_, ?_⟩
  · refine ⟨?_, ?_⟩
    · repeat (first
        | exact (by norm_num : (0 : Nat) < 2 ^ 64)
        | refine bitfield.set_lt _ _ _ 64 ?_ (by decide))
    · simp (disch := decide) only [bitfield.get_set_disjoint, bitfield.get_set_same]
      simp [three_address.instruction, three_address.type, three_address.destination,
        three_address.source1, three_address.source2, three_address.destination_option,
        three_address.source1_option, three_address.source2_option, Nat.mod_eq_of_lt]
      omega
  · refine ⟨?_, ?_⟩
    · repeat (first
        | exact (by norm_num : (0 : Nat) < 2 ^ 64)
        | refine bitfield.set_lt _ _ _ 64 ?_ (by decide))
    · simp (disch := decide) only [bitfield.get_set_disjoint, bitfield.get_set_same]
      simp [binomial.instruction, binomial.type, binomial.operand1, binomial.operand2,
        binomial.operand1_option, binomial.operand2_option, Nat.mod_eq_of_lt]
      omega
  · refine ⟨?_, ?_⟩
    · repeat (first
        | exact (by norm_num : (0 : Nat) < 2 ^ 64)
        | refine bitfield.set_lt _ _ _ 64 ?_ (by decide))
    · simp (disch := decide) only [bitfield.get_set_disjoint, bitfield.get_set_same]
      simp [register_immediate.instruction, register_immediate.reg,
        register_immediate.immediate, Nat.mod_eq_of_lt]
      omega
  · intro fields hfields f hf g hg hfg x v
    exact ⟨bitfield.get_set_disjoint f g x v (fields_disjoint fields hfields f hf g hg hfg),
      bitfield.get_set_same f x v⟩


/-- An instance of `format_fields_round_trip`: the REGISTER_IMMEDIATE word with opcode
byte 4, register 1 and immediate 5. -/
theorem format_fields_round_trip_witness :
    (4 : Nat) < 2 ^ 8 ∧ (1 : Nat) < 2 ^ 7 ∧ (5 : Nat) < 2 ^ 49
      ∧ register_immediate.immediate.get
          (register_immediate.immediate.set
            (register_immediate.reg.set (register_immediate.instruction.set 0 4) 1) 5) = 5 :=
  ⟨by decide, by decide, by decide,
    (format_fields_round_trip 4 0 0 0 0 0 0 0 0 0 0 0 0 1 5 (by decide) (by decide)
      (by decide) (by decide) (by decide) (by decide) (by decide) (by decide) (by decide)
      (by decide) (by decide) (by decide) (by decide) (by decide) (by decide)).2.2.1.2.2.2⟩

/-- A member read from the first 8 bytes of the object: only the bits of the member that
lie below bit 64 are seen. -/
theorem bitfield.testBit_get_data (f : bitfield) (x i : Nat) :
    (f.get (instruction.data.get x)).testBit i
      = (decide (i < f.width) && decide (f.offset + i < 64) && x.testBit (f.offset + i)) := by
  rw [bitfield.testBit_get, bitfield.testBit_get]
  simp [instruction.data, Bool.and_assoc]

/-- Claim C3 (fails on the code).  The UNARY payload is not recovered from the 64-bit word
`data`.  For every opcode byte `op`, subtype `t` and payload, the subtype read back from
`data` is `t`, but the immediate read back is the immediate modulo `2 ^ 48` and the
register option read back is the option modulo `2 ^ 41`: the payload is stored in bits
16..69 of the union and `data` ends at bit 63.  So the 54-bit immediate `2 ^ 48`, which
the union itself holds, is read back from `data` as 0. -/
theorem unary_payload_truncated_in_data (op t imm r o : Nat) :
    (let ins := unary.type.set (unary.imm.immediate.set (unary.instruction.set 0 op) imm) t;
      unary.imm.immediate.get ins = imm % 2 ^ 54
        ∧ unary.type.get (instruction.data.get ins) = t % 2 ^ 2
        ∧ unary.imm.immediate.get (instruction.data.get ins) = imm % 2 ^ 48)
    ∧ (let ins := unary.type.set (unary.reg.operand_option.set
          (unary.reg.operand.set (unary.instruction.set 0 op) r) o) t;
      unary.reg.operand_option.get ins = o % 2 ^ 47
        ∧ unary.type.get (instruction.data.get ins) = t % 2 ^ 2
        ∧ unary.reg.operand.get (instruction.data.get ins) = r % 2 ^ 7
        ∧ unary.reg.operand_option.get (instruction.data.get ins) = o % 2 ^ 41)
    ∧ (let ins := unary.type.set (unary.imm.immediate.set
          (instruction.instruction.set (instruction.type.set 0 UNARY) 0b00011) (2 ^ 48)) 0b11;
      unary.imm.immediate.get ins = 2 ^ 48
        ∧ unary.imm.immediate.get (instruction.data.get ins) = 0) := by
  refine ⟨⟨?_, ?_, ?_⟩, ⟨?_, ?_, ?_, ?_⟩, ?_⟩
  · simp (disch := decide) only [bitfield.get_set_disjoint, bitfield.get_set_same]
    rfl
  · apply Nat.eq_of_testBit_eq
    intro i
    rw [bitfield.testBit_get_data, Nat.testBit_mod_two_pow, bitfield.testBit_set]
    simp only [unary.type]
    by_cases h : i < 2
    · have h1 : ¬ 8 + i < 8 := by omega
      have h2 : 8 + i < 8 + 2 := by omega
      have h3 : 8 + i < 64 := by omega
      simp [h, h1, h2, h3]
    · simp [h]
  · apply Nat.eq_of_testBit_eq
    intro i
    rw [bitfield.testBit_get_data, Nat.testBit_mod_two_pow, bitfield.testBit_set,
      bitfield.testBit_set]
    simp only [unary.type, unary.imm.immediate]
    by_cases h : i < 48
    · have h1 : ¬ 16 + i < 8 := by omega
      have h2 : ¬ 16 + i < 8 + 2 := by omega
      have h3 : 16 + i < 64 := by omega
      have h4 : ¬ 16 + i < 16 := by omega
      have h5 : 16 + i < 16 + 54 := by omega
      have h6 : i < 54 := by omega
      simp [h, h1, h2, h3, h4, h5, h6]
    · have h3 : ¬ 16 + i < 64 := by omega
      simp [h, h3]
  · simp (disch := decide) only [bitfield.get_set_disjoint, bitfield.get_set_same]
    rfl
  · apply Nat.eq_of_testBit_eq
    intro i
    rw [bitfield.testBit_get_data, Nat.testBit_mod_two_pow, bitfield.testBit_set]
    simp only [unary.type]
    by_cases h : i < 2
    · have h1 : ¬ 8 + i < 8 := by omega
      have h2 : 8 + i < 8 + 2 := by omega
      have h3 : 8 + i < 64 := by omega
      simp [h, h1, h2, h3]
    · simp [h]
  · apply Nat.eq_of_testBit_eq
    intro i
    rw [bitfield.testBit_get_data, Nat.testBit_mod_two_pow, bitfield.testBit_set,
      bitfield.testBit_set, bitfield.testBit_set]
    simp only [unary.type, unary.reg.operand, unary.reg.operand_option]
    by_cases h : i < 7
    · have h1 : ¬ 16 + i < 8 := by omega
      have h2 : ¬ 16 + i < 8 + 2 := by omega
      have h3 : 16 + i < 64 := by omega
      have h4 : 16 + i < 23 := by omega
      have h5 : ¬ 16 + i < 16 := by omega
      have h6 : 16 + i < 16 + 7 := by omega
      simp [h, h1, h2, h3, h4, h5, h6]
    · simp [h]
  · apply Nat.eq_of_testBit_eq
    intro i
    rw [bitfield.testBit_get_data, Nat.testBit_mod_two_pow, bitfield.testBit_set,
      bitfield.testBit_set]
    simp only [unary.type, unary.reg.operand_option]
    by_cases h : i < 41
    · have h1 : ¬ 23 + i < 8 := by omega
      have h2 : ¬ 23 + i < 8 + 2 := by omega
      have h3 : 23 + i < 64 := by omega
      have h4 : ¬ 23 + i < 23 := by omega
      have h5 : 23 + i < 23 + 47 := by omega
      have h6 : i < 47 := by omega
      simp [h, h1, h2, h3, h4, h5, h6]
    · have h3 : ¬ 23 + i < 64 := by omega
      simp [h, h3]
  · decide


/-! ## Assembler and emulator agree on the opcode byte -/

theorem mem_of_lookup_eq_some {α β : Type} [BEq α] [LawfulBEq α] (k : α) (v : β) :
    ∀ l : List (α × β), l.lookup k = some v → (k, v) ∈ l := by
  intro l
  induction l with
  | nil => simp [List.lookup]
  | cons e l ih =>
    obtain ⟨a, b⟩ := e
    intro h
    simp only [List.lookup] at h
    split at h
    · rename_i heq
      have := eq_of_beq heq
      simp_all
    · exact List.mem_cons_of_mem _ (ih h)

/-- The (format, operation code) pairs of the ISA table. -/
theorem instruction_map_entries :
    ∀ e ∈ instruction_map,
      (e.2.2 = THREE_ADDRESS ∧ e.2.1 ≤ 8) ∨ (e.2.2 = BINOMIAL ∧ e.2.1 ≤ 2)
        ∨ (e.2.2 = UNARY ∧ e.2.1 ≤ 12) ∨ (e.2.2 = NO_OPERAND ∧ e.2.1 ≤ 1)
        ∨ (e.2.2 = REGISTER_IMMEDIATE ∧ e.2.1 ≤ 2) := by
  decide

theorem opcode_get_set (f : bitfield) (x v : Nat) (h : 8 ≤ f.offset) :
    instruction.type.get (f.set x v) = instruction.type.get x
      ∧ instruction.instruction.get (f.set x v) = instruction.instruction.get x :=
  ⟨bitfield.get_set_disjoint f instruction.type x v (Or.inr (by simp [instruction.type]; omega)),
    bitfield.get_set_disjoint f instruction.instruction x v
      (Or.inr (by simp [instruction.instruction]; omega))⟩

theorem assemble_operands_opcode (rm : register_map_t) (lines : List string) (index : Nat)
    (parts0 : string) (type : Nat) (operand : List string) (ins ins' : instruction)
    (h : assemble_operands rm lines index parts0 type operand ins = .ok ins') :
    instruction.type.get ins' = instruction.type.get ins
      ∧ instruction.instruction.get ins' = instruction.instruction.get ins := by
  unfold assemble_operands at h
  simp only [bind, Except.bind, pure, Except.pure] at h
  repeat' split at h
  all_goals first
    | contradiction
    | (injection h with h
       subst h
       simp (disch := decide) only [opcode_get_set, and_self])


@[simp] theorem cpu.set_reg_cerr (c : cpu) (i v : Nat) : (c.set_reg i v)._cerr = c._cerr := rfl
@[simp] theorem cpu.set_reg_flags (c : cpu) (i v : Nat) : (c.set_reg i v)._flags = c._flags := rfl
@[simp] theorem cpu.set_reg_stack (c : cpu) (i v : Nat) : (c.set_reg i v)._stack = c._stack := rfl
@[simp] theorem cpu.set_reg_instructions (c : cpu) (i v : Nat) :
    (c.set_reg i v)._instructions = c._instructions := rfl

theorem next_three_address_cerr (c c' : cpu) (ins : instruction)
    (hn : instruction.instruction.get ins ≤ 8) (h : c.next_three_address ins = .ok c') :
    c'._cerr = c._cerr := by
  unfold cpu.next_three_address at h
  generalize instruction.instruction.get ins = n at hn h
  interval_cases n <;> simp only [] at h <;> (try split at h) <;>
    first
      | contradiction
      | (injection h with h; subst h; rfl)

theorem next_binomial_cerr (c c' : cpu) (ins : instruction)
    (hn : instruction.instruction.get ins ≤ 2) (h : c.next_binomial ins = .ok c') :
    c'._cerr = c._cerr := by
  unfold cpu.next_binomial at h
  generalize instruction.instruction.get ins = n at hn h
  interval_cases n <;> simp only [] at h <;> (try split at h) <;>
    first
      | contradiction
      | (injection h with h; subst h; rfl)

theorem next_no_operand_cerr (c c' : cpu) (ins : instruction)
    (hn : instruction.instruction.get ins ≤ 1) (h : c.next_no_operand ins = .ok c') :
    c'._cerr = c._cerr := by
  unfold cpu.next_no_operand at h
  generalize instruction.instruction.get ins = n at hn h
  interval_cases n <;> simp only [] at h <;> (try split at h) <;>
    first
      | contradiction
      | (injection h with h; subst h; rfl)

theorem next_register_immediate_cerr (c c' : cpu) (ins : instruction)
    (hn : instruction.instruction.get ins ≤ 2) (h : c.next_register_immediate ins = .ok c') :
    c'._cerr = c._cerr := by
  unfold cpu.next_register_immediate at h
  generalize instruction.instruction.get ins = n at hn h
  interval_cases n <;> simp only [] at h <;> (injection h with h; subst h; rfl)

theorem unary_switch_cerr (c c1 : cpu) (ins : instruction) (data d : Nat) (a j : Bool)
    (h : c.unary_switch ins data = .ok (some (c1, d, a, j))) : c1._cerr = c._cerr := by
  unfold cpu.unary_switch at h
  split at h <;> (try split at h) <;>
    first
      | contradiction
      | (simp only [Except.ok.injEq, Option.some.injEq, Prod.mk.injEq] at h
         obtain ⟨h1, -⟩ := h
         subst h1
         rfl)
      | simp at h

theorem unary_switch_defined (c : cpu) (ins : instruction) (data : Nat)
    (hn : instruction.instruction.get ins ≤ 12) : c.unary_switch ins data ≠ .ok none := by
  unfold cpu.unary_switch
  generalize instruction.instruction.get ins = n at hn
  interval_cases n <;> simp only [] <;> (try split) <;> simp

theorem unary_finish_cerr (c : cpu) (ins : instruction) (data : Nat) (a j : Bool) :
    (c.unary_finish ins data a j)._cerr = c._cerr := by
  unfold cpu.unary_finish
  cases a <;> cases j <;> simp <;> split <;> rfl

theorem next_unary_cerr (c c' : cpu) (ins : instruction)
    (hn : instruction.instruction.get ins ≤ 12) (h : c.next_unary ins = .ok c') :
    c'._cerr = c._cerr := by
  unfold cpu.next_unary at h
  split at h
  · contradiction
  · rename_i heq
    exact absurd heq (unary_switch_defined c ins _ hn)
  · rename_i c1 d a j heq
    injection h with h
    subst h
    rw [unary_finish_cerr]
    exact unary_switch_cerr c c1 ins _ d a j heq


/-- A member that lies inside the first 8 bytes is read from `data` as from the object. -/
theorem bitfield.get_data_get (f : bitfield) (x : Nat) (h : f.offset + f.width ≤ 64) :
    f.get (instruction.data.get x) = f.get x := by
  apply Nat.eq_of_testBit_eq
  intro i
  rw [bitfield.testBit_get_data, bitfield.testBit_get]
  by_cases hi : i < f.width
  · have : f.offset + i < 64 := by omega
    simp [hi, this]
  · simp [hi]

theorem assemble_parts_opcode (lines : List string) (index : Nat) (parts : List string)
    (number type : Nat) (ins : instruction)
    (htable : instruction_map.lookup (parts.getD 0 []) = some (number, type))
    (h : assemble_parts system_info lines index parts = .ok ins) :
    instruction.type.get ins = type % 2 ^ 3
      ∧ instruction.instruction.get ins = number % 2 ^ 5 := by
  have key : ∀ operand, assemble_operands register_map lines index (parts.getD 0 []) type
      operand (instruction.instruction.set (instruction.type.set 0 type) number) = .ok ins →
      instruction.type.get ins = type % 2 ^ 3
        ∧ instruction.instruction.get ins = number % 2 ^ 5 := by
    intro operand h
    have := assemble_operands_opcode _ _ _ _ _ _ _ _ h
    rw [this.1, this.2]
    constructor
    · rw [bitfield.get_set_disjoint _ _ _ _ (Or.inr (by decide)), bitfield.get_set_same]
      rfl
    · rw [bitfield.get_set_same]
      rfl
  unfold assemble_parts at h
  simp only [system_info, htable, bind, Except.bind, pure, Except.pure] at h
  repeat' split at h
  all_goals first
    | contradiction
    | exact key _ h

/-- Claim C4.  When the mnemonic of a line (the first word of its body) is in the ISA table
with entry (operation code, format) and the line assembles to a word, the format and the
operation code that `cpu::next` reads from the 64-bit word equal the table entry, and a
cycle that executes the word does not call `raise_exception`: the record of reported
exceptions is the same after the cycle as before. -/
theorem assembled_opcode_matches_table_and_is_defined
    (lines : List string) (index : Nat) (line m : string) (number type : Nat)
    (ins : instruction)
    (hline : lines[index]? = some line)
    (hm : (split (strip_label line) (is_any_of " ".toList)).getD 0 [] = m)
    (htable : instruction_map.lookup m = some (number, type))
    (hasm : assemble_line system_info lines index = .ok (some ins)) :
    instruction.type.get (instruction.data.get ins) = type
      ∧ instruction.instruction.get (instruction.data.get ins) = number
      ∧ ∀ c c' : cpu, c._flags.halt = false →
          c._instructions[c.reg cpu.IP]? = some (instruction.data.get ins) →
          c.next = .ok c' → c'._cerr = c._cerr := by
  have hQ := instruction_map_entries _ (mem_of_lookup_eq_some m (number, type) _ htable)
  simp only at hQ
  have hnop : m ≠ "nop".toList := by
    rintro rfl
    have : instruction_map.lookup "nop".toList = none := by decide
    rw [this] at htable
    contradiction
  have hraise : m ≠ "raise".toList := by
    rintro rfl
    have : instruction_map.lookup "raise".toList = none := by decide
    rw [this] at htable
    contradiction
  have hmov : m ≠ "mov".toList := by
    rintro rfl
    have : instruction_map.lookup "mov".toList = none := by decide
    rw [this] at htable
    contradiction
  have hpseudo : process_pseudo_instructions index
      (split (strip_label line) (is_any_of " ".toList))
        = .ok (split (strip_label line) (is_any_of " ".toList)) := by
    unfold process_pseudo_instructions
    rw [hm, if_neg hnop, if_neg hraise, if_neg hmov]
  unfold assemble_line at hasm
  simp only [hline, hpseudo, bind, Except.bind, pure, Except.pure] at hasm
  split at hasm
  · simp at hasm
  split at hasm
  · contradiction
  rename_i ins0 hparts
  simp only [Except.ok.injEq, Option.some.injEq] at hasm
  subst hasm
  rw [← hm] at htable
  have hop := assemble_parts_opcode lines index _ number type ins0 htable hparts
  have htype : instruction.type.get (instruction.data.get ins0) = type := by
    rw [bitfield.get_data_get _ _ (by decide), hop.1]
    rcases hQ with h | h | h | h | h <;> rw [h.1] <;> rfl
  have hnum : instruction.instruction.get (instruction.data.get ins0) = number := by
    rw [bitfield.get_data_get _ _ (by decide), hop.2]
    apply Nat.mod_eq_of_lt
    rcases hQ with h | h | h | h | h <;> have := h.2 <;> omega
  refine ⟨htype, hnum, ?_⟩
  intro c c' hhalt hfetch hnext
  unfold cpu.next at hnext
  simp only [hhalt, hfetch, Bool.false_eq_true, if_false, htype] at hnext
  have hIP : ∀ v, (c.set_reg cpu.IP v)._cerr = c._cerr := fun v => rfl
  rcases hQ with h | h | h | h | h
  · simp only [h.1, if_true] at hnext
    rw [next_three_address_cerr _ _ _ (by rw [hnum]; exact h.2) hnext, hIP]
  · simp only [h.1, BINOMIAL, THREE_ADDRESS, if_true] at hnext
    rw [next_binomial_cerr _ _ _ (by rw [hnum]; exact h.2) hnext, hIP]
  · simp only [h.1, UNARY, BINOMIAL, THREE_ADDRESS, if_true] at hnext
    rw [next_unary_cerr _ _ _ (by rw [hnum]; exact h.2) hnext, hIP]
  · simp only [h.1, NO_OPERAND, UNARY, BINOMIAL, THREE_ADDRESS, if_true] at hnext
    rw [next_no_operand_cerr _ _ _ (by rw [hnum]; exact h.2) hnext, hIP]
  · simp only [h.1, REGISTER_IMMEDIATE, NO_OPERAND, UNARY, BINOMIAL, THREE_ADDRESS,
      if_true] at hnext
    rw [next_register_immediate_cerr _ _ _ (by rw [hnum]; exact h.2) hnext, hIP]


/-- An instance of `assembled_opcode_matches_table_and_is_defined`: the line
`add rs0,rs1,rs2`. -/
theorem assembled_opcode_matches_table_and_is_defined_witness :
    assemble_line system_info ["add rs0,rs1,rs2".toList] 0 = .ok (some 101189635)
      ∧ instruction.type.get (instruction.data.get 101189635) = THREE_ADDRESS
      ∧ instruction.instruction.get (instruction.data.get 101189635) = 0b00000 :=
  have h := assembled_opcode_matches_table_and_is_defined ["add rs0,rs1,rs2".toList] 0
    "add rs0,rs1,rs2".toList "add".toList 0b00000 THREE_ADDRESS 101189635
    (by decide) (by decide) (by decide) (by decide)
  ⟨by decide, h.1, h.2.1⟩

/-! ## Pseudo-instructions -/

theorem find_eq_none (l : string) (c : Char) (h : ∀ x ∈ l, x ≠ c) : find l c = none := by
  induction l with
  | nil => rfl
  | cons x xs ih =>
    have hx : x ≠ c := h x (List.mem_cons_self _ _)
    simp [find, hx, ih fun y hy => h y (List.mem_cons_of_mem _ hy)]

theorem trim_eq_self (l : string) (h1 : ∀ a, l.head? = some a → isspace a = false)
    (h2 : ∀ b, l.getLast? = some b → isspace b = false) : trim l = l := by
  unfold trim
  cases l with
  | nil => rfl
  | cons a t =>
    have ha : isspace a = false := h1 a rfl
    rw [List.dropWhile_cons_of_neg (by simp [ha])]
    cases hr : (a :: t).reverse with
    | nil => simp at hr
    | cons b r =>
      have hb : isspace b = false := by
        apply h2 b
        rw [← List.head?_reverse, hr]
        rfl
      rw [List.dropWhile_cons_of_neg (by simp [hb]), ← hr, List.reverse_reverse]

theorem split_eq_singleton (l : string) (p : Char → Bool) (h : ∀ x ∈ l, p x = false) :
    split l p = [l] := by
  induction l with
  | nil => rfl
  | cons x xs ih =>
    have hx : p x = false := h x (List.mem_cons_self _ _)
    simp [split, hx, ih fun y hy => h y (List.mem_cons_of_mem _ hy)]

theorem split_append_delim (a b : string) (p : Char → Bool) (c : Char)
    (h : ∀ x ∈ a, p x = false) (hc : p c = true) :
    split (a ++ c :: b) p = a :: split b p := by
  induction a with
  | nil => simp [split, hc]
  | cons x xs ih =>
    have hx : p x = false := h x (List.mem_cons_self _ _)
    simp [split, hx, ih fun y hy => h y (List.mem_cons_of_mem _ hy)]

/-- Outside the UNARY format the operands are assembled without looking at the other
lines. -/
theorem assemble_operands_lines (rm : register_map_t) (lines lines' : List string)
    (index : Nat) (parts0 : string) (type : Nat) (operand : List string) (ins : instruction)
    (h : type ≠ UNARY) :
    assemble_operands rm lines index parts0 type operand ins
      = assemble_operands rm lines' index parts0 type operand ins := by
  unfold assemble_operands
  split_ifs <;> rfl

theorem assemble_parts_lines (lines lines' : List string) (index : Nat)
    (parts : List string) (number type : Nat)
    (htable : instruction_map.lookup (parts.getD 0 []) = some (number, type))
    (h : type ≠ UNARY) :
    assemble_parts system_info lines index parts
      = assemble_parts system_info lines' index parts := by
  unfold assemble_parts
  simp only [system_info, htable]
  simp only [assemble_operands_lines register_map lines lines' index _ type _ _ h]


/-- Models `assemble_line` on a line with a non-empty body, in terms of its parts. -/
theorem assemble_line_of_parts (lines : List string) (index : Nat) (line : string)
    (parts parts' : List string) (hline : lines[index]? = some line)
    (hne : (strip_label line).isEmpty = false)
    (hparts : split (strip_label line) (is_any_of " ".toList) = parts)
    (hpseudo : process_pseudo_instructions index parts = .ok parts') :
    assemble_line system_info lines index =
      match assemble_parts system_info lines index parts' with
      | .ok ins => .ok (some ins)
      | .error e => .error e := by
  unfold assemble_line
  simp only [hline, hne, hparts, hpseudo, bind, Except.bind, pure, Except.pure]
  cases assemble_parts system_info lines index parts' <;> rfl

theorem getElem?_middle (pre post : List string) (l : string) :
    (pre ++ [l] ++ post)[pre.length]? = some l := by
  rw [List.append_assoc, List.getElem?_append_right (Nat.le_refl _)]
  simp

theorem getLast?_append_cons_mem (a b : string) (c x : Char)
    (h : (a ++ c :: b).getLast? = some x) : x ∈ c :: b := by
  rw [List.getLast?_append] at h
  cases hl : (c :: b).getLast? with
  | none => simp at hl
  | some y =>
    rw [hl] at h
    simp only [Option.or_some, Option.some.injEq] at h
    rw [← h]
    exact List.mem_of_getLast?_eq_some hl

theorem process_pseudo_instructions_mov (index : Nat) (d s : string)
    (hd : ∀ c ∈ d, is_any_of ",".toList c = false)
    (hs : ∀ c ∈ s, is_any_of ",".toList c = false) :
    process_pseudo_instructions index ["mov".toList, d ++ ',' :: s]
      = .ok ["add".toList, d ++ ',' :: (s ++ ",r0".toList)] := by
  have hsplit : split (d ++ ',' :: s) (is_any_of ",".toList) = [d, s] := by
    rw [split_append_delim d s _ ',' hd (by decide), split_eq_singleton s _ hs]
  unfold process_pseudo_instructions
  simp only [List.getD_cons_zero]
  rw [if_neg (by decide), if_neg (by decide), if_pos (by decide)]
  simp only [List.getElem?_cons_succ, List.getElem?_cons_zero, hsplit]
  simp [operand_count_check, bind, Except.bind, pure, Except.pure]

theorem process_pseudo_instructions_add (index : Nat) (x : string) :
    process_pseudo_instructions index ["add".toList, x] = .ok ["add".toList, x] := by
  unfold process_pseudo_instructions
  simp only [List.getD_cons_zero]
  rw [if_neg (by decide), if_neg (by decide), if_neg (by decide)]

/-- Pseudo-instructions on operand texts without white space.  The line `nop` assembles to
the same result as `xchg r0,r0`, the line `raise` to the same result as `cmp r0,r0`, and,
for operand strings `d` and `s` that contain no white space, no `,` and no `:`, the line
`mov d,s` to the same result (word or failure) as `add d,s,r0`; each time at the same
place of any list of lines. -/
theorem pseudo_instructions_assemble_as_expansion (pre post : List string) (d s : string)
    (hd : ∀ c ∈ d, isspace c = false ∧ c ≠ ',' ∧ c ≠ ':')
    (hs : ∀ c ∈ s, isspace c = false ∧ c ≠ ',' ∧ c ≠ ':') :
    assemble_line system_info (pre ++ ["nop".toList] ++ post) pre.length
        = assemble_line system_info (pre ++ ["xchg r0,r0".toList] ++ post) pre.length
      ∧ assemble_line system_info (pre ++ ["raise".toList] ++ post) pre.length
        = assemble_line system_info (pre ++ ["cmp r0,r0".toList] ++ post) pre.length
      ∧ assemble_line system_info
          (pre ++ ["mov ".toList ++ d ++ ",".toList ++ s] ++ post) pre.length
        = assemble_line system_info
          (pre ++ ["add ".toList ++ d ++ ",".toList ++ s ++ ",r0".toList] ++ post)
          pre.length := by
  refine ⟨?_, ?_, ?_⟩
  · rw [assemble_line_of_parts _ _ _ ["nop".toList] ["xchg".toList, "r0,r0".toList]
        (getElem?_middle _ _ _) (by decide) (by decide) (by rfl),
      assemble_line_of_parts _ _ _ ["xchg".toList, "r0,r0".toList]
        ["xchg".toList, "r0,r0".toList] (getElem?_middle _ _ _) (by decide) (by decide)
        (by rfl),
      assemble_parts_lines _ (pre ++ ["xchg r0,r0".toList] ++ post) _ _ 0b00001 BINOMIAL
        (by decide) (by decide)]
  · rw [assemble_line_of_parts _ _ _ ["raise".toList] ["cmp".toList, "r0,r0".toList]
        (getElem?_middle _ _ _) (by decide) (by decide) (by rfl),
      assemble_line_of_parts _ _ _ ["cmp".toList, "r0,r0".toList]
        ["cmp".toList, "r0,r0".toList] (getElem?_middle _ _ _) (by decide) (by decide)
        (by rfl),
      assemble_parts_lines _ (pre ++ ["cmp r0,r0".toList] ++ post) _ _ 0b00010 BINOMIAL
        (by decide) (by decide)]
  · -- the characters of the two lines
    have hspace : ∀ c ∈ d ++ ',' :: s, is_any_of " ".toList c = false := by
      intro c hc
      have : isspace c = false := by
        rcases List.mem_append.mp hc with h | h
        · exact (hd c h).1
        · rcases List.mem_cons.mp h with h | h
          · rw [h]; rfl
          · exact (hs c h).1
      revert this
      simp only [is_any_of, isspace]
      intro h
      simp_all
    have hcomma_d : ∀ c ∈ d, is_any_of ",".toList c = false := by
      intro c hc
      have := (hd c hc).2.1
      simp [is_any_of, this]
    have hcomma_s : ∀ c ∈ s, is_any_of ",".toList c = false := by
      intro c hc
      have := (hs c hc).2.1
      simp [is_any_of, this]
    have hspace2 : ∀ c ∈ d ++ ',' :: (s ++ ",r0".toList), is_any_of " ".toList c = false := by
      intro c hc
      rcases List.mem_append.mp hc with h | h
      · exact hspace c (List.mem_append_left _ h)
      · rcases List.mem_cons.mp h with h | h
        · rw [h]; rfl
        · rcases List.mem_append.mp h with h | h
          · exact hspace c (List.mem_append_right _ (List.mem_cons_of_mem _ h))
          · exact (by decide : ∀ c ∈ ",r0".toList, is_any_of " ".toList c = false) c h
    have e1 : "mov ".toList ++ d ++ ",".toList ++ s
        = "mov".toList ++ ' ' :: (d ++ ',' :: s) := by simp
    have e2 : "add ".toList ++ d ++ ",".toList ++ s ++ ",r0".toList
        = "add".toList ++ ' ' :: (d ++ ',' :: (s ++ ",r0".toList)) := by simp
    have hcolon : ∀ c ∈ d ++ ',' :: (s ++ ",r0".toList), c ≠ ':' := by
      intro c hc
      rcases List.mem_append.mp hc with h | h
      · exact (hd c h).2.2
      · rcases List.mem_cons.mp h with h | h
        · rw [h]; decide
        · rcases List.mem_append.mp h with h | h
          · exact (hs c h).2.2
          · exact (by decide : ∀ c ∈ ",r0".toList, c ≠ ':') c h
    have hstrip1 : strip_label ("mov".toList ++ ' ' :: (d ++ ',' :: s))
        = "mov".toList ++ ' ' :: (d ++ ',' :: s) := by
      unfold strip_label
      rw [find_eq_none]
      · apply trim_eq_self
        · intro a ha
          simp at ha
          rw [← ha]
          rfl
        · intro b hb
          have := getLast?_append_cons_mem ("mov".toList ++ ' ' :: d) s ',' b (by simpa using hb)
          rcases List.mem_cons.mp this with h | h
          · rw [h]; rfl
          · exact (hs b h).1
      · intro c hc
        rcases List.mem_append.mp hc with h | h
        · exact (by decide : ∀ c ∈ "mov".toList, c ≠ ':') c h
        · rcases List.mem_cons.mp h with h | h
          · rw [h]; decide
          · exact hcolon c (by
              rcases List.mem_append.mp h with h | h
              · exact List.mem_append_left _ h
              · rcases List.mem_cons.mp h with h | h
                · exact List.mem_append_right _ (h ▸ List.mem_cons_self _ _)
                · exact List.mem_append_right _
                    (List.mem_cons_of_mem _ (List.mem_append_left _ h)))
    have hstrip2 : strip_label ("add".toList ++ ' ' :: (d ++ ',' :: (s ++ ",r0".toList)))
        = "add".toList ++ ' ' :: (d ++ ',' :: (s ++ ",r0".toList)) := by
      unfold strip_label
      rw [find_eq_none]
      · apply trim_eq_self
        · intro a ha
          simp at ha
          rw [← ha]
          rfl
        · intro b hb
          have := getLast?_append_cons_mem ("add".toList ++ ' ' :: (d ++ ',' :: s)) "r0".toList
            ',' b (by simpa using hb)
          exact (by decide : ∀ c ∈ ',' :: "r0".toList, isspace c = false) b this
      · intro c hc
        rcases List.mem_append.mp hc with h | h
        · exact (by decide : ∀ c ∈ "add".toList, c ≠ ':') c h
        · rcases List.mem_cons.mp h with h | h
          · rw [h]; decide
          · exact hcolon c h
    rw [e1, e2]
    rw [assemble_line_of_parts _ _ _ ["mov".toList, d ++ ',' :: s]
        ["add".toList, d ++ ',' :: (s ++ ",r0".toList)] (getElem?_middle _ _ _)
        (by rw [hstrip1]; rfl)
        (by rw [hstrip1, split_append_delim _ _ _ ' ' (by decide) (by decide),
              split_eq_singleton _ _ hspace])
        (process_pseudo_instructions_mov _ d s hcomma_d hcomma_s),
      assemble_line_of_parts _ _ _ ["add".toList, d ++ ',' :: (s ++ ",r0".toList)]
        ["add".toList, d ++ ',' :: (s ++ ",r0".toList)] (getElem?_middle _ _ _)
        (by rw [hstrip2]; rfl)
        (by rw [hstrip2, split_append_delim _ _ _ ' ' (by decide) (by decide),
              split_eq_singleton _ _ hspace2])
        (process_pseudo_instructions_add _ _),
      assemble_parts_lines _
        (pre ++ ["add".toList ++ ' ' :: (d ++ ',' :: (s ++ ",r0".toList))] ++ post) _ _
        0b00000 THREE_ADDRESS
        (by show instruction_map.lookup "add".toList = _; decide) (by decide)]


/-- An instance of `pseudo_instructions_assemble_as_expansion`: `mov rs0,rs1` and
`add rs0,rs1,r0` give the same word. -/
theorem pseudo_instructions_assemble_as_expansion_witness :
    assemble_line system_info ["mov rs0,rs1".toList] 0
        = assemble_line system_info ["add rs0,rs1,r0".toList] 0
      ∧ assemble_line system_info ["mov rs0,rs1".toList] 0 = .ok (some 526339) :=
  ⟨(pseudo_instructions_assemble_as_expansion [] [] "rs0".toList "rs1".toList
      (by decide) (by decide)).2.2, by decide⟩

/-- Claim C5 (fails on the code).  `mov d,s` does not assemble as `add d,s,r0` when an
operand holds a blank.  `decode_operand` is written for such operands: on `[rs1 + 4]` it
returns register 2, option 4, pointer mode.  But `assemble_line` cuts the line at blanks
before it takes the operand list, so the operand list of `mov rs0,[rs1 + 4]` is
`rs0,[rs1`: the line assembles to the word of `add rs0,[rs1],r0`, with the offset
dropped, while its expansion `add rs0,[rs1 + 4],r0` is rejected with an operand count of
2.  Without the blanks both lines give the word with option 4. -/
theorem mov_with_spaced_operand_differs_from_add :
    assemble_line system_info ["mov ".toList ++ "rs0".toList ++ ",".toList ++ "[rs1 + 4]".toList] 0
        = .ok (some 526851)
      ∧ assemble_line system_info
          ["add ".toList ++ "rs0".toList ++ ",".toList ++ "[rs1 + 4]".toList ++ ",r0".toList] 0
        = .error (.operands_count_mismatch 1 2)
      ∧ assemble_line system_info ["add rs0,[rs1],r0".toList] 0 = .ok (some 526851)
      ∧ decode_operand register_map "[rs1 + 4]".toList 0 = .ok (2, 4, 1)
      ∧ split "mov rs0,[rs1 + 4]".toList (is_any_of " ".toList)
          = ["mov".toList, "rs0,[rs1".toList, "+".toList, "4]".toList]
      ∧ assemble_line system_info ["mov rs0,[rs1+4]".toList] 0 = .ok (some 17592186571267)
      ∧ assemble_line system_info ["add rs0,[rs1+4],r0".toList] 0
          = .ok (some 17592186571267)
      ∧ three_address.source1_option.get 17592186571267 = 4
      ∧ three_address.source1_option.get 526851 = 0 := by
  decide

/-! ## Running a program -/

theorem cpu.reg_set_reg (c : cpu) (i j v : Nat) (hi : i < c._registers.length) :
    (c.set_reg i v).reg j = if j = i then v else c.reg j := by
  unfold cpu.reg cpu.set_reg
  simp only [List.getD_eq_getElem?_getD, List.getElem?_set]
  by_cases h : j = i
  · subst h
    simp [hi]
  · have : ¬ i = j := fun e => h e.symm
    simp [h, this]

@[simp] theorem cpu.set_reg_length (c : cpu) (i v : Nat) :
    (c.set_reg i v)._registers.length = c._registers.length := by
  simp [cpu.set_reg]


/-- One cycle on an `asgn` word. -/
theorem next_asgn (c : cpu) (w : instruction) (hh : c._flags.halt = false)
    (hf : c._instructions[c.reg cpu.IP]? = some w)
    (ht : instruction.type.get w = REGISTER_IMMEDIATE)
    (hn : instruction.instruction.get w = 0) :
    c.next = .ok ((c.set_reg cpu.IP ((c.reg cpu.IP + 1) % 2 ^ 64)).set_reg
      (register_immediate.reg.get w) (register_immediate.immediate.get w)) := by
  unfold cpu.next
  simp only [hh, hf, ht, Bool.false_eq_true, if_false]
  rw [if_neg (by decide), if_neg (by decide), if_neg (by decide), if_neg (by decide),
    if_pos trivial]
  unfold cpu.next_register_immediate
  simp only [hn]

/-- One cycle on an `add` word. -/
theorem next_add (c : cpu) (w : instruction) (hh : c._flags.halt = false)
    (hf : c._instructions[c.reg cpu.IP]? = some w)
    (ht : instruction.type.get w = THREE_ADDRESS)
    (hn : instruction.instruction.get w = 0) :
    c.next = .ok ((c.set_reg cpu.IP ((c.reg cpu.IP + 1) % 2 ^ 64)).set_reg
      (three_address.destination.get w)
      (((c.set_reg cpu.IP ((c.reg cpu.IP + 1) % 2 ^ 64)).reg (three_address.source1.get w)
        + (c.set_reg cpu.IP ((c.reg cpu.IP + 1) % 2 ^ 64)).reg (three_address.source2.get w))
        % 2 ^ 64)) := by
  unfold cpu.next
  simp only [hh, hf, ht, Bool.false_eq_true, if_false, if_true]
  unfold cpu.next_three_address
  simp only [hn]

/-- One cycle on a `hlt` word. -/
theorem next_hlt (c : cpu) (w : instruction) (hh : c._flags.halt = false)
    (hf : c._instructions[c.reg cpu.IP]? = some w)
    (ht : instruction.type.get w = NO_OPERAND)
    (hn : instruction.instruction.get w = 0) :
    c.next = .ok { c.set_reg cpu.IP ((c.reg cpu.IP + 1) % 2 ^ 64) with
      _flags := c._flags.set_halt true } := by
  unfold cpu.next
  simp only [hh, hf, ht, Bool.false_eq_true, if_false]
  rw [if_neg (by decide), if_neg (by decide), if_neg (by decide), if_pos trivial]
  unfold cpu.next_no_operand
  simp only [hn]
  rfl

theorem cpu.new_reg (i : List instruction) (j : Nat) : (cpu.new i).reg j = 0 := by
  unfold cpu.new cpu.reg
  rw [List.getD_eq_getElem?_getD, List.getElem?_replicate]
  split <;> rfl

theorem cpu.new_length (i : List instruction) : (cpu.new i)._registers.length = 128 := by
  simp [cpu.new]

theorem cpu.new_halt (i : List instruction) : (cpu.new i)._flags.halt = false := by
  show (⟨0⟩ : flags).halt = false
  decide

theorem run_of_next (fuel : Nat) (c c' : cpu) (h1 : c.has_next = true)
    (h2 : c.halted = false) (h3 : c.next = .ok c') : run (fuel + 1) c = run fuel c' := by
  simp [run, h1, h2, h3]

theorem run_of_halted (fuel : Nat) (c : cpu) (h : c.halted = true) : run fuel c = .ok c := by
  cases fuel <;> simp [run, h]


/-- Claim C6.  For all immediates `a`, `b` below `2 ^ 49`: on the four words that encode
`asgn rs0,a`, `asgn rs1,b`, `add rs2,rs0,rs1` and `hlt` (`rs0`, `rs1`, `rs2` are the
registers 1, 2, 3; the `asgn` words are packed as `assemble_line` packs them, the words
of `add rs2,rs0,rs1` and `hlt` are 67377155 and 0), the run loop started in the
zero-initialised state ends, for every budget of at least 4 cycles, in a state where
register `rs2` holds `a + b` and the halt flag is set. -/
theorem asgn_asgn_add_hlt_sums (a b : Nat) (ha : a < 2 ^ 49) (hb : b < 2 ^ 49) (fuel : Nat)
    (hfuel : 4 ≤ fuel) :
    ∃ c, run fuel (cpu.new
        [register_immediate.immediate.set (register_immediate.reg.set
            (instruction.instruction.set (instruction.type.set 0 REGISTER_IMMEDIATE) 0b00000)
            1) a,
          register_immediate.immediate.set (register_immediate.reg.set
            (instruction.instruction.set (instruction.type.set 0 REGISTER_IMMEDIATE) 0b00000)
            2) b,
          67377155, 0]) = .ok c
      ∧ c.reg 3 = a + b ∧ c.halted = true := by
  obtain ⟨n, rfl⟩ : ∃ n, fuel = n + 4 := ⟨fuel - 4, by omega⟩
  have hw : ∀ r imm, r < 2 ^ 7 → imm < 2 ^ 49 →
      ∀ w, w = register_immediate.immediate.set (register_immediate.reg.set
        (instruction.instruction.set (instruction.type.set 0 REGISTER_IMMEDIATE) 0b00000)
        r) imm →
      instruction.type.get w = REGISTER_IMMEDIATE ∧ instruction.instruction.get w = 0
        ∧ register_immediate.reg.get w = r ∧ register_immediate.immediate.get w = imm := by
    intro r imm hr himm w hw
    subst hw
    refine ⟨?_, ?_, ?_, ?_⟩
    · simp (disch := decide) only [bitfield.get_set_disjoint, bitfield.get_set_same]
      rfl
    · simp (disch := decide) only [bitfield.get_set_disjoint, bitfield.get_set_same]
      rfl
    · simp (disch := decide) only [bitfield.get_set_disjoint, bitfield.get_set_same]
      exact Nat.mod_eq_of_lt hr
    · simp (disch := decide) only [bitfield.get_set_disjoint, bitfield.get_set_same]
      exact Nat.mod_eq_of_lt himm
  obtain ⟨h0t, h0n, h0r, h0i⟩ := hw 1 a (by norm_num) ha _ rfl
  obtain ⟨h1t, h1n, h1r, h1i⟩ := hw 2 b (by norm_num) hb _ rfl
  generalize register_immediate.immediate.set (register_immediate.reg.set
    (instruction.instruction.set (instruction.type.set 0 REGISTER_IMMEDIATE) 0b00000) 1) a
    = w0 at h0t h0n h0r h0i ⊢
  generalize register_immediate.immediate.set (register_immediate.reg.set
    (instruction.instruction.set (instruction.type.set 0 REGISTER_IMMEDIATE) 0b00000) 2) b
    = w1 at h1t h1n h1r h1i ⊢
  -- the states after each of the four cycles
  obtain ⟨c0, hc0⟩ : ∃ c0, c0 = cpu.new [w0, w1, 67377155, 0] := ⟨_, rfl⟩
  obtain ⟨c1, hc1⟩ : ∃ c1, c1 = (c0.set_reg cpu.IP 1).set_reg 1 a := ⟨_, rfl⟩
  obtain ⟨c2, hc2⟩ : ∃ c2, c2 = (c1.set_reg cpu.IP 2).set_reg 2 b := ⟨_, rfl⟩
  obtain ⟨c3, hc3⟩ : ∃ c3, c3 = (c2.set_reg cpu.IP 3).set_reg 3 ((a + b) % 2 ^ 64) :=
    ⟨_, rfl⟩
  obtain ⟨c4, hc4⟩ :
      ∃ c4, c4 = { c3.set_reg cpu.IP 4 with _flags := c3._flags.set_halt true } := ⟨_, rfl⟩
  have len0 : c0._registers.length = 128 := by rw [hc0]; exact cpu.new_length _
  have len1 : c1._registers.length = 128 := by simp [hc1, len0]
  have len2 : c2._registers.length = 128 := by simp [hc2, len1]
  have len3 : c3._registers.length = 128 := by simp [hc3, len2]
  have ins0 : c0._instructions = [w0, w1, 67377155, 0] := by rw [hc0]; rfl
  have ins1 : c1._instructions = [w0, w1, 67377155, 0] := by simp [hc1, ins0]
  have ins2 : c2._instructions = [w0, w1, 67377155, 0] := by simp [hc2, ins1]
  have ins3 : c3._instructions = [w0, w1, 67377155, 0] := by simp [hc3, ins2]
  have halt0 : c0._flags.halt = false := by rw [hc0]; exact cpu.new_halt _
  have halt1 : c1._flags.halt = false := by simp [hc1, halt0]
  have halt2 : c2._flags.halt = false := by simp [hc2, halt1]
  have halt3 : c3._flags.halt = false := by simp [hc3, halt2]
  have ip0 : c0.reg cpu.IP = 0 := by rw [hc0]; exact cpu.new_reg _ _
  have ip1 : c1.reg cpu.IP = 1 := by
    simp [hc1, cpu.reg_set_reg, len0, cpu.IP, reg.id.IP]
  have ip2 : c2.reg cpu.IP = 2 := by
    simp [hc2, cpu.reg_set_reg, len1, cpu.IP, reg.id.IP]
  have ip3 : c3.reg cpu.IP = 3 := by
    simp [hc3, cpu.reg_set_reg, len2, cpu.IP, reg.id.IP]
  have s1 : c0.next = .ok c1 := by
    rw [next_asgn c0 w0 halt0 (by rw [ip0, ins0]; rfl) h0t h0n, h0r, h0i, ip0, hc1]
    rfl
  have s2 : c1.next = .ok c2 := by
    rw [next_asgn c1 w1 halt1 (by rw [ip1, ins1]; rfl) h1t h1n, h1r, h1i, ip1, hc2]
    rfl
  have s3 : c2.next = .ok c3 := by
    rw [next_add c2 67377155 halt2 (by rw [ip2, ins2]; rfl) (by decide) (by decide), ip2, hc3]
    have e1 : three_address.source1.get 67377155 = 1 := by decide
    have e2 : three_address.source2.get 67377155 = 2 := by decide
    have e3 : three_address.destination.get 67377155 = 3 := by decide
    have r1 : (c2.set_reg cpu.IP ((2 + 1) % 2 ^ 64)).reg 1 = a := by
      simp [hc2, hc1, cpu.reg_set_reg, len0, len1, len2, cpu.IP, reg.id.IP]
    have r2 : (c2.set_reg cpu.IP ((2 + 1) % 2 ^ 64)).reg 2 = b := by
      simp [hc2, hc1, cpu.reg_set_reg, len0, len1, len2, cpu.IP, reg.id.IP]
    rw [e1, e2, e3, r1, r2]
    rfl
  have s4 : c3.next = .ok c4 := by
    rw [next_hlt c3 0 halt3 (by rw [ip3, ins3]; rfl) (by decide) (by decide), ip3, hc4]
    rfl
  have hn0 : c0.has_next = true := by simp [cpu.has_next, ip0, ins0]
  have hn1 : c1.has_next = true := by simp [cpu.has_next, ip1, ins1]
  have hn2 : c2.has_next = true := by simp [cpu.has_next, ip2, ins2]
  have hn3 : c3.has_next = true := by simp [cpu.has_next, ip3, ins3]
  have halt4 : c4.halted = true := by
    have : c3._flags = ⟨0⟩ := by rw [hc3, hc2, hc1, hc0]; rfl
    rw [hc4]
    show (c3._flags.set_halt true).halt = true
    rw [this]
    decide
  have r3 : c4.reg 3 = a + b := by
    have : c4.reg 3 = (a + b) % 2 ^ 64 := by
      rw [hc4]
      show (c3.set_reg cpu.IP 4).reg 3 = _
      simp [hc3, cpu.reg_set_reg, len2, len3, cpu.IP, reg.id.IP]
    rw [this]
    apply Nat.mod_eq_of_lt
    have : (2 : Nat) ^ 49 + 2 ^ 49 ≤ 2 ^ 64 := by norm_num
    omega
  rw [← hc0, run_of_next _ _ _ hn0 halt0 s1, run_of_next _ _ _ hn1 halt1 s2,
    run_of_next _ _ _ hn2 halt2 s3, run_of_next _ _ _ hn3 halt3 s4, run_of_halted _ _ halt4]
  exact ⟨c4, rfl, r3, halt4⟩


/-- An instance of `asgn_asgn_add_hlt_sums`: the source `asgn rs0,5`, `asgn rs1,3`,
`add rs2,rs0,rs1`, `hlt` assembles to the four words of the theorem for `a = 5` and
`b = 3`, and running them leaves 8 in `rs2` with the halt flag set. -/
theorem asgn_asgn_add_hlt_sums_witness :
    assemble system_info "asgn rs0,5\nasgn rs1,3\nadd rs2,rs0,rs1\nhlt".toList
        = .ok [164100, 98820, 67377155, 0]
      ∧ ∃ c, run 4 (cpu.new [164100, 98820, 67377155, 0]) = .ok c ∧ c.reg 3 = 8
          ∧ c.halted = true :=
  ⟨by decide, asgn_asgn_add_hlt_sums 5 3 (by decide) (by decide) 4 (by decide)⟩

/-! ## Labels -/

/-- Claim C7, as stated, fails: the source `jmp end`, `add rs0,rs0,rs0`, `end: hlt`
assembles to three words and the immediate of the `jmp` word is 2, not 1. -/
theorem jmp_end_immediate_is_not_one :
    assemble system_info "jmp end\nadd rs0,rs0,rs0\nend: hlt".toList
        = .ok [131865, 33818627, 0]
      ∧ unary.imm.immediate.get 131865 ≠ 1 := by
  decide

/-- Claim C7, amended.  The source `jmp end`, `add rs0,rs0,rs0`, `end: hlt` is normalised to
three lines and assembles to three words; the `jmp` word has addressing subtype 11
(immediate) and its immediate, also when read from the serialised 64-bit word, is 2: the
index of the line `end:hlt` and the index of the `hlt` word (NO_OPERAND, operation 0) in
the assembled sequence. -/
theorem jmp_end_immediate_is_two :
    reformat_data "jmp end\nadd rs0,rs0,rs0\nend: hlt".toList
        = ["jmp end".toList, "add rs0,rs0,rs0".toList, "end:hlt".toList]
      ∧ assemble system_info "jmp end\nadd rs0,rs0,rs0\nend: hlt".toList
        = .ok [131865, 33818627, 0]
      ∧ instruction.type.get 131865 = UNARY ∧ instruction.instruction.get 131865 = 0b00011
      ∧ unary.type.get 131865 = 0b11 ∧ unary.imm.immediate.get 131865 = 2
      ∧ unary.imm.immediate.get (instruction.data.get 131865) = 2
      ∧ [131865, 33818627, (0 : instruction)][2]? = some 0
      ∧ assemble_line system_info ["hlt".toList] 0 = .ok (some 0) := by
  decide

theorem label_matches_iff (label line : string) :
    label_matches label line = true ↔ label <+: line := by
  unfold label_matches
  by_cases h : label.length > line.length
  · simp only [h, if_true, Bool.false_eq_true, false_iff]
    intro hp
    have := hp.length_le
    omega
  · simp only [h, if_false, List.all_eq_true, List.mem_range, decide_eq_true_eq,
      List.get?_eq_getElem?]
    rw [List.prefix_iff_eq_take]
    constructor
    · intro hall
      apply List.ext_getElem?
      intro n
      by_cases hn : n < label.length
      · rw [List.getElem?_take_of_lt hn]
        exact hall n hn
      · rw [List.getElem?_eq_none (by omega), List.getElem?_eq_none]
        rw [List.length_take]
        omega
    · intro he i hi
      conv_lhs => rw [he]
      exact List.getElem?_take_of_lt hi

/-- Every jump or call mnemonic is a UNARY entry of the ISA table and is not a
pseudo-instruction. -/
theorem jump_type_operators_unary :
    ∀ m ∈ JUMP_TYPE_OPERATORS,
      m ≠ "nop".toList ∧ m ≠ "raise".toList ∧ m ≠ "mov".toList
        ∧ (instruction_map.lookup m).map Prod.snd = some UNARY := by
  decide


/-- The UNARY case of `assemble_operands` for a jump or call whose operand is not a
number. -/
theorem assemble_operands_jump (lines : List string) (index : Nat) (m L : string)
    (ins : instruction) (hm : m ∈ JUMP_TYPE_OPERATORS)
    (hnum : regex_match L NUMBERS = false) :
    assemble_operands register_map lines index m UNARY [L] ins =
      match get_absolute_label_address lines index L with
      | .ok absolute_address =>
        .ok (unary.type.set (unary.imm.immediate.set ins absolute_address) 0b11)
      | .error e => .error e := by
  unfold assemble_operands
  rw [if_neg (by decide), if_neg (by decide), if_pos rfl]
  simp only [operand_count_check, List.length_singleton, ne_eq, not_true_eq_false, if_false,
    List.getD_cons_zero, hnum, Bool.false_eq_true, hm, if_true, bind, Except.bind, pure,
    Except.pure]
  cases get_absolute_label_address lines index L <;> rfl

/-- Label lookup for an operand that `NUMBERS` does not match.  Take a line whose
mnemonic `m` is a jump or call operator and whose operand list is the single operand `L`,
not matched by `NUMBERS`, in a list of at most `2 ^ 54` lines.  If some line begins with
`L:`, and line `k` is the first that does, then `assemble_line` succeeds with a word of
addressing subtype 11 whose immediate is `k`, wherever line `k` stands relative to the
jump.  If no line begins with `L:`, `assemble_line` fails with the undefined-identifier
error for `L` and the line number `index + 1`. -/
theorem jump_label_resolves_to_first_line (lines : List string) (index : Nat)
    (line m p L : string) (rest : List string)
    (hline : lines[index]? = some line)
    (hparts : split (strip_label line) (is_any_of " ".toList) = m :: p :: rest)
    (hm : m ∈ JUMP_TYPE_OPERATORS)
    (hop : split p (is_any_of ",".toList) = [L])
    (hnum : regex_match L NUMBERS = false)
    (hlen : lines.length ≤ 2 ^ 54) :
    (∀ k lk, lines[k]? = some lk → (L ++ ":".toList) <+: lk →
        (∀ j l, j < k → lines[j]? = some l → ¬ (L ++ ":".toList) <+: l) →
        ∃ ins, assemble_line system_info lines index = .ok (some ins)
          ∧ unary.type.get ins = 0b11 ∧ unary.imm.immediate.get ins = k)
      ∧ ((∀ l ∈ lines, ¬ (L ++ ":".toList) <+: l) →
        assemble_line system_info lines index
          = .error (.undefined_identifier L (index + 1))) := by
  obtain ⟨hnop, hraise, hmov, hlook⟩ := jump_type_operators_unary m hm
  obtain ⟨number, hnumber⟩ : ∃ number, instruction_map.lookup m = some (number, UNARY) := by
    cases hl : instruction_map.lookup m with
    | none => rw [hl] at hlook; contradiction
    | some e =>
      obtain ⟨n, t⟩ := e
      rw [hl] at hlook
      simp only [Option.map_some', Option.some.injEq] at hlook
      exact ⟨n, by rw [hlook]⟩
  have hne : (strip_label line).isEmpty = false := by
    cases hs : strip_label line with
    | nil => rw [hs] at hparts; simp [split] at hparts
    | cons a t => rfl
  have hpseudo : process_pseudo_instructions index (m :: p :: rest) = .ok (m :: p :: rest) := by
    unfold process_pseudo_instructions
    simp only [List.getD_cons_zero]
    rw [if_neg hnop, if_neg hraise, if_neg hmov]
  have hasm := assemble_line_of_parts lines index line _ _ hline hne hparts hpseudo
  have hparts' : assemble_parts system_info lines index (m :: p :: rest) =
      match get_absolute_label_address lines index L with
      | .ok absolute_address =>
        .ok (unary.type.set (unary.imm.immediate.set
          (instruction.instruction.set (instruction.type.set 0 UNARY) number)
          absolute_address) 0b11)
      | .error e => .error e := by
    unfold assemble_parts
    simp only [system_info, List.getD_cons_zero, hnumber, bind, Except.bind, pure,
      Except.pure]
    rw [if_pos (by decide)]
    simp only [List.getElem?_cons_succ, List.getElem?_cons_zero, hop]
    exact assemble_operands_jump lines index m L _ hm hnum
  rw [hasm, hparts']
  constructor
  · intro k lk hk hpref hfirst
    have hklt : k < lines.length := by
      rcases Nat.lt_or_ge k lines.length with h | h
      · exact h
      · rw [List.getElem?_eq_none h] at hk
        contradiction
    have hidx : lines.findIdx (label_matches (L ++ ":".toList)) = k := by
      rw [List.findIdx_eq hklt]
      constructor
      · rw [label_matches_iff]
        have : lines[k] = lk := by
          rw [List.getElem?_eq_getElem hklt] at hk
          exact Option.some.inj hk
        rw [this]
        exact hpref
      · intro j hj
        have hjl : j < lines.length := Nat.lt_trans hj hklt
        cases hlm : label_matches (L ++ ":".toList) lines[j] with
        | false => rfl
        | true =>
          rw [label_matches_iff] at hlm
          exact absurd hlm (hfirst j _ hj (List.getElem?_eq_getElem hjl))
    have haddr : get_absolute_label_address lines index L = .ok k := by
      unfold get_absolute_label_address
      simp only [hidx]
      rw [if_neg (by omega), Nat.mod_eq_of_lt]
      have : (2 : Nat) ^ 54 ≤ 2 ^ 64 := by norm_num
      omega
    rw [haddr]
    refine ⟨_, rfl, ?_, ?_⟩
    · rw [bitfield.get_set_same]
      rfl
    · rw [bitfield.get_set_disjoint _ _ _ _ (Or.inl (by decide)), bitfield.get_set_same]
      apply Nat.mod_eq_of_lt
      show k < 2 ^ 54
      omega
  · intro hnone
    have hidx : lines.findIdx (label_matches (L ++ ":".toList)) = lines.length := by
      apply List.findIdx_eq_length_of_false
      intro l hl
      cases hlm : label_matches (L ++ ":".toList) l with
      | false => rfl
      | true =>
        rw [label_matches_iff] at hlm
        exact absurd hlm (hnone l hl)
    have haddr : get_absolute_label_address lines index L
        = .error (.undefined_identifier L (index + 1)) := by
      unfold get_absolute_label_address
      simp only [hidx, if_true]
      simp
    rw [haddr]


/-- An instance of `jump_label_resolves_to_first_line`: a forward reference, `jmp end` on
line 0 with the label `end:` on line 2. -/
theorem jump_label_resolves_to_first_line_witness :
    ∃ ins, assemble_line system_info
        ["jmp end".toList, "add rs0,rs0,rs0".toList, "end:hlt".toList] 0 = .ok (some ins)
      ∧ unary.type.get ins = 0b11 ∧ unary.imm.immediate.get ins = 2 :=
  (jump_label_resolves_to_first_line
    ["jmp end".toList, "add rs0,rs0,rs0".toList, "end:hlt".toList] 0 "jmp end".toList
    "jmp".toList "end".toList "end".toList [] (by decide) (by decide) (by decide) (by decide)
    (by decide) (by norm_num)).1 2 "end:hlt".toList (by decide) (by decide)
    (by
      intro j l hj hl
      interval_cases j
      · simp only [List.getElem?_cons_zero, Option.some.injEq] at hl
        rw [← hl]
        decide
      · simp only [List.getElem?_cons_succ, List.getElem?_cons_zero, Option.some.injEq] at hl
        rw [← hl]
        decide)

/-- Claim C8 (fails on the code).  The operands `08` and `019` are not numeric literals
(they begin with `0` and are not `0`, have no `x`, and hold a digit that is not octal),
yet `NUMBERS` matches them by its alternative `[0-9][1-9]*`, so no label is looked up.
`jmp 08` fails with the exception of `std::stoull` (no octal digit in `8`), whether a
line begins with `08:` or not: it neither resolves the label nor reports an undefined
identifier.  `jmp 019` assembles with the immediate 1, the octal value of the digits
that `std::stoull` accepts, although the first line that begins with `019:` has index
2.  With the operand `end`, which `NUMBERS` does not match, the same lines give the
immediate 2 and the undefined-identifier error. -/
theorem jump_to_label_of_digits_is_not_resolved :
    regex_match "08".toList NUMBERS = true
      ∧ assemble_line system_info ["jmp 08".toList, "hlt".toList, "08:hlt".toList] 0
          = .error .invalid_argument
      ∧ assemble_line system_info ["jmp 08".toList] 0 = .error .invalid_argument
      ∧ regex_match "019".toList NUMBERS = true
      ∧ assemble_line system_info ["jmp 019".toList, "hlt".toList, "019:hlt".toList] 0
          = .ok (some 66329)
      ∧ unary.type.get 66329 = 0b11 ∧ unary.imm.immediate.get 66329 = 1
      ∧ regex_match "end".toList NUMBERS = false
      ∧ assemble_line system_info ["jmp end".toList, "hlt".toList, "end:hlt".toList] 0
          = .ok (some 131865)
      ∧ unary.type.get 131865 = 0b11 ∧ unary.imm.immediate.get 131865 = 2
      ∧ assemble_line system_info ["jmp end".toList] 0
          = .error (.undefined_identifier "end".toList 1) := by
  decide

/-! ## Numeric literals -/

/-- Claim C9 (fails on the code).  The token `10` is not recognised by `NUMBERS` (the third
alternative of the regular expression is `[0-9][1-9]*`: any first digit, no `0`
afterwards), so `asgn rs0,10` is rejected; and the token `08` is recognised but
`decode_immediate` fails on it.  The tokens `0x1f`, `017` and `5` are recognised and
decode to 31, 15 and 5. -/
theorem numbers_rejects_ten :
    regex_match "10".toList NUMBERS = false
      ∧ assemble_line system_info ["asgn rs0,10".toList] 0 = .error (.must_be_immediate 1)
      ∧ regex_match "08".toList NUMBERS = true
      ∧ decode_immediate "08".toList = .error .invalid_argument
      ∧ regex_match "0x1f".toList NUMBERS = true ∧ decode_immediate "0x1f".toList = .ok 31
      ∧ regex_match "017".toList NUMBERS = true ∧ decode_immediate "017".toList = .ok 15
      ∧ regex_match "5".toList NUMBERS = true ∧ decode_immediate "5".toList = .ok 5 := by
  decide


/-! ## Stack discipline -/

theorem drop_set_self (buf : List Nat) (n x : Nat) (h : n < buf.length) :
    (buf.set n x).drop n = x :: buf.drop (n + 1) := by
  induction buf generalizing n with
  | nil => simp at h
  | cons b bs ih =>
    cases n with
    | zero => simp
    | succ n =>
      simp only [List.set_cons_succ, List.drop_succ_cons]
      exact ih n (by simpa using h)

/-- The loop of `_pop_impl` takes the last `n` bytes off the stack and stores them, in
their order on the stack, in the first `n` bytes of the buffer. -/
theorem pop_impl_loop (len : Nat) (base : List Nat) :
    ∀ (n i : Nat) (bs buf : List Nat), bs.length = n → i + n = len → n ≤ buf.length →
      stack._pop_impl.loop len n i ⟨base ++ bs⟩ buf = .ok (⟨base⟩, bs ++ buf.drop n) := by
  intro n
  induction n with
  | zero =>
    intro i bs buf hbs _ _
    have : bs = [] := List.length_eq_zero.mp hbs
    subst this
    simp [stack._pop_impl.loop]
  | succ n ih =>
    intro i bs buf hbs hi hbuf
    obtain ⟨bs', x, rfl⟩ : ∃ bs' x, bs = bs' ++ [x] := by
      rcases List.eq_nil_or_concat bs with h | ⟨bs', x, h⟩
      · rw [h] at hbs; simp at hbs
      · exact ⟨bs', x, by rw [h, List.concat_eq_append]⟩
    have hbs' : bs'.length = n := by simpa using hbs
    have hidx : len - i - 1 = n := by omega
    rw [stack._pop_impl.loop]
    simp only [← List.append_assoc, List.getLast?_concat, List.dropLast_concat, hidx]
    rw [ih (i + 1) bs' (buf.set n x) hbs' (by omega) (by simp; omega),
      drop_set_self buf n x (by omega)]
    simp

theorem pop_impl_push_impl (s : stack) (bs buf : List Nat) (len : Nat) (hbs : bs.length = len)
    (hbuf : buf.length = len) :
    (s._push_impl bs len)._pop_impl buf len = .ok (s, bs) := by
  unfold stack._push_impl stack._pop_impl
  have htake : bs.take len = bs := by rw [← hbs]; exact List.take_length _
  rw [htake, pop_impl_loop len s._stack len 0 bs buf hbs (by omega) (by omega)]
  have : buf.drop len = [] := by rw [← hbuf]; exact List.drop_length _
  rw [this, List.append_nil]

/-- A pop directly after a push of the same width returns the value pushed and the stack
as it was before the push. -/
theorem pop_push (s : stack) (width value old : Nat) (hw : width ∈ [1, 2, 4, 8])
    (hv : value < 2 ^ (8 * width)) : (s.push width value).pop width old = .ok (s, value) := by
  have key : ∀ n, value < 256 ^ n →
      ((s._push_impl (to_bytes n value) n)._pop_impl (to_bytes n old) n).map
        (fun r => (r.1, of_bytes r.2)) = .ok (s, value) := by
    intro n hn
    rw [pop_impl_push_impl s _ _ n (to_bytes_length _ _) (to_bytes_length _ _)]
    simp only [Except.map, of_bytes_to_bytes]
    rw [Nat.mod_eq_of_lt hn]
  simp only [List.mem_cons, List.mem_singleton, List.not_mem_nil, or_false] at hw
  rcases hw with rfl | rfl | rfl | rfl
  · exact key 1 (by norm_num at hv ⊢; exact hv)
  · exact key 2 (by norm_num at hv ⊢; exact hv)
  · exact key 4 (by norm_num at hv ⊢; exact hv)
  · exact key 8 (by norm_num at hv ⊢; exact hv)

theorem pop_all_cons (s : stack) (w o : Nat) (rest : List (Nat × Nat)) :
    s.pop_all ((w, o) :: rest) =
      match s.pop w o with
      | .error e => .error e
      | .ok (s, value) =>
        match s.pop_all rest with
        | .error e => .error e
        | .ok (s, values) => .ok (s, value :: values) := rfl

theorem pop_all_append (s : stack) (l1 l2 : List (Nat × Nat)) :
    s.pop_all (l1 ++ l2) =
      match s.pop_all l1 with
      | .error e => .error e
      | .ok (s1, v1) =>
        match s1.pop_all l2 with
        | .error e => .error e
        | .ok (s2, v2) => .ok (s2, v1 ++ v2) := by
  induction l1 generalizing s with
  | nil =>
    simp only [List.nil_append, stack.pop_all]
    cases s.pop_all l2 with
    | error e => rfl
    | ok r => rfl
  | cons r l1 ih =>
    obtain ⟨w, o⟩ := r
    rw [List.cons_append, pop_all_cons, pop_all_cons]
    cases s.pop w o with
    | error e => rfl
    | ok r1 =>
      obtain ⟨s1, v⟩ := r1
      simp only
      rw [ih]
      cases s1.pop_all l1 with
      | error e => rfl
      | ok r2 =>
        obtain ⟨s2, vs⟩ := r2
        simp only
        cases s2.pop_all l2 with
        | error e => rfl
        | ok r3 => rfl

/-- Claim C10.  For every starting stack and every list of values of widths 1, 2, 4 or 8
bytes (each value fitting its width): pushing the values in order and then popping with
the same widths in reverse order succeeds, returns at each pop the value pushed at that
position, whatever the buffers held before, and leaves the stack equal to the starting
stack. -/
theorem push_all_pop_all_reverse (s : stack) (vals pops : List (Nat × Nat))
    (hvals : ∀ p ∈ vals, p.1 ∈ [1, 2, 4, 8] ∧ p.2 < 2 ^ (8 * p.1))
    (hpops : pops.map Prod.fst = vals.reverse.map Prod.fst) :
    (s.push_all vals).pop_all pops = .ok (s, vals.reverse.map Prod.snd) := by
  induction vals generalizing s pops with
  | nil =>
    have : pops = [] := by simpa using hpops
    subst this
    rfl
  | cons v rest ih =>
    obtain ⟨w, x⟩ := v
    have hv := hvals (w, x) (List.mem_cons_self _ _)
    rw [List.reverse_cons, List.map_append, List.map_eq_append_iff] at hpops
    obtain ⟨p1, p2, rfl, hp1, hp2⟩ := hpops
    obtain ⟨o, rfl⟩ : ∃ o, p2 = [(w, o)] := by
      match p2, hp2 with
      | [(w', o)], h =>
        simp only [List.map_cons, List.map_nil, List.cons.injEq, and_true] at h
        exact ⟨o, by rw [h]⟩
    rw [pop_all_append]
    have e : s.push_all ((w, x) :: rest) = (s.push w x).push_all rest := rfl
    rw [e]
    rw [ih (s.push w x) p1 (fun p hp => hvals p (List.mem_cons_of_mem _ hp)) hp1]
    simp only [stack.pop_all, pop_push s w x o hv.1 hv.2, List.reverse_cons, List.map_append,
      List.map_cons, List.map_nil]


/-- An instance of `push_all_pop_all_reverse`: four values of widths 4, 1, 8 and 2 on a
stack that already holds one byte. -/
theorem push_all_pop_all_reverse_witness :
    ((⟨[7]⟩ : stack).push_all [(4, 0x11223344), (1, 9), (8, 2 ^ 64 - 1), (2, 513)]).pop_all
        [(2, 0), (8, 5), (1, 0), (4, 77)]
      = .ok (⟨[7]⟩, [513, 2 ^ 64 - 1, 9, 0x11223344]) :=
  push_all_pop_all_reverse ⟨[7]⟩ [(4, 0x11223344), (1, 9), (8, 2 ^ 64 - 1), (2, 513)]
    [(2, 0), (8, 5), (1, 0), (4, 77)] (by decide) (by decide)

/-! ## The flags register -/

theorem flags.get_eq_testBit (f : flags) (bit : Nat) : f._get bit = f._value.testBit bit := by
  unfold flags._get
  rw [Nat.one_shiftLeft]
  cases h : f._value.testBit bit with
  | false =>
    have : f._value &&& 2 ^ bit = 0 := by
      apply Nat.eq_of_testBit_eq
      intro i
      rw [Nat.testBit_and, Nat.testBit_two_pow, Nat.zero_testBit]
      by_cases hi : bit = i
      · subst hi; simp [h]
      · simp [hi]
    simp [this]
  | true =>
    have : f._value &&& 2 ^ bit ≠ 0 := by
      intro h0
      have := congrArg (fun x => x.testBit bit) h0
      simp [Nat.testBit_and, Nat.testBit_two_pow, h] at this
    simp [this]

theorem flags.get_set (f : flags) (bit i : Nat) (w : Bool) (hbit : bit < 3) (hi : i < 3) :
    (f._set bit w)._get i = if i = bit then w else f._get i := by
  rw [flags.get_eq_testBit, flags.get_eq_testBit]
  unfold flags._set
  cases w with
  | true =>
    have hi64 : i < 64 := by omega
    simp only [if_true, Nat.testBit_mod_two_pow, Nat.testBit_or, Nat.one_shiftLeft,
      Nat.testBit_two_pow, hi64, decide_True, Bool.true_and]
    by_cases h : i = bit
    · subst h; simp
    · have : ¬ bit = i := fun e => h e.symm
      simp [h, this]
  | false =>
    simp only [Bool.false_eq_true, if_false, Nat.testBit_and]
    interval_cases bit <;> interval_cases i <;> simp <;> intro _ <;> decide


/-! ## One cycle -/

theorem next_eq_three_address (c : cpu) (w : instruction) (hh : c._flags.halt = false)
    (hf : c._instructions[c.reg cpu.IP]? = some w)
    (ht : instruction.type.get w = THREE_ADDRESS) :
    c.next = (c.set_reg cpu.IP ((c.reg cpu.IP + 1) % 2 ^ 64)).next_three_address w := by
  unfold cpu.next
  simp only [hh, hf, ht, Bool.false_eq_true, if_false, if_true]

theorem next_eq_binomial (c : cpu) (w : instruction) (hh : c._flags.halt = false)
    (hf : c._instructions[c.reg cpu.IP]? = some w)
    (ht : instruction.type.get w = BINOMIAL) :
    c.next = (c.set_reg cpu.IP ((c.reg cpu.IP + 1) % 2 ^ 64)).next_binomial w := by
  unfold cpu.next
  simp only [hh, hf, ht, Bool.false_eq_true, if_false]
  rw [if_neg (by decide), if_pos trivial]

theorem next_eq_unary (c : cpu) (w : instruction) (hh : c._flags.halt = false)
    (hf : c._instructions[c.reg cpu.IP]? = some w)
    (ht : instruction.type.get w = UNARY) :
    c.next = (c.set_reg cpu.IP ((c.reg cpu.IP + 1) % 2 ^ 64)).next_unary w := by
  unfold cpu.next
  simp only [hh, hf, ht, Bool.false_eq_true, if_false]
  rw [if_neg (by decide), if_neg (by decide), if_pos trivial]

theorem next_eq_no_operand (c : cpu) (w : instruction) (hh : c._flags.halt = false)
    (hf : c._instructions[c.reg cpu.IP]? = some w)
    (ht : instruction.type.get w = NO_OPERAND) :
    c.next = (c.set_reg cpu.IP ((c.reg cpu.IP + 1) % 2 ^ 64)).next_no_operand w := by
  unfold cpu.next
  simp only [hh, hf, ht, Bool.false_eq_true, if_false]
  rw [if_neg (by decide), if_neg (by decide), if_neg (by decide), if_pos trivial]

theorem next_eq_register_immediate (c : cpu) (w : instruction) (hh : c._flags.halt = false)
    (hf : c._instructions[c.reg cpu.IP]? = some w)
    (ht : instruction.type.get w = REGISTER_IMMEDIATE) :
    c.next = (c.set_reg cpu.IP ((c.reg cpu.IP + 1) % 2 ^ 64)).next_register_immediate w := by
  unfold cpu.next
  simp only [hh, hf, ht, Bool.false_eq_true, if_false]
  rw [if_neg (by decide), if_neg (by decide), if_neg (by decide), if_neg (by decide),
    if_pos trivial]

/-- The instruction pointer of a state that fetches an instruction does not wrap. -/
theorem ip_succ_mod (c : cpu) (w : instruction) (hlen : c._instructions.length < 2 ^ 64)
    (hf : c._instructions[c.reg cpu.IP]? = some w) :
    (c.reg cpu.IP + 1) % 2 ^ 64 = c.reg cpu.IP + 1 := by
  apply Nat.mod_eq_of_lt
  have : c.reg cpu.IP < c._instructions.length := by
    rcases Nat.lt_or_ge (c.reg cpu.IP) c._instructions.length with h | h
    · exact h
    · rw [List.getElem?_eq_none h] at hf
      contradiction
  omega

theorem cpu.set_reg_set_reg (c : cpu) (i a b : Nat) :
    (c.set_reg i a).set_reg i b = c.set_reg i b := by
  simp [cpu.set_reg, List.set_set]

/-- What a write of a register changes: the register itself, nothing else. -/
theorem cpu.set_reg_frame (c : cpu) (i v : Nat) (hi : i < c._registers.length) :
    (c.set_reg i v).reg i = v ∧ (∀ r, r ≠ i → (c.set_reg i v).reg r = c.reg r)
      ∧ (c.set_reg i v)._flags = c._flags ∧ (c.set_reg i v)._stack = c._stack
      ∧ (c.set_reg i v)._instructions = c._instructions := by
  refine ⟨?_, ?_, rfl, rfl, rfl⟩
  · rw [cpu.reg_set_reg _ _ _ _ hi, if_pos rfl]
  · intro r hr
    rw [cpu.reg_set_reg _ _ _ _ hi, if_neg hr]

/-- A conditional jump with an immediate target: the state after the cycle, given the
value `jump` that the opcode computes from the flags. -/
theorem next_conditional_jump (c : cpu) (w : instruction) (jump : Bool)
    (hlen : c._instructions.length < 2 ^ 64) (hh : c._flags.halt = false)
    (hf : c._instructions[c.reg cpu.IP]? = some w)
    (ht : instruction.type.get w = UNARY) (hi : unary.type.get w = 0b11)
    (hs : ∀ c1 : cpu, c1._flags = c._flags →
      c1.unary_switch w (unary.imm.immediate.get w)
        = .ok (some (c1, unary.imm.immediate.get w, false, jump))) :
    c.next = .ok (c.set_reg cpu.IP
      (if jump then unary.imm.immediate.get w else c.reg cpu.IP + 1)) := by
  rw [next_eq_unary c w hh hf ht, ip_succ_mod c w hlen hf]
  unfold cpu.next_unary
  have hd : (c.set_reg cpu.IP (c.reg cpu.IP + 1)).unary_data w = unary.imm.immediate.get w := by
    unfold cpu.unary_data
    rw [hi]
  rw [hd, hs (c.set_reg cpu.IP (c.reg cpu.IP + 1)) rfl]
  simp only [cpu.unary_finish, Bool.false_eq_true, if_false]
  cases jump with
  | true => simp [cpu.set_reg_set_reg]
  | false => simp

/-- Claim C11.  In a non-halted state that fetches a conditional jump word with an
immediate target `t`, one cycle ends in the state that differs from the old one only in
the instruction pointer, which is `t` when the condition of the mnemonic holds (`je`:
equal; `jne`: not equal; `ja`: above; `jae`: equal or above; `jb`: neither equal nor
above; `jbe`: not above) and the old instruction pointer plus one otherwise: every other
register, the flags and the stack are unchanged. -/
theorem conditional_jumps_follow_flags (c : cpu) (w : instruction) (hwf : c.wf)
    (hh : c._flags.halt = false) (hf : c._instructions[c.reg cpu.IP]? = some w)
    (ht : instruction.type.get w = UNARY) (hi : unary.type.get w = 0b11) :
    (instruction.instruction.get w = 0b00101 →
        c.next = .ok (c.set_reg cpu.IP
          (if c._flags.equal then unary.imm.immediate.get w else c.reg cpu.IP + 1)))
      ∧ (instruction.instruction.get w = 0b00110 →
        c.next = .ok (c.set_reg cpu.IP
          (if !c._flags.equal then unary.imm.immediate.get w else c.reg cpu.IP + 1)))
      ∧ (instruction.instruction.get w = 0b00111 →
        c.next = .ok (c.set_reg cpu.IP
          (if c._flags.above then unary.imm.immediate.get w else c.reg cpu.IP + 1)))
      ∧ (instruction.instruction.get w = 0b01000 →
        c.next = .ok (c.set_reg cpu.IP
          (if c._flags.equal || c._flags.above then unary.imm.immediate.get w
            else c.reg cpu.IP + 1)))
      ∧ (instruction.instruction.get w = 0b01001 →
        c.next = .ok (c.set_reg cpu.IP
          (if !c._flags.equal && !c._flags.above then unary.imm.immediate.get w
            else c.reg cpu.IP + 1)))
      ∧ (instruction.instruction.get w = 0b01010 →
        c.next = .ok (c.set_reg cpu.IP
          (if !c._flags.above then unary.imm.immediate.get w else c.reg cpu.IP + 1)))
      ∧ ∀ v, (c.set_reg cpu.IP v).reg cpu.IP = v
          ∧ (∀ r, r ≠ cpu.IP → (c.set_reg cpu.IP v).reg r = c.reg r)
          ∧ (c.set_reg cpu.IP v)._flags = c._flags ∧ (c.set_reg cpu.IP v)._stack = c._stack
          ∧ (c.set_reg cpu.IP v)._instructions = c._instructions := by
  have hlen := hwf.2.2.2.2
  refine ⟨?_, ?_, ?_, ?_, ?_, ?_, ?_⟩
  · intro hn
    exact next_conditional_jump c w _ hlen hh hf ht hi
      (fun c1 h1 => by unfold cpu.unary_switch; rw [hn, h1])
  · intro hn
    exact next_conditional_jump c w _ hlen hh hf ht hi
      (fun c1 h1 => by unfold cpu.unary_switch; rw [hn, h1])
  · intro hn
    exact next_conditional_jump c w _ hlen hh hf ht hi
      (fun c1 h1 => by unfold cpu.unary_switch; rw [hn, h1])
  · intro hn
    exact next_conditional_jump c w _ hlen hh hf ht hi
      (fun c1 h1 => by unfold cpu.unary_switch; rw [hn, h1])
  · intro hn
    exact next_conditional_jump c w _ hlen hh hf ht hi
      (fun c1 h1 => by unfold cpu.unary_switch; rw [hn, h1])
  · intro hn
    exact next_conditional_jump c w _ hlen hh hf ht hi
      (fun c1 h1 => by unfold cpu.unary_switch; rw [hn, h1])
  · intro v
    exact cpu.set_reg_frame c cpu.IP v (by rw [hwf.1]; decide)


/-- An instance of `conditional_jumps_follow_flags`: the word of `je 7` in a state with the
equal flag set; the cycle sets the instruction pointer to 7. -/
theorem conditional_jumps_follow_flags_witness :
    ({ cpu.new [459561] with _flags := ⟨1⟩ } : cpu).next
      = .ok (({ cpu.new [459561] with _flags := ⟨1⟩ } : cpu).set_reg cpu.IP 7) :=
  (conditional_jumps_follow_flags { cpu.new [459561] with _flags := ⟨1⟩ } 459561
    (by decide) (by decide) (by decide) (by decide) (by decide)).1 (by decide)

/-- Claim C17.  If the halt flag is set, one cycle is a no-op: the state after the cycle
is the state before it (every register, the instruction pointer included, every flag,
the stack), whatever the instruction sequence and the instruction pointer are. -/
theorem halted_cycle_is_noop (c : cpu) (h : c._flags.halt = true) : c.next = .ok c := by
  unfold cpu.next
  rw [if_pos h]

/-- An instance of `halted_cycle_is_noop`: a halted state whose instruction pointer points
past the end of the instruction sequence. -/
theorem halted_cycle_is_noop_witness :
    ({ (cpu.new [459561]).set_reg cpu.IP 9 with _flags := ⟨4⟩ } : cpu).next
      = .ok { (cpu.new [459561]).set_reg cpu.IP 9 with _flags := ⟨4⟩ } :=
  halted_cycle_is_noop _ (by decide)

/-! ## Undefined operation codes -/

theorem next_three_address_undefined (c : cpu) (ins : instruction)
    (h : 8 < instruction.instruction.get ins) :
    c.next_three_address ins = .ok (c.raise_exception cpu.UD) := by
  unfold cpu.next_three_address
  generalize instruction.instruction.get ins = n at h
  simp only []
  split <;> first | omega | rfl

theorem next_binomial_undefined (c : cpu) (ins : instruction)
    (h : 2 < instruction.instruction.get ins) :
    c.next_binomial ins = .ok (c.raise_exception cpu.UD) := by
  unfold cpu.next_binomial
  generalize instruction.instruction.get ins = n at h
  simp only []
  split <;> first | omega | rfl

theorem next_unary_undefined (c : cpu) (ins : instruction)
    (h : 12 < instruction.instruction.get ins) :
    c.next_unary ins = .ok (c.raise_exception cpu.UD) := by
  have hs : c.unary_switch ins (c.unary_data ins) = .ok none := by
    unfold cpu.unary_switch
    generalize instruction.instruction.get ins = n at h
    split <;> first | omega | rfl
  unfold cpu.next_unary
  rw [hs]

theorem next_no_operand_undefined (c : cpu) (ins : instruction)
    (h : 1 < instruction.instruction.get ins) :
    c.next_no_operand ins = .ok (c.raise_exception cpu.UD) := by
  unfold cpu.next_no_operand
  generalize instruction.instruction.get ins = n at h
  split <;> first | omega | rfl

theorem next_register_immediate_undefined (c : cpu) (ins : instruction)
    (h : 2 < instruction.instruction.get ins) :
    c.next_register_immediate ins = .ok (c.raise_exception cpu.UD) := by
  unfold cpu.next_register_immediate
  generalize instruction.instruction.get ins = n at h
  simp only []
  split <;> first | omega | rfl

/-- Claim C18.  In a non-halted state that fetches a word of one of the five formats whose
operation code has no case in that format, one cycle increments the instruction pointer
by one, reports the exception and changes nothing else: every other register, the equal
and above flags, the stack and the instruction sequence are unchanged, and the halt flag
is false afterwards. -/
theorem undefined_operation_changes_only_ip (c : cpu) (w : instruction) (hwf : c.wf)
    (hh : c._flags.halt = false) (hf : c._instructions[c.reg cpu.IP]? = some w)
    (hud : (instruction.type.get w = THREE_ADDRESS ∧ 8 < instruction.instruction.get w)
      ∨ (instruction.type.get w = BINOMIAL ∧ 2 < instruction.instruction.get w)
      ∨ (instruction.type.get w = UNARY ∧ 12 < instruction.instruction.get w)
      ∨ (instruction.type.get w = NO_OPERAND ∧ 1 < instruction.instruction.get w)
      ∨ (instruction.type.get w = REGISTER_IMMEDIATE ∧ 2 < instruction.instruction.get w)) :
    ∃ c', c.next = .ok c' ∧ c'.reg cpu.IP = c.reg cpu.IP + 1
      ∧ (∀ r, r ≠ cpu.IP → c'.reg r = c.reg r)
      ∧ c'._flags.equal = c._flags.equal ∧ c'._flags.above = c._flags.above
      ∧ c'._flags.halt = false ∧ c'._stack = c._stack
      ∧ c'._instructions = c._instructions ∧ c'._cerr = c._cerr ++ [cpu.UD] := by
  have hnext : c.next
      = .ok ((c.set_reg cpu.IP (c.reg cpu.IP + 1)).raise_exception cpu.UD) := by
    rw [← ip_succ_mod c w hwf.2.2.2.2 hf]
    rcases hud with h | h | h | h | h
    · rw [next_eq_three_address c w hh hf h.1, next_three_address_undefined _ _ h.2]
    · rw [next_eq_binomial c w hh hf h.1, next_binomial_undefined _ _ h.2]
    · rw [next_eq_unary c w hh hf h.1, next_unary_undefined _ _ h.2]
    · rw [next_eq_no_operand c w hh hf h.1, next_no_operand_undefined _ _ h.2]
    · rw [next_eq_register_immediate c w hh hf h.1,
        next_register_immediate_undefined _ _ h.2]
  have hframe := cpu.set_reg_frame c cpu.IP (c.reg cpu.IP + 1) (by rw [hwf.1]; decide)
  refine ⟨_, hnext, hframe.1, hframe.2.1, ?_, ?_, ?_, rfl, rfl, rfl⟩
  · show (c._flags._set 2 false)._get 0 = c._flags._get 0
    rw [flags.get_set _ _ _ _ (by decide) (by decide), if_neg (by decide)]
  · show (c._flags._set 2 false)._get 1 = c._flags._get 1
    rw [flags.get_set _ _ _ _ (by decide) (by decide), if_neg (by decide)]
  · show (c._flags._set 2 false)._get 2 = false
    rw [flags.get_set _ _ _ _ (by decide) (by decide), if_pos rfl]


/-- An instance of `undefined_operation_changes_only_ip`: the word 75 (THREE_ADDRESS,
operation code 9) in the zero-initialised state. -/
theorem undefined_operation_changes_only_ip_witness :
    ∃ c', (cpu.new [75]).next = .ok c' ∧ c'.reg cpu.IP = 1 ∧ c'._flags.halt = false
      ∧ c'._cerr = [cpu.UD] :=
  match undefined_operation_changes_only_ip (cpu.new [75]) 75 (by decide) (by decide)
    (by decide) (Or.inl (by decide)) with
  | ⟨c', h1, h2, _, _, _, h6, _, _, h9⟩ => ⟨c', h1, h2, h6, h9⟩

/-! ## THREE_ADDRESS operations -/

/-- Claim C12, amended.  In a non-halted state that fetches a THREE_ADDRESS word, let `c1`
be the state after the fetch (the instruction pointer incremented, nothing else changed),
`s1` and `s2` the values of the source registers in `c1` and `d` the destination.  Then one
cycle ends in `c1` with register `d` set to `s1 + s2`, `s1 - s2`, `s1 * s2` (each modulo
`2 ^ 64`), `s1 & s2`, `s1 | s2`, `s1 ^ s2`, `s1` shifted right by `s2` (for `s2 < 64`) or
the quotient `s1 / s2` (for `s2` not zero), for the operations add, sub, mul, and, or, xor,
shr and div.  The sources are read before the destination is written, so a destination
that is also a source does not matter; a source other than the instruction pointer holds
its value from before the cycle, the instruction pointer as a source holds its old value
plus one.  No register other than `d` and the instruction pointer changes. -/
theorem three_address_operations (c : cpu) (w : instruction) (hwf : c.wf)
    (hh : c._flags.halt = false) (hf : c._instructions[c.reg cpu.IP]? = some w)
    (ht : instruction.type.get w = THREE_ADDRESS) :
    let c1 := c.set_reg cpu.IP (c.reg cpu.IP + 1);
    let s1 := c1.reg (three_address.source1.get w);
    let s2 := c1.reg (three_address.source2.get w);
    let d := three_address.destination.get w;
    (c1.reg cpu.IP = c.reg cpu.IP + 1 ∧ ∀ r, r ≠ cpu.IP → c1.reg r = c.reg r)
      ∧ (instruction.instruction.get w = 0b00000 →
          c.next = .ok (c1.set_reg d ((s1 + s2) % 2 ^ 64)))
      ∧ (instruction.instruction.get w = 0b00001 →
          ∃ v : Nat, c.next = .ok (c1.set_reg d v)
            ∧ (v : Int) = ((s1 : Int) - (s2 : Int)) % 2 ^ 64)
      ∧ (instruction.instruction.get w = 0b00010 →
          c.next = .ok (c1.set_reg d ((s1 * s2) % 2 ^ 64)))
      ∧ (instruction.instruction.get w = 0b00110 → c.next = .ok (c1.set_reg d (s1 &&& s2)))
      ∧ (instruction.instruction.get w = 0b00111 → c.next = .ok (c1.set_reg d (s1 ||| s2)))
      ∧ (instruction.instruction.get w = 0b01000 → c.next = .ok (c1.set_reg d (s1 ^^^ s2)))
      ∧ (instruction.instruction.get w = 0b00100 → s2 < 64 →
          c.next = .ok (c1.set_reg d (s1 / 2 ^ s2)))
      ∧ (instruction.instruction.get w = 0b00011 → s2 ≠ 0 →
          c.next = .ok (c1.set_reg d (s1 / s2)))
      ∧ ∀ v, (c1.set_reg d v).reg d = v
          ∧ (∀ r, r ≠ d → r ≠ cpu.IP → (c1.set_reg d v).reg r = c.reg r)
          ∧ (c1.set_reg d v)._flags = c._flags ∧ (c1.set_reg d v)._stack = c._stack := by
  intro c1 s1 s2 d
  have hIPlen : cpu.IP < c._registers.length := by rw [hwf.1]; decide
  have hc1 := cpu.set_reg_frame c cpu.IP (c.reg cpu.IP + 1) hIPlen
  have hnext : c.next = c1.next_three_address w := by
    rw [next_eq_three_address c w hh hf ht, ip_succ_mod c w hwf.2.2.2.2 hf]
  have hd : d < c1._registers.length := by
    show three_address.destination.get w < (c.set_reg cpu.IP _)._registers.length
    rw [cpu.set_reg_length, hwf.1]
    exact bitfield.get_lt three_address.destination w
  refine ⟨⟨hc1.1, hc1.2.1⟩, ?_, ?_, ?_, ?_, ?_, ?_, ?_, ?_, ?_⟩
  · intro hn
    rw [hnext]; unfold cpu.next_three_address; rw [hn]
  · intro hn
    refine ⟨(s1 + (2 ^ 64 - s2 % 2 ^ 64)) % 2 ^ 64, ?_, by omega⟩
    rw [hnext]; unfold cpu.next_three_address; rw [hn]
  · intro hn
    rw [hnext]; unfold cpu.next_three_address; rw [hn]
  · intro hn
    rw [hnext]; unfold cpu.next_three_address; rw [hn]
  · intro hn
    rw [hnext]; unfold cpu.next_three_address; rw [hn]
  · intro hn
    rw [hnext]; unfold cpu.next_three_address; rw [hn]
  · intro hn hs
    rw [hnext]; unfold cpu.next_three_address; rw [hn]
    simp only []
    rw [if_neg (by omega), Nat.shiftRight_eq_div_pow]
  · intro hn hs
    rw [hnext]; unfold cpu.next_three_address; rw [hn]
    simp only []
    rw [if_neg hs]
  · intro v
    have hf2 := cpu.set_reg_frame c1 d v hd
    refine ⟨hf2.1, ?_, hf2.2.2.1, hf2.2.2.2.1⟩
    intro r hrd hrip
    rw [hf2.2.1 r hrd]
    exact hc1.2.1 r hrip


/-- An instance of `three_address_operations`: `add rs2,rs0,rs1` with 5 in `rs0` and 3 in
`rs1` leaves 8 in `rs2`. -/
theorem three_address_operations_witness :
    (((cpu.new [67377155]).set_reg 1 5).set_reg 2 3).next
      = .ok (((((cpu.new [67377155]).set_reg 1 5).set_reg 2 3).set_reg cpu.IP 1).set_reg 3 8) :=
  (three_address_operations (((cpu.new [67377155]).set_reg 1 5).set_reg 2 3) 67377155
    (by decide) (by decide) (by decide) (by decide)).2.1 (by decide)

/-- Claim C12, as stated, fails when a source is the instruction pointer: the line
`add rs0,ip,r0` assembles to the word 17041411 (THREE_ADDRESS, add, destination 1, sources
65 and 0); in the zero-initialised state both sources hold 0 before the cycle, and after
the cycle `rs0` holds 1, the incremented instruction pointer, not 0 + 0. -/
theorem add_reads_incremented_instruction_pointer :
    assemble_line system_info ["add rs0,ip,r0".toList] 0 = .ok (some 17041411)
      ∧ instruction.type.get 17041411 = THREE_ADDRESS
      ∧ instruction.instruction.get 17041411 = 0b00000
      ∧ three_address.destination.get 17041411 = 1
      ∧ three_address.source1.get 17041411 = cpu.IP
      ∧ three_address.source2.get 17041411 = 0
      ∧ ((cpu.new [17041411]).reg cpu.IP + (cpu.new [17041411]).reg 0) % 2 ^ 64 = 0
      ∧ (cpu.new [17041411]).next.map (fun c => c.reg 1) = .ok 1 := by
  decide

/-- Claim C13 (fails on the code).  The word 67377195 is `shl rs2,rs0,rs1` (THREE_ADDRESS,
operation 5, destination 3, sources 1 and 2).  With 1 in `rs0` and 2 in `rs1` a cycle
leaves 2 in `rs2`: the code computes `src1 << src1`, not `src1 << src2`, which is 4.  With
64 in `rs0` and 1 in `rs1` the shift count of the code is 64, which is undefined, although
the second source is below 64. -/
theorem shl_shifts_by_first_source :
    assemble_line system_info ["shl rs2,rs0,rs1".toList] 0 = .ok (some 67377195)
      ∧ (((cpu.new [67377195]).set_reg 1 1).set_reg 2 2).next.map (fun c => c.reg 3) = .ok 2
      ∧ (1 <<< 2) % 2 ^ 64 = 4
      ∧ (((cpu.new [67377195]).set_reg 1 64).set_reg 2 1).next
          = .error .undefined_behaviour := by
  decide

/-- Claim C14 (fails on the code).  After `cmp` the equal flag is true exactly when the
first operand is greater than the second: the second call `_flags.equal(op1 > op2)`
overwrites the result of the comparison for equality.  The word 18 is `cmp r0,r0`: in
the zero-initialised state both operands are 0 and the equal flag is false after the
cycle.  The word 263186 is `cmp rs0,rs1`: with 2 in `rs0` and 1 in `rs1` the equal flag
is true after the cycle; with 1 in both it is false. -/
theorem cmp_equal_flag_means_greater :
    assemble_line system_info ["cmp r0,r0".toList] 0 = .ok (some 18)
      ∧ (cpu.new [18]).next.map (fun c => (c._flags.equal, c._flags.above)) = .ok (false, false)
      ∧ assemble_line system_info ["cmp rs0,rs1".toList] 0 = .ok (some 263186)
      ∧ (((cpu.new [263186]).set_reg 1 2).set_reg 2 1).next.map
          (fun c => (c._flags.equal, c._flags.above)) = .ok (true, false)
      ∧ (((cpu.new [263186]).set_reg 1 1).set_reg 2 1).next.map
          (fun c => (c._flags.equal, c._flags.above)) = .ok (false, false) := by
  decide


/-! ## REGISTER_IMMEDIATE operations -/

theorem and_low_mask (x : Nat) : x &&& 0xffffffff = x % 2 ^ 32 :=
  Nat.and_pow_two_sub_one_eq_mod x 32

/-- The value that `asgnh` computes. -/
theorem asgnh_value (i v : Nat) :
    ((i &&& 0xffffffff) <<< 32) % 2 ^ 64 ||| (v &&& 0xffffffff)
      = (i % 2 ^ 32) * 2 ^ 32 + v % 2 ^ 32 := by
  rw [and_low_mask, and_low_mask, Nat.shiftLeft_eq]
  have h1 : i % 2 ^ 32 < 2 ^ 32 := Nat.mod_lt _ (by norm_num)
  have h2 : v % 2 ^ 32 < 2 ^ 32 := Nat.mod_lt _ (by norm_num)
  have h3 : i % 2 ^ 32 * 2 ^ 32 < 2 ^ 64 := by
    have : (2 : Nat) ^ 64 = 2 ^ 32 * 2 ^ 32 := by norm_num
    rw [this]
    exact Nat.mul_lt_mul_of_pos_right h1 (by norm_num)
  rw [Nat.mod_eq_of_lt h3, Nat.mul_comm, ← Nat.mul_add_lt_is_or h2]

/-- The value that `asgnl` computes. -/
theorem asgnl_value (i v : Nat) (hv : v < 2 ^ 64) :
    (i &&& 0xffffffff) ||| (v &&& (0xffffffff <<< 32))
      = v / 2 ^ 32 * 2 ^ 32 + i % 2 ^ 32 := by
  have hmask : v &&& (0xffffffff <<< 32) = 2 ^ 32 * (v / 2 ^ 32) := by
    apply Nat.eq_of_testBit_eq
    intro j
    have hm : (0xffffffff : Nat) = 2 ^ 32 - 1 := by norm_num
    rw [Nat.testBit_and, Nat.testBit_shiftLeft, hm, Nat.testBit_two_pow_sub_one,
      Nat.mul_comm, ← Nat.shiftLeft_eq, Nat.testBit_shiftLeft, ← Nat.shiftRight_eq_div_pow,
      Nat.testBit_shiftRight]
    by_cases hj : j ≥ 32
    · have e : 32 + (j - 32) = j := by omega
      rw [e]
      by_cases hj2 : j - 32 < 32
      · simp [hj, hj2]
      · have : v.testBit j = false :=
          Nat.testBit_lt_two_pow (lt_of_lt_of_le hv (Nat.pow_le_pow_right (by norm_num)
            (by omega)))
        simp [hj, hj2, this]
    · simp [hj]
  have h2 : i % 2 ^ 32 < 2 ^ 32 := Nat.mod_lt _ (by norm_num)
  rw [and_low_mask, hmask, Nat.lor_comm, ← Nat.mul_add_lt_is_or h2, Nat.mul_comm]

/-- One cycle on a REGISTER_IMMEDIATE word with operation `asgn`, `asgnh` or `asgnl`; `v`
is the value of the register after the fetch. -/
theorem next_asgn_family (c : cpu) (w : instruction) (hlen : c._instructions.length < 2 ^ 64)
    (hh : c._flags.halt = false) (hf : c._instructions[c.reg cpu.IP]? = some w)
    (ht : instruction.type.get w = REGISTER_IMMEDIATE) :
    let c1 := c.set_reg cpu.IP (c.reg cpu.IP + 1);
    let r := register_immediate.reg.get w;
    let i := register_immediate.immediate.get w;
    let v := c1.reg r;
    (instruction.instruction.get w = 0 → c.next = .ok (c1.set_reg r i))
      ∧ (instruction.instruction.get w = 0b00001 →
          c.next = .ok (c1.set_reg r ((i % 2 ^ 32) * 2 ^ 32 + v % 2 ^ 32)))
      ∧ (instruction.instruction.get w = 0b00010 → v < 2 ^ 64 →
          c.next = .ok (c1.set_reg r (v / 2 ^ 32 * 2 ^ 32 + i % 2 ^ 32))) := by
  intro c1 r i v
  have hnext : c.next = c1.next_register_immediate w := by
    rw [next_eq_register_immediate c w hh hf ht, ip_succ_mod c w hlen hf]
  refine ⟨?_, ?_, ?_⟩
  · intro hn
    rw [hnext]; unfold cpu.next_register_immediate; rw [hn]
  · intro hn
    rw [hnext]; unfold cpu.next_register_immediate; rw [hn]
    simp only []
    rw [asgnh_value]
  · intro hn hv
    rw [hnext]; unfold cpu.next_register_immediate; rw [hn]
    simp only []
    rw [asgnl_value _ _ hv]

theorem cpu.reg_lt (c : cpu) (r : Nat) (h : ∀ v ∈ c._registers, v < 2 ^ 64) :
    c.reg r < 2 ^ 64 := by
  unfold cpu.reg
  rw [List.getD_eq_getElem?_getD]
  cases hr : c._registers[r]? with
  | none => simp
  | some v => exact h v (List.getElem?_mem hr)


/-- One cycle of `asgnh` (`high = true`) or `asgnl` (`high = false`) on a register other
than the instruction pointer: the new value of the register and what the next cycle
needs. -/
theorem next_asgnh_asgnl (c : cpu) (w : instruction) (high : Bool)
    (hreg : c._registers.length = 128)
    (hlen : c._instructions.length < 2 ^ 64) (hh : c._flags.halt = false)
    (hf : c._instructions[c.reg cpu.IP]? = some w)
    (ht : instruction.type.get w = REGISTER_IMMEDIATE)
    (hr : register_immediate.reg.get w ≠ cpu.IP)
    (hn : instruction.instruction.get w = if high then 0b00001 else 0b00010)
    (hv : c.reg (register_immediate.reg.get w) < 2 ^ 64) :
    ∃ c', c.next = .ok c'
      ∧ c'.reg (register_immediate.reg.get w)
          = (if high then
              (register_immediate.immediate.get w % 2 ^ 32) * 2 ^ 32
                + c.reg (register_immediate.reg.get w) % 2 ^ 32
            else
              c.reg (register_immediate.reg.get w) / 2 ^ 32 * 2 ^ 32
                + register_immediate.immediate.get w % 2 ^ 32)
      ∧ c'.reg cpu.IP = c.reg cpu.IP + 1 ∧ c'._instructions = c._instructions
      ∧ c'._flags = c._flags ∧ c'._registers.length = 128 := by
  have hfam := next_asgn_family c w hlen hh hf ht
  simp only at hfam
  have hIP : cpu.IP < c._registers.length := by rw [hreg]; decide
  have hc1 := cpu.set_reg_frame c cpu.IP (c.reg cpu.IP + 1) hIP
  have hv1 : (c.set_reg cpu.IP (c.reg cpu.IP + 1)).reg (register_immediate.reg.get w)
      = c.reg (register_immediate.reg.get w) := hc1.2.1 _ hr
  have hrlen : register_immediate.reg.get w
      < (c.set_reg cpu.IP (c.reg cpu.IP + 1))._registers.length := by
    rw [cpu.set_reg_length, hreg]
    exact bitfield.get_lt register_immediate.reg w
  have hframe : ∀ x, ((c.set_reg cpu.IP (c.reg cpu.IP + 1)).set_reg
      (register_immediate.reg.get w) x).reg cpu.IP = c.reg cpu.IP + 1 := by
    intro x
    rw [(cpu.set_reg_frame _ _ x hrlen).2.1 cpu.IP (fun e => hr e.symm)]
    exact hc1.1
  cases high with
  | true =>
    simp only [if_true] at hn ⊢
    refine ⟨_, hfam.2.1 hn, ?_, hframe _, rfl, rfl, by simp [hreg]⟩
    rw [(cpu.set_reg_frame _ _ _ hrlen).1, hv1]
  | false =>
    simp only [Bool.false_eq_true, if_false] at hn ⊢
    refine ⟨_, hfam.2.2 hn (by rw [hv1]; exact hv), ?_, hframe _, rfl, rfl, by simp [hreg]⟩
    rw [(cpu.set_reg_frame _ _ _ hrlen).1, hv1]

/-- Two cycles in a row. -/
theorem cycles_two (c c1 c2 : cpu) (h1 : c.next = .ok c1) (h2 : c1.next = .ok c2) :
    cycles 2 c = .ok c2 := by
  simp [cycles, h1, h2]

/-- Claim C15, amended.  In a non-halted state that fetches a REGISTER_IMMEDIATE word with
register `r` and immediate `i`, let `v` be the value of `r` after the fetch: the value
before the cycle for every register other than the instruction pointer, the old value
plus one for the instruction pointer itself.  Then `asgn` sets `r` to `i`, `asgnh` sets
`r` to `(i mod 2^32) * 2^32 + (v mod 2^32)` and `asgnl` sets `r` to `v` with its low 32
bits replaced by `i mod 2^32`.  Consequently, for every register `r` other than the
instruction pointer and every 64-bit value `W`, two cycles that execute `asgnh` with the
high half of `W` and `asgnl` with the low half of `W`, in either order, leave `r = W`,
whatever `r` held before. -/
theorem register_immediate_assignments (c : cpu) (hwf : c.wf) (hh : c._flags.halt = false) :
    (∀ w, c._instructions[c.reg cpu.IP]? = some w →
        instruction.type.get w = REGISTER_IMMEDIATE →
        let c1 := c.set_reg cpu.IP (c.reg cpu.IP + 1);
        let r := register_immediate.reg.get w;
        let i := register_immediate.immediate.get w;
        let v := c1.reg r;
        (r ≠ cpu.IP → v = c.reg r) ∧ (r = cpu.IP → v = c.reg cpu.IP + 1)
          ∧ (instruction.instruction.get w = 0 → c.next = .ok (c1.set_reg r i))
          ∧ (instruction.instruction.get w = 0b00001 →
              c.next = .ok (c1.set_reg r ((i % 2 ^ 32) * 2 ^ 32 + v % 2 ^ 32)))
          ∧ (instruction.instruction.get w = 0b00010 →
              c.next = .ok (c1.set_reg r (v / 2 ^ 32 * 2 ^ 32 + i % 2 ^ 32)))
          ∧ ∀ x, (c1.set_reg r x).reg r = x)
      ∧ (∀ (W r : Nat) (wh wl : instruction), W < 2 ^ 64 → r ≠ cpu.IP →
          instruction.type.get wh = REGISTER_IMMEDIATE →
          instruction.instruction.get wh = 0b00001 →
          register_immediate.reg.get wh = r →
          register_immediate.immediate.get wh = W / 2 ^ 32 →
          instruction.type.get wl = REGISTER_IMMEDIATE →
          instruction.instruction.get wl = 0b00010 →
          register_immediate.reg.get wl = r →
          register_immediate.immediate.get wl = W % 2 ^ 32 →
          (c._instructions[c.reg cpu.IP]? = some wh →
              c._instructions[c.reg cpu.IP + 1]? = some wl →
              ∃ c2, cycles 2 c = .ok c2 ∧ c2.reg r = W)
            ∧ (c._instructions[c.reg cpu.IP]? = some wl →
              c._instructions[c.reg cpu.IP + 1]? = some wh →
              ∃ c2, cycles 2 c = .ok c2 ∧ c2.reg r = W)) := by
  obtain ⟨hreg, hvals, _, _, hlen⟩ := hwf
  have hIP : cpu.IP < c._registers.length := by rw [hreg]; decide
  have hc1 := cpu.set_reg_frame c cpu.IP (c.reg cpu.IP + 1) hIP
  constructor
  · intro w hf ht c1 r i v
    have hfam := next_asgn_family c w hlen hh hf ht
    have hv64 : v < 2 ^ 64 := by
      by_cases hr : r = cpu.IP
      · show (c.set_reg cpu.IP (c.reg cpu.IP + 1)).reg r < 2 ^ 64
        rw [hr, hc1.1, ← ip_succ_mod c w hlen hf]
        exact Nat.mod_lt _ (by norm_num)
      · show (c.set_reg cpu.IP (c.reg cpu.IP + 1)).reg r < 2 ^ 64
        rw [hc1.2.1 r hr]
        exact cpu.reg_lt c r hvals
    refine ⟨fun hr => hc1.2.1 r hr, fun hr => by show c1.reg r = _; rw [hr]; exact hc1.1,
      hfam.1, hfam.2.1, fun hn => hfam.2.2 hn hv64, ?_⟩
    intro x
    exact (cpu.set_reg_frame c1 r x (by
      show register_immediate.reg.get w < (c.set_reg cpu.IP _)._registers.length
      rw [cpu.set_reg_length, hreg]
      exact bitfield.get_lt register_immediate.reg w)).1
  · intro W r wh wl hW hr hth hnh hrh hih htl hnl hrl hil
    have hhi : W / 2 ^ 32 % 2 ^ 32 = W / 2 ^ 32 := by
      apply Nat.mod_eq_of_lt
      have : (2 : Nat) ^ 64 = 2 ^ 32 * 2 ^ 32 := by norm_num
      rw [this] at hW
      exact Nat.div_lt_of_lt_mul hW
    have hlo : W % 2 ^ 32 % 2 ^ 32 = W % 2 ^ 32 := Nat.mod_mod _ _
    have hsplit : W / 2 ^ 32 * 2 ^ 32 + W % 2 ^ 32 = W := by
      rw [Nat.mul_comm]
      exact Nat.div_add_mod W (2 ^ 32)
    have hv0 : c.reg r < 2 ^ 64 := cpu.reg_lt c r hvals
    constructor
    · intro hf1 hf2
      obtain ⟨c1, hn1, hr1, hip1, hins1, hfl1, hlen1⟩ :=
        next_asgnh_asgnl c wh true hreg hlen hh hf1 hth (by rw [hrh]; exact hr)
          (by simp [hnh]) (by rw [hrh]; exact hv0)
      simp only [if_true, hrh, hih, hhi] at hr1
      have hv1 : c1.reg r < 2 ^ 64 := by
        rw [hr1]
        omega
      obtain ⟨c2, hn2, hr2, -⟩ :=
        next_asgnh_asgnl c1 wl false hlen1 (by rw [hins1]; exact hlen) (by rw [hfl1]; exact hh)
          (by rw [hins1, hip1]; exact hf2) htl (by rw [hrl]; exact hr) (by simp [hnl])
          (by rw [hrl]; exact hv1)
      simp only [Bool.false_eq_true, if_false, hrl, hil, hlo, hr1] at hr2
      refine ⟨c2, cycles_two c c1 c2 hn1 hn2, ?_⟩
      rw [hr2]
      have : c.reg r % 2 ^ 32 < 2 ^ 32 := Nat.mod_lt _ (by norm_num)
      have e : (W / 2 ^ 32 * 2 ^ 32 + c.reg r % 2 ^ 32) / 2 ^ 32 = W / 2 ^ 32 := by
        rw [Nat.add_comm, Nat.add_mul_div_right _ _ (by norm_num), Nat.div_eq_of_lt this,
          Nat.zero_add]
      rw [e, hsplit]
    · intro hf1 hf2
      obtain ⟨c1, hn1, hr1, hip1, hins1, hfl1, hlen1⟩ :=
        next_asgnh_asgnl c wl false hreg hlen hh hf1 htl (by rw [hrl]; exact hr)
          (by simp [hnl]) (by rw [hrl]; exact hv0)
      simp only [Bool.false_eq_true, if_false, hrl, hil, hlo] at hr1
      have hv1 : c1.reg r < 2 ^ 64 := by
        rw [hr1]
        omega
      obtain ⟨c2, hn2, hr2, -⟩ :=
        next_asgnh_asgnl c1 wh true hlen1 (by rw [hins1]; exact hlen) (by rw [hfl1]; exact hh)
          (by rw [hins1, hip1]; exact hf2) hth (by rw [hrh]; exact hr) (by simp [hnh])
          (by rw [hrh]; exact hv1)
      simp only [if_true, hrh, hih, hhi, hr1] at hr2
      refine ⟨c2, cycles_two c c1 c2 hn1 hn2, ?_⟩
      rw [hr2]
      have h1 : W % 2 ^ 32 < 2 ^ 32 := Nat.mod_lt _ (by norm_num)
      have e : (c.reg r / 2 ^ 32 * 2 ^ 32 + W % 2 ^ 32) % 2 ^ 32 = W % 2 ^ 32 := by
        rw [Nat.add_comm, Nat.add_mul_mod_self_right, Nat.mod_mod]
      rw [e, hsplit]


/-- An instance of `register_immediate_assignments`: `asgnh rs0,7` followed by `asgnl rs0,9`
leaves `7 * 2^32 + 9` in `rs0`. -/
theorem register_immediate_assignments_witness :
    ∃ c2, cycles 2 (cpu.new [229644, 295188]) = .ok c2 ∧ c2.reg 1 = 7 * 2 ^ 32 + 9 :=
  ((register_immediate_assignments (cpu.new [229644, 295188]) (by decide) (by decide)).2
    (7 * 2 ^ 32 + 9) 1 229644 295188 (by decide) (by decide) (by decide) (by decide)
    (by decide) (by decide) (by decide) (by decide) (by decide) (by decide)).1
    (by decide) (by decide)

/-- Claim C15, as stated, fails when the register is the instruction pointer: the word
16652 is `asgnh ip,0`; in the zero-initialised state the instruction pointer holds 0
before the cycle, so the claimed result is `0 * 2^32 + 0 = 0`, but the cycle leaves 1 in
it: `asgnh` keeps the low half of the incremented instruction pointer. -/
theorem asgnh_reads_incremented_instruction_pointer :
    assemble_line system_info ["asgnh ip,0".toList] 0 = .ok (some 16652)
      ∧ instruction.type.get 16652 = REGISTER_IMMEDIATE
      ∧ instruction.instruction.get 16652 = 0b00001
      ∧ register_immediate.reg.get 16652 = cpu.IP
      ∧ register_immediate.immediate.get 16652 = 0
      ∧ (cpu.new [16652]).reg cpu.IP = 0
      ∧ (cpu.new [16652]).next.map (fun c => c.reg cpu.IP) = .ok 1 := by
  decide

/-! ## Registers that a cycle leaves alone -/

theorem cpu.reg_set_reg_ne (c : cpu) (i r v : Nat) (h : r ≠ i) :
    (c.set_reg i v).reg r = c.reg r := by
  unfold cpu.reg cpu.set_reg
  simp only [List.getD_eq_getElem?_getD, List.getElem?_set]
  have : ¬ i = r := fun e => h e.symm
  simp [this]

theorem raise_exception_keeps (c : cpu) (t r : Nat) :
    (c.raise_exception t).reg r = c.reg r
      ∧ (c.raise_exception t)._instructions = c._instructions
      ∧ (c.raise_exception t)._registers.length = c._registers.length :=
  ⟨rfl, rfl, rfl⟩

theorem set_reg_keeps (c : cpu) (i v r : Nat) (h : r ≠ i) :
    (c.set_reg i v).reg r = c.reg r ∧ (c.set_reg i v)._instructions = c._instructions
      ∧ (c.set_reg i v)._registers.length = c._registers.length :=
  ⟨cpu.reg_set_reg_ne c i r v h, rfl, cpu.set_reg_length c i v⟩

theorem next_three_address_keeps (c c' : cpu) (ins : instruction) (r : Nat)
    (hr : instruction.instruction.get ins ≤ 0b01000 → three_address.destination.get ins ≠ r)
    (h : c.next_three_address ins = .ok c') :
    c'.reg r = c.reg r ∧ c'._instructions = c._instructions
      ∧ c'._registers.length = c._registers.length := by
  unfold cpu.next_three_address at h
  simp only [] at h
  split at h <;> (try split at h) <;>
    first
      | contradiction
      | (injection h with h; subst h
         exact set_reg_keeps _ _ _ _ (fun e => hr (by omega) e.symm))
      | (injection h with h; subst h; exact raise_exception_keeps _ _ _)

theorem next_binomial_keeps (c c' : cpu) (ins : instruction) (r : Nat)
    (hr1 : instruction.instruction.get ins = 0b00000 → binomial.operand1.get ins ≠ r)
    (hr2 : instruction.instruction.get ins = 0b00001 →
      binomial.operand1.get ins ≠ binomial.operand2.get ins →
      binomial.operand1.get ins ≠ r ∧ binomial.operand2.get ins ≠ r)
    (h : c.next_binomial ins = .ok c') :
    c'.reg r = c.reg r ∧ c'._instructions = c._instructions
      ∧ c'._registers.length = c._registers.length := by
  unfold cpu.next_binomial at h
  simp only [] at h
  split at h
  · rename_i hop
    injection h with h
    subst h
    exact set_reg_keeps _ _ _ _ (fun e => hr1 hop e.symm)
  · rename_i hop
    split at h
    · rename_i hab
      injection h with h
      subst h
      obtain ⟨ha, hb⟩ := hr2 hop hab
      have h2 := set_reg_keeps (c.set_reg (binomial.operand1.get ins)
        (c.reg (binomial.operand2.get ins))) (binomial.operand2.get ins)
        (c.reg (binomial.operand1.get ins)) r (fun e => hb e.symm)
      have h1 := set_reg_keeps c (binomial.operand1.get ins)
        (c.reg (binomial.operand2.get ins)) r (fun e => ha e.symm)
      exact ⟨h2.1.trans h1.1, rfl, h2.2.2.trans h1.2.2⟩
    · injection h with h
      subst h
      exact ⟨rfl, rfl, rfl⟩
  · injection h with h
    subst h
    exact ⟨rfl, rfl, rfl⟩
  · injection h with h
    subst h
    exact raise_exception_keeps _ _ _

theorem next_register_immediate_keeps (c c' : cpu) (ins : instruction) (r : Nat)
    (hr : instruction.instruction.get ins ≤ 0b00010 → register_immediate.reg.get ins ≠ r)
    (h : c.next_register_immediate ins = .ok c') :
    c'.reg r = c.reg r ∧ c'._instructions = c._instructions
      ∧ c'._registers.length = c._registers.length := by
  unfold cpu.next_register_immediate at h
  simp only [] at h
  split at h <;>
    first
      | (injection h with h; subst h
         exact set_reg_keeps _ _ _ _ (fun e => hr (by omega) e.symm))
      | (injection h with h; subst h; exact raise_exception_keeps _ _ _)

theorem next_no_operand_keeps (c c' : cpu) (ins : instruction) (r : Nat) (hr : r ≠ cpu.IP)
    (h : c.next_no_operand ins = .ok c') :
    c'.reg r = c.reg r ∧ c'._instructions = c._instructions
      ∧ c'._registers.length = c._registers.length := by
  unfold cpu.next_no_operand at h
  split at h <;> (try split at h) <;>
    first
      | contradiction
      | (injection h with h; subst h; exact ⟨rfl, rfl, rfl⟩)
      | (injection h with h; subst h; exact set_reg_keeps _ _ _ _ hr)

theorem unary_switch_keeps (c c1 : cpu) (ins : instruction) (data d : Nat) (a j : Bool)
    (h : c.unary_switch ins data = .ok (some (c1, d, a, j))) :
    c1._registers = c._registers ∧ c1._instructions = c._instructions := by
  unfold cpu.unary_switch at h
  split at h <;> (try split at h) <;>
    first
      | contradiction
      | (simp only [Except.ok.injEq, Option.some.injEq, Prod.mk.injEq] at h
         obtain ⟨h1, -⟩ := h
         subst h1
         exact ⟨rfl, rfl⟩)
      | simp at h

/-- The cases of the `switch` of UNARY that set `assign`: `inc`, `dec` and `pop`. -/
theorem unary_switch_assign (c c1 : cpu) (ins : instruction) (data d : Nat) (j : Bool)
    (h : c.unary_switch ins data = .ok (some (c1, d, true, j))) :
    instruction.instruction.get ins = 0b00000 ∨ instruction.instruction.get ins = 0b00001
      ∨ instruction.instruction.get ins = 0b01100 := by
  unfold cpu.unary_switch at h
  split at h <;> (try split at h) <;>
    first
      | contradiction
      | omega
      | (simp only [Except.ok.injEq, Option.some.injEq, Prod.mk.injEq] at h
         obtain ⟨-, -, h3, -⟩ := h
         exact absurd h3 (by decide))
      | simp at h

theorem unary_finish_keeps (c : cpu) (ins : instruction) (data r : Nat) (a j : Bool)
    (hr : r ≠ cpu.IP)
    (ht : a = true → unary.type.get ins = 0b00 → unary.reg.operand.get ins ≠ r) :
    (c.unary_finish ins data a j).reg r = c.reg r
      ∧ (c.unary_finish ins data a j)._instructions = c._instructions
      ∧ (c.unary_finish ins data a j)._registers.length = c._registers.length := by
  have hassign : a = true → ∀ c0 : cpu,
      (match unary.type.get ins with
        | 0b00 => c0.set_reg (unary.reg.operand.get ins) data
        | _ => c0).reg r = c0.reg r
      ∧ (match unary.type.get ins with
        | 0b00 => c0.set_reg (unary.reg.operand.get ins) data
        | _ => c0)._instructions = c0._instructions
      ∧ (match unary.type.get ins with
        | 0b00 => c0.set_reg (unary.reg.operand.get ins) data
        | _ => c0)._registers.length = c0._registers.length := by
    intro ha c0
    split
    · rename_i h0
      exact set_reg_keeps _ _ _ _ (fun e => ht ha h0 e.symm)
    · exact ⟨rfl, rfl, rfl⟩
  unfold cpu.unary_finish
  cases a <;> cases j
  · exact ⟨rfl, rfl, rfl⟩
  · exact set_reg_keeps _ _ _ _ hr
  · exact hassign rfl c
  · simp only [if_true]
    have h1 := hassign rfl c
    have h2 := set_reg_keeps (match unary.type.get ins with
        | 0b00 => c.set_reg (unary.reg.operand.get ins) data
        | _ => c) cpu.IP data r hr
    exact ⟨h2.1.trans h1.1, h2.2.1.trans h1.2.1, h2.2.2.trans h1.2.2⟩

theorem next_unary_keeps (c c' : cpu) (ins : instruction) (r : Nat) (hr : r ≠ cpu.IP)
    (ht : unary.type.get ins = 0b00 →
      (instruction.instruction.get ins = 0b00000 ∨ instruction.instruction.get ins = 0b00001
        ∨ instruction.instruction.get ins = 0b01100) →
      unary.reg.operand.get ins ≠ r)
    (h : c.next_unary ins = .ok c') :
    c'.reg r = c.reg r ∧ c'._instructions = c._instructions
      ∧ c'._registers.length = c._registers.length := by
  unfold cpu.next_unary at h
  split at h
  · contradiction
  · injection h with h
    subst h
    exact raise_exception_keeps _ _ _
  · rename_i c1 d a j heq
    injection h with h
    subst h
    have h1 := unary_switch_keeps c c1 ins _ d a j heq
    have h2 := unary_finish_keeps c1 ins d r a j hr (fun ha hty => by
      subst ha
      exact ht hty (unary_switch_assign c c1 ins _ d j heq))
    refine ⟨?_, h2.2.1.trans h1.2, ?_⟩
    · rw [h2.1]
      unfold cpu.reg
      rw [h1.1]
    · rw [h2.2.2, h1.1]

theorem writes_register_eq_false (ins : instruction) (r : Nat)
    (h : writes_register ins r = false) :
    (instruction.type.get ins = THREE_ADDRESS → instruction.instruction.get ins ≤ 0b01000 →
        three_address.destination.get ins ≠ r)
      ∧ (instruction.type.get ins = BINOMIAL → instruction.instruction.get ins = 0b00000 →
          binomial.operand1.get ins ≠ r)
      ∧ (instruction.type.get ins = BINOMIAL → instruction.instruction.get ins = 0b00001 →
          binomial.operand1.get ins ≠ binomial.operand2.get ins →
          binomial.operand1.get ins ≠ r ∧ binomial.operand2.get ins ≠ r)
      ∧ (instruction.type.get ins = UNARY → unary.type.get ins = 0b00 →
          (instruction.instruction.get ins = 0b00000
            ∨ instruction.instruction.get ins = 0b00001
            ∨ instruction.instruction.get ins = 0b01100) →
          unary.reg.operand.get ins ≠ r)
      ∧ (instruction.type.get ins = REGISTER_IMMEDIATE →
          instruction.instruction.get ins ≤ 0b00010 → register_immediate.reg.get ins ≠ r) := by
  unfold writes_register at h
  simp only [decide_eq_false_iff_not, not_or, not_and] at h
  obtain ⟨h1, h2, h3, h4, h5⟩ := h
  exact ⟨h1, h2, fun t o n => h3 t o n, h4, h5⟩

/-- A cycle keeps every register that the fetched word does not write, the instruction
pointer apart, and keeps the program. -/
theorem next_keeps (c c' : cpu) (r : Nat) (hr : r ≠ cpu.IP)
    (hp : ∀ w, c._flags.halt = false → c._instructions[c.reg cpu.IP]? = some w →
      writes_register w r = false)
    (h : c.next = .ok c') :
    c'.reg r = c.reg r ∧ c'._instructions = c._instructions
      ∧ c'._registers.length = c._registers.length := by
  unfold cpu.next at h
  split at h
  · injection h with h
    subst h
    exact ⟨rfl, rfl, rfl⟩
  · rename_i hh
    split at h
    · contradiction
    · rename_i ins hf
      obtain ⟨t1, t2, t3, t4, t5⟩ :=
        writes_register_eq_false ins r (hp ins (by simpa using hh) hf)
      have h0 := set_reg_keeps c cpu.IP ((c.reg cpu.IP + 1) % 2 ^ 64) r hr
      have key : ∀ c1 : cpu, (c'.reg r = c1.reg r ∧ c'._instructions = c1._instructions
          ∧ c'._registers.length = c1._registers.length) →
          c1 = c.set_reg cpu.IP ((c.reg cpu.IP + 1) % 2 ^ 64) →
          c'.reg r = c.reg r ∧ c'._instructions = c._instructions
            ∧ c'._registers.length = c._registers.length := by
        intro c1 hk e
        subst e
        exact ⟨hk.1.trans h0.1, hk.2.1.trans h0.2.1, hk.2.2.trans h0.2.2⟩
      simp only [] at h
      split at h
      · rename_i ht
        exact key _ (next_three_address_keeps _ _ ins r (t1 ht) h) rfl
      · split at h
        · rename_i ht
          exact key _ (next_binomial_keeps _ _ ins r (t2 ht) (t3 ht) h) rfl
        · split at h
          · rename_i ht
            exact key _ (next_unary_keeps _ _ ins r hr (t4 ht) h) rfl
          · split at h
            · exact key _ (next_no_operand_keeps _ _ ins r hr h) rfl
            · split at h
              · rename_i ht
                exact key _ (next_register_immediate_keeps _ _ ins r (t5 ht) h) rfl
              · injection h with h
                subst h
                exact h0

/-- Cycles keep every register that no executed word writes, the instruction pointer
apart: the hypothesis speaks of the words fetched in the states that the run passes
through. -/
theorem cycles_keeps (n : Nat) (c c' : cpu) (r : Nat) (hr : r ≠ cpu.IP)
    (hp : ∀ k ck w, k < n → cycles k c = .ok ck → ck._flags.halt = false →
      ck._instructions[ck.reg cpu.IP]? = some w → writes_register w r = false)
    (h : cycles n c = .ok c') : c'.reg r = c.reg r := by
  induction n generalizing c with
  | zero =>
    unfold cycles at h
    injection h with h
    subst h
    rfl
  | succ n ih =>
    unfold cycles at h
    split at h
    · contradiction
    · rename_i c1 h1
      have k := next_keeps c c1 r hr (fun w hh hf => hp 0 c w (by omega) rfl hh hf) h1
      have k2 := ih c1 (fun j cj w hj hcj hh hf => hp (j + 1) cj w (by omega)
        (by unfold cycles; rw [h1]; exact hcj) hh hf) h
      exact k2.trans k.1

/-! ## Operand counts -/

theorem instruction_map_keys :
    ∀ e ∈ instruction_map,
      e.1 ≠ [] ∧ (∀ c ∈ e.1, isspace c = false ∧ c ≠ ':') ∧ e.1 ≠ "nop".toList
        ∧ e.1 ≠ "raise".toList ∧ e.1 ≠ "mov".toList := by
  decide

theorem is_any_of_space_eq_false (c : Char) (h : isspace c = false) :
    is_any_of " ".toList c = false := by
  revert h
  simp only [is_any_of, isspace]
  intro h
  simp_all

/-- A line `m ops`, made of a mnemonic of the table, one blank and a non-empty operand
text without white space or colon, is assembled from the parts `m` and `ops`. -/
theorem assemble_line_mnemonic_operands (pre post : List string) (m ops : string)
    (number type : Nat) (hm : instruction_map.lookup m = some (number, type))
    (hops : ∀ c ∈ ops, isspace c = false ∧ c ≠ ':') (hne : ops ≠ []) :
    assemble_line system_info (pre ++ [m ++ ' ' :: ops] ++ post) pre.length =
      match assemble_parts system_info (pre ++ [m ++ ' ' :: ops] ++ post) pre.length
        [m, ops] with
      | .ok ins => .ok (some ins)
      | .error e => .error e := by
  obtain ⟨k1, k2, k3, k4, k5⟩ := instruction_map_keys _ (mem_of_lookup_eq_some _ _ _ hm)
  simp only at k1 k2 k3 k4 k5
  have hstrip : strip_label (m ++ ' ' :: ops) = m ++ ' ' :: ops := by
    unfold strip_label
    rw [find_eq_none]
    · apply trim_eq_self
      · intro a ha
        cases m with
        | nil => exact absurd rfl k1
        | cons x xs =>
          simp at ha
          rw [← ha]
          exact (k2 x (List.mem_cons_self _ _)).1
      · intro b hb
        cases ops with
        | nil => exact absurd rfl hne
        | cons o os =>
          have e : m ++ ' ' :: o :: os = (m ++ [' ']) ++ o :: os := by simp
          rw [e] at hb
          exact (hops b (getLast?_append_cons_mem _ _ _ _ hb)).1
    · intro c hc
      rcases List.mem_append.mp hc with h | h
      · exact (k2 c h).2
      · rcases List.mem_cons.mp h with h | h
        · rw [h]; decide
        · exact (hops c h).2
  have hsplit : split (m ++ ' ' :: ops) (is_any_of " ".toList) = [m, ops] := by
    rw [split_append_delim m ops _ ' ' (fun c hc => is_any_of_space_eq_false c (k2 c hc).1)
      (by decide),
      split_eq_singleton ops _ (fun c hc => is_any_of_space_eq_false c (hops c hc).1)]
  have hpseudo : process_pseudo_instructions pre.length [m, ops] = .ok [m, ops] := by
    unfold process_pseudo_instructions
    simp only [List.getD_cons_zero]
    rw [if_neg k3, if_neg k4, if_neg k5]
  exact assemble_line_of_parts _ _ (m ++ ' ' :: ops) [m, ops] [m, ops] (getElem?_middle _ _ _)
    (by rw [hstrip]; cases m with
      | nil => exact absurd rfl k1
      | cons x xs => rfl)
    (by rw [hstrip, hsplit]) hpseudo

theorem assemble_parts_count_mismatch (lines : List string) (index : Nat) (m ops : string)
    (number type required : Nat) (hm : instruction_map.lookup m = some (number, type))
    (hreq : (type = THREE_ADDRESS ∧ required = 3) ∨ (type = BINOMIAL ∧ required = 2)
      ∨ (type = UNARY ∧ required = 1) ∨ (type = REGISTER_IMMEDIATE ∧ required = 2))
    (hcount : (split ops (is_any_of ",".toList)).length ≠ required) :
    assemble_parts system_info lines index [m, ops]
      = .error (.operands_count_mismatch (index + 1)
          (split ops (is_any_of ",".toList)).length) := by
  unfold assemble_parts
  simp only [system_info, List.getD_cons_zero, hm, List.getElem?_cons_succ,
    List.getElem?_cons_zero]
  generalize split ops (is_any_of ",".toList) = operand at hcount ⊢
  rcases hreq with ⟨rfl, rfl⟩ | ⟨rfl, rfl⟩ | ⟨rfl, rfl⟩ | ⟨rfl, rfl⟩ <;>
    simp [assemble_operands, operand_count_check, hcount, bind, Except.bind, pure,
      Except.pure, THREE_ADDRESS, BINOMIAL, UNARY, NO_OPERAND, REGISTER_IMMEDIATE]

theorem assemble_parts_no_operand (lines : List string) (index : Nat) (m : string)
    (rest : List string) (number : Nat)
    (hm : instruction_map.lookup m = some (number, NO_OPERAND)) :
    assemble_parts system_info lines index (m :: rest)
      = .ok (instruction.instruction.set (instruction.type.set 0 NO_OPERAND) number) := by
  unfold assemble_parts
  simp only [system_info, List.getD_cons_zero, hm]
  simp [assemble_operands, bind, Except.bind, pure,
      Except.pure, THREE_ADDRESS, BINOMIAL, UNARY, NO_OPERAND, REGISTER_IMMEDIATE]

/-- The operand count check, where the code makes it.  For a line made of a mnemonic `m`
of the ISA table, one blank and a non-empty operand text `ops` without white space or
colon: when the format of `m` is THREE_ADDRESS, BINOMIAL, UNARY or REGISTER_IMMEDIATE and
the number of comma-separated pieces of `ops` differs from the required count (3, 2, 1,
2), `assemble_line` stops with the operand-count diagnostic for the 1-based line number
and the number of pieces; when the format is NO_OPERAND the operand text is ignored and
the line assembles to the opcode word. -/
theorem operand_count_is_checked_except_no_operand (pre post : List string)
    (m ops : string) (number type : Nat)
    (hm : instruction_map.lookup m = some (number, type))
    (hops : ∀ c ∈ ops, isspace c = false ∧ c ≠ ':') (hne : ops ≠ []) :
    (∀ required : Nat,
        ((type = THREE_ADDRESS ∧ required = 3) ∨ (type = BINOMIAL ∧ required = 2)
          ∨ (type = UNARY ∧ required = 1) ∨ (type = REGISTER_IMMEDIATE ∧ required = 2)) →
        (split ops (is_any_of ",".toList)).length ≠ required →
        assemble_line system_info (pre ++ [m ++ ' ' :: ops] ++ post) pre.length
          = .error (.operands_count_mismatch (pre.length + 1)
              (split ops (is_any_of ",".toList)).length))
      ∧ (type = NO_OPERAND →
        assemble_line system_info (pre ++ [m ++ ' ' :: ops] ++ post) pre.length
          = .ok (some (instruction.instruction.set (instruction.type.set 0 NO_OPERAND)
              number))) := by
  refine ⟨?_, ?_⟩
  · intro required hreq hcount
    rw [assemble_line_mnemonic_operands pre post m ops number type hm hops hne,
      assemble_parts_count_mismatch _ _ m ops number type required hm hreq hcount]
  · intro ht
    subst ht
    rw [assemble_line_mnemonic_operands pre post m ops number NO_OPERAND hm hops hne,
      assemble_parts_no_operand _ _ m [ops] number hm]

theorem operand_count_is_checked_except_no_operand_witness :
    instruction_map.lookup "xchg".toList = some (0b00001, BINOMIAL)
      ∧ (∀ c ∈ "rs0".toList, isspace c = false ∧ c ≠ ':')
      ∧ (split "rs0".toList (is_any_of ",".toList)).length ≠ 2
      ∧ assemble_line system_info ["xchg rs0".toList] 0
          = .error (.operands_count_mismatch 1 1)
      ∧ instruction_map.lookup "ret".toList = some (0b00001, NO_OPERAND)
      ∧ assemble_line system_info ["ret rs0".toList] 0 = .ok (some 8) :=
  ⟨by decide, by decide, by decide,
    (operand_count_is_checked_except_no_operand [] [] "xchg".toList "rs0".toList 0b00001
      BINOMIAL (by decide) (by decide) (by decide)).1 2 (Or.inr (Or.inl ⟨rfl, rfl⟩))
      (by decide),
    by decide,
    (operand_count_is_checked_except_no_operand [] [] "ret".toList "rs0".toList 0b00001
      NO_OPERAND (by decide) (by decide) (by decide)).2 rfl⟩

/-- Claim C19 (fails on the code).  Neither input that the claim names is rejected with
an operand-count error.  The `switch` of `assemble_line` has no case for NO_OPERAND, so
the check that the four other cases make is missing: `hlt rs0` and `hlt rs0,rs1`
assemble to the word 0, the word of `hlt`.  An operand-taking mnemonic alone on its line
(`add`, `inc`) makes `assemble_line` read `parts[1]` of a vector of one element, which is
undefined, before any operand is counted.  The sibling cases do reject a wrong count:
`add rs0,rs1` and `xchg rs0` stop with the operand-count error. -/
theorem operand_count_check_misses_named_inputs :
    instruction_map.lookup "hlt".toList = some (0b00000, NO_OPERAND)
      ∧ (split "rs0".toList (is_any_of ",".toList)).length = 1
      ∧ assemble_line system_info ["hlt rs0".toList] 0 = .ok (some 0)
      ∧ assemble_line system_info ["hlt rs0,rs1".toList] 0 = .ok (some 0)
      ∧ assemble_line system_info ["hlt".toList] 0 = .ok (some 0)
      ∧ instruction_map.lookup "add".toList = some (0b00000, THREE_ADDRESS)
      ∧ assemble_line system_info ["add".toList] 0 = .error .undefined_behaviour
      ∧ assemble_line system_info ["inc".toList] 0 = .error .undefined_behaviour
      ∧ assemble_line system_info ["add rs0,rs1".toList] 0
          = .error (.operands_count_mismatch 1 2)
      ∧ assemble_line system_info ["xchg rs0".toList] 0
          = .error (.operands_count_mismatch 1 1) := by
  decide

/-- An operand-taking mnemonic alone on its line: `assemble_line` reads `parts[1]` of a
vector of one element before any operand is counted. -/
theorem add_without_operands_is_undefined :
    assemble_line system_info ["add".toList] 0 = .error .undefined_behaviour := by
  decide

/-- Claim C20: the diagnostic for a wrong operand count does not show the required count.
The line `xchg rs0` at index 0 has one operand where BINOMIAL requires two; `assemble_line`
rejects it, and the text it writes names 3 as the expected count, whatever the format:
the text holds the passed count 1 and the line number 1, and no digit 2. -/
theorem operand_count_diagnostic_always_says_three :
    instruction_map.lookup "xchg".toList = some (0b00001, BINOMIAL)
      ∧ operand_count_check 0 2 1 = .error (.operands_count_mismatch 1 1)
      ∧ assemble_line system_info ["xchg rs0".toList] 0
          = .error (.operands_count_mismatch 1 1)
      ∧ (asm_error.operands_count_mismatch 1 1).message
          = "error: operands count mismatch. 3 operands expected. near line 1\n       you passed 1 operands.\n"
      ∧ '2' ∉ (asm_error.operands_count_mismatch 1 1).message.toList := by
  decide

/-! ## Addressing flags and options in the emulator -/

/-- Claim C27: pointer addressing behaves as register addressing for THREE_ADDRESS and
BINOMIAL words. Take two non-halted states with the same registers, flags, stack and
diagnostics, whose programs have at the instruction pointer two words of the same format,
THREE_ADDRESS or BINOMIAL, with the same operation code and the same register ids. Then
one cycle gives the same outcome in both: the same failure, or states with the same
registers, flags, stack and diagnostics, whatever the addressing flags and the option
fields of the two words are. -/
theorem pointer_addressing_is_register_addressing (c1 c2 : cpu) (w1 w2 : instruction)
    (hr : c1._registers = c2._registers) (hfl : c1._flags = c2._flags)
    (hs : c1._stack = c2._stack) (hc : c1._cerr = c2._cerr)
    (hh : c1._flags.halt = false)
    (hf1 : c1._instructions[c1.reg cpu.IP]? = some w1)
    (hf2 : c2._instructions[c2.reg cpu.IP]? = some w2)
    (hty : instruction.type.get w1 = THREE_ADDRESS ∨ instruction.type.get w1 = BINOMIAL)
    (ht : instruction.type.get w1 = instruction.type.get w2)
    (hop : instruction.instruction.get w1 = instruction.instruction.get w2)
    (h3 : instruction.type.get w1 = THREE_ADDRESS →
      three_address.destination.get w1 = three_address.destination.get w2
        ∧ three_address.source1.get w1 = three_address.source1.get w2
        ∧ three_address.source2.get w1 = three_address.source2.get w2)
    (h2 : instruction.type.get w1 = BINOMIAL →
      binomial.operand1.get w1 = binomial.operand1.get w2
        ∧ binomial.operand2.get w1 = binomial.operand2.get w2) :
    c1.next.map (fun c => (c._registers, c._flags, c._stack, c._cerr))
      = c2.next.map (fun c => (c._registers, c._flags, c._stack, c._cerr)) := by
  obtain ⟨r1, f1, i1, s1, e1⟩ := c1
  obtain ⟨r2, f2, i2, s2, e2⟩ := c2
  simp only at hr hfl hs hc hh
  subst hr hfl hs hc
  rcases hty with hty | hty
  · obtain ⟨hd, hs1, hs2⟩ := h3 hty
    rw [next_eq_three_address _ w1 hh hf1 hty,
      next_eq_three_address _ w2 hh hf2 (ht ▸ hty)]
    unfold cpu.next_three_address
    simp only [← hd, ← hs1, ← hs2, ← hop, cpu.reg, cpu.set_reg]
    split <;> (try split) <;> rfl
  · obtain ⟨h1, h2⟩ := h2 hty
    rw [next_eq_binomial _ w1 hh hf1 hty, next_eq_binomial _ w2 hh hf2 (ht ▸ hty)]
    unfold cpu.next_binomial
    simp only [← h1, ← h2, ← hop, cpu.reg, cpu.set_reg]
    split <;> (try split) <;> rfl

theorem pointer_addressing_is_register_addressing_witness :
    assemble_line system_info ["add rs2,rs0,rs1".toList] 0 = .ok (some 67377155)
      ∧ assemble_line system_info ["add [rs2+4],[rs0+8],[rs1]".toList] 0
          = .ok (some 35201619336963)
      ∧ three_address.type.get 67377155 = 0 ∧ three_address.type.get 35201619336963 = 7
      ∧ (cpu.new [67377155]).next.map (fun c => (c._registers, c._flags, c._stack, c._cerr))
          = (cpu.new [35201619336963]).next.map
              (fun c => (c._registers, c._flags, c._stack, c._cerr)) :=
  ⟨by decide, by decide, by decide, by decide,
    pointer_addressing_is_register_addressing (cpu.new [67377155])
      (cpu.new [35201619336963]) 67377155 35201619336963 rfl rfl rfl rfl (by decide)
      (by decide) (by decide) (by decide) (by decide) (by decide) (by decide) (by decide)⟩

/-! ## The above flag -/

theorem flags.above_set (f : flags) (bit : Nat) (w : Bool) (h : bit = 0 ∨ bit = 2) :
    (f._set bit w).above = f.above := by
  unfold flags.above
  rw [flags.get_set f bit 1 w (by omega) (by omega), if_neg (by omega)]

theorem raise_exception_above (c : cpu) (t : Nat) :
    (c.raise_exception t)._flags.above = c._flags.above
      ∧ (c.raise_exception t)._instructions = c._instructions :=
  ⟨flags.above_set _ 2 false (Or.inr rfl), rfl⟩

theorem next_three_address_above (c c' : cpu) (ins : instruction)
    (h : c.next_three_address ins = .ok c') :
    c'._flags.above = c._flags.above ∧ c'._instructions = c._instructions := by
  unfold cpu.next_three_address at h
  simp only [] at h
  split at h <;> (try split at h) <;>
    first
      | contradiction
      | (injection h with h; subst h; exact ⟨rfl, rfl⟩)
      | (injection h with h; subst h; exact raise_exception_above _ _)

theorem next_binomial_above (c c' : cpu) (ins : instruction)
    (h : c.next_binomial ins = .ok c') :
    c'._flags.above = c._flags.above ∧ c'._instructions = c._instructions := by
  unfold cpu.next_binomial at h
  simp only [] at h
  split at h <;> (try split at h) <;>
    first
      | contradiction
      | (injection h with h; subst h; exact ⟨rfl, rfl⟩)
      | (injection h with h; subst h; exact raise_exception_above _ _)
      | (injection h with h; subst h
         refine ⟨?_, rfl⟩
         simp only [flags.set_equal]
         rw [flags.above_set _ 0 _ (Or.inl rfl), flags.above_set _ 0 _ (Or.inl rfl)])

theorem next_register_immediate_above (c c' : cpu) (ins : instruction)
    (h : c.next_register_immediate ins = .ok c') :
    c'._flags.above = c._flags.above ∧ c'._instructions = c._instructions := by
  unfold cpu.next_register_immediate at h
  simp only [] at h
  split at h <;>
    first
      | (injection h with h; subst h; exact ⟨rfl, rfl⟩)
      | (injection h with h; subst h; exact raise_exception_above _ _)

theorem next_no_operand_above (c c' : cpu) (ins : instruction)
    (h : c.next_no_operand ins = .ok c') :
    c'._flags.above = c._flags.above ∧ c'._instructions = c._instructions := by
  unfold cpu.next_no_operand at h
  split at h <;> (try split at h) <;>
    first
      | contradiction
      | (injection h with h; subst h; exact ⟨rfl, rfl⟩)
      | (injection h with h; subst h; exact raise_exception_above _ _)
      | (injection h with h; subst h
         exact ⟨flags.above_set _ 2 true (Or.inr rfl), rfl⟩)

theorem unary_switch_flags (c c1 : cpu) (ins : instruction) (data d : Nat) (a j : Bool)
    (h : c.unary_switch ins data = .ok (some (c1, d, a, j))) : c1._flags = c._flags := by
  unfold cpu.unary_switch at h
  split at h <;> (try split at h) <;>
    first
      | contradiction
      | (simp only [Except.ok.injEq, Option.some.injEq, Prod.mk.injEq] at h
         obtain ⟨h1, -⟩ := h
         subst h1
         rfl)
      | simp at h

theorem unary_finish_flags (c : cpu) (ins : instruction) (data : Nat) (a j : Bool) :
    (c.unary_finish ins data a j)._flags = c._flags
      ∧ (c.unary_finish ins data a j)._instructions = c._instructions := by
  unfold cpu.unary_finish
  cases a <;> cases j <;> (try simp only [Bool.false_eq_true, if_false, if_true]) <;>
    first
      | exact ⟨rfl, rfl⟩
      | exact ⟨trivial, trivial⟩
      | (split <;> exact ⟨rfl, rfl⟩)

theorem next_unary_above (c c' : cpu) (ins : instruction) (h : c.next_unary ins = .ok c') :
    c'._flags.above = c._flags.above ∧ c'._instructions = c._instructions := by
  unfold cpu.next_unary at h
  split at h
  · contradiction
  · injection h with h
    subst h
    exact raise_exception_above _ _
  · rename_i c1 d a j heq
    injection h with h
    subst h
    have h1 := unary_switch_keeps c c1 ins _ d a j heq
    have h2 := unary_switch_flags c c1 ins _ d a j heq
    have h3 := unary_finish_flags c1 ins d a j
    exact ⟨by rw [h3.1, h2], h3.2.trans h1.2⟩

theorem next_above (c c' : cpu) (h : c.next = .ok c') :
    c'._flags.above = c._flags.above ∧ c'._instructions = c._instructions := by
  unfold cpu.next at h
  split at h
  · injection h with h
    subst h
    exact ⟨rfl, rfl⟩
  · split at h
    · contradiction
    · simp only [] at h
      split at h
      · have k := next_three_address_above _ _ _ h
        exact k
      · split at h
        · have k := next_binomial_above _ _ _ h
          exact k
        · split at h
          · have k := next_unary_above _ _ _ h
            exact k
          · split at h
            · have k := next_no_operand_above _ _ _ h
              exact k
            · split at h
              · have k := next_register_immediate_above _ _ _ h
                exact k
              · injection h with h
                subst h
                exact ⟨rfl, rfl⟩

theorem cycles_above (n : Nat) (c c' : cpu) (h : cycles n c = .ok c') :
    c'._flags.above = c._flags.above ∧ c'._instructions = c._instructions := by
  induction n generalizing c with
  | zero =>
    unfold cycles at h
    injection h with h
    subst h
    exact ⟨rfl, rfl⟩
  | succ n ih =>
    unfold cycles at h
    split at h
    · contradiction
    · rename_i c1 h1
      have k := next_above c c1 h1
      have k2 := ih c1 h
      exact ⟨k2.1.trans k.1, k2.2.trans k.2⟩

/-- Claim C28: the above flag is never set. In every state reached from the start state
of a program (of fewer than `2 ^ 64` words) by executing cycles, the above flag is false;
so in such a state, when it is not halted and fetches a UNARY word, `ja` does not jump
(the instruction pointer becomes the old one plus one) and `jbe` jumps (the instruction
pointer becomes the value of the operand, the immediate for an immediate operand);
nothing else changes. -/
theorem above_flag_is_never_set (prog : List instruction) (n : Nat) (c : cpu)
    (hlen : prog.length < 2 ^ 64) (h : cycles n (cpu.new prog) = .ok c) :
    c._flags.above = false
      ∧ ∀ w, c._flags.halt = false → c._instructions[c.reg cpu.IP]? = some w →
          instruction.type.get w = UNARY →
          (instruction.instruction.get w = 0b00111 →
            c.next = .ok (c.set_reg cpu.IP (c.reg cpu.IP + 1)))
          ∧ (instruction.instruction.get w = 0b01010 →
            c.next = .ok (c.set_reg cpu.IP
              ((c.set_reg cpu.IP (c.reg cpu.IP + 1)).unary_data w)))
          ∧ (unary.type.get w = 0b11 →
            (c.set_reg cpu.IP (c.reg cpu.IP + 1)).unary_data w
              = unary.imm.immediate.get w) := by
  have k := cycles_above n (cpu.new prog) c h
  have h0 : (⟨0⟩ : flags).above = false := by decide
  have ha : c._flags.above = false := k.1.trans h0
  have hl : c._instructions.length < 2 ^ 64 := by
    rw [k.2]
    exact hlen
  refine ⟨ha, ?_⟩
  intro w hh hf ht
  have ha1 : (c.set_reg cpu.IP (c.reg cpu.IP + 1))._flags.above = false := ha
  refine ⟨?_, ?_, ?_⟩
  · intro hop
    rw [next_eq_unary c w hh hf ht, ip_succ_mod c w hl hf]
    unfold cpu.next_unary cpu.unary_switch
    rw [hop]
    simp only [ha1, cpu.unary_finish, Bool.false_eq_true, if_false]
  · intro hop
    rw [next_eq_unary c w hh hf ht, ip_succ_mod c w hl hf]
    unfold cpu.next_unary cpu.unary_switch
    rw [hop]
    simp only [ha1, cpu.unary_finish, Bool.false_eq_true, if_false, Bool.not_false, if_true,
      cpu.set_reg_set_reg]
  · intro hi
    unfold cpu.unary_data
    rw [hi]

theorem above_flag_is_never_set_witness :
    ∃ c, cycles 1 (cpu.new [263186, 328505]) = .ok c ∧ c._flags.above = false := by
  have hok : (cycles 1 (cpu.new [263186, 328505])).isOk = true := by decide
  cases h : cycles 1 (cpu.new [263186, 328505]) with
  | error e =>
    rw [h] at hok
    exact absurd hok (by simp [Except.isOk, Except.toBool])
  | ok c =>
    exact ⟨c, rfl, (above_flag_is_never_set [263186, 328505] 1 c (by decide) h).1⟩

/-! ## Call and return -/

theorem pop64_append (rest bs : List Nat) (old : Nat) (hbs : bs.length = 8) :
    (⟨rest ++ bs⟩ : stack).pop64 old = .ok (⟨rest⟩, of_bytes bs) := by
  have h := pop_impl_push_impl ⟨rest⟩ bs (to_bytes 8 old) 8 hbs (to_bytes_length _ _)
  have e : (⟨rest⟩ : stack)._push_impl bs 8 = ⟨rest ++ bs⟩ := by
    unfold stack._push_impl
    rw [← hbs, List.take_length]
  rw [e] at h
  unfold stack.pop64
  rw [h]
  rfl

theorem pop64_push64 (s : stack) (v old : Nat) (hv : v < 2 ^ 64) :
    (s.push64 v).pop64 old = .ok (s, v) := by
  have h := pop64_append s._stack (to_bytes 8 v) old (to_bytes_length _ _)
  rw [of_bytes_to_bytes, Nat.mod_eq_of_lt (by norm_num; exact hv)] at h
  have e : s.push64 v = ⟨s._stack ++ to_bytes 8 v⟩ := by
    unfold stack.push64 stack._push_impl
    rw [List.take_of_length_le (by rw [to_bytes_length])]
  rw [e, h]

/-- Claim C23: call and return. In a non-halted state with instruction pointer `i` that
fetches a `call` word with immediate target `t`, one cycle appends the 8 bytes of `i + 1`
to the stack and sets the instruction pointer to `t`, and changes nothing else; and if
the word at index `t` is `ret`, the following cycle sets the instruction pointer to
`i + 1` and leaves the stack as it was before the call, so that the state after the two
cycles is the state before the call with the instruction pointer at `i + 1`. -/
theorem call_then_ret_returns (c : cpu) (w : instruction) (hwf : c.wf)
    (hh : c._flags.halt = false) (hf : c._instructions[c.reg cpu.IP]? = some w)
    (ht : instruction.type.get w = UNARY) (hi : unary.type.get w = 0b11)
    (hop : instruction.instruction.get w = 0b00010) :
    let t := unary.imm.immediate.get w;
    let c1 : cpu := { c.set_reg cpu.IP t with
      _stack := ⟨c._stack._stack ++ to_bytes 8 (c.reg cpu.IP + 1)⟩ };
    c.next = .ok c1
      ∧ c1.reg cpu.IP = t ∧ (∀ r, r ≠ cpu.IP → c1.reg r = c.reg r) ∧ c1._flags = c._flags
      ∧ (∀ w2, c._instructions[t]? = some w2 → instruction.type.get w2 = NO_OPERAND →
          instruction.instruction.get w2 = 0b00001 →
          c1.next = .ok (c.set_reg cpu.IP (c.reg cpu.IP + 1)))
      ∧ (c.set_reg cpu.IP (c.reg cpu.IP + 1)).reg cpu.IP = c.reg cpu.IP + 1
      ∧ (c.set_reg cpu.IP (c.reg cpu.IP + 1))._stack = c._stack := by
  intro t c1
  obtain ⟨hlen, -, -, -, hil⟩ := hwf
  have hIP : cpu.IP < c._registers.length := by rw [hlen]; decide
  have hipv : (c.set_reg cpu.IP (c.reg cpu.IP + 1)).reg cpu.IP = c.reg cpu.IP + 1 :=
    (cpu.set_reg_frame c cpu.IP _ hIP).1
  have hc1 : c1.reg cpu.IP = t := (cpu.set_reg_frame c cpu.IP t hIP).1
  have hipl : c.reg cpu.IP < c._instructions.length := by
    rcases Nat.lt_or_ge (c.reg cpu.IP) c._instructions.length with h | h
    · exact h
    · rw [List.getElem?_eq_none h] at hf
      contradiction
  refine ⟨?_, hc1, (cpu.set_reg_frame c cpu.IP t hIP).2.1, rfl, ?_, hipv, rfl⟩
  · rw [next_eq_unary c w hh hf ht, ip_succ_mod c w hil hf]
    unfold cpu.next_unary cpu.unary_switch
    rw [hop]
    have hd : (c.set_reg cpu.IP (c.reg cpu.IP + 1)).unary_data w = t := by
      unfold cpu.unary_data
      rw [hi]
    simp only [hd, hipv, cpu.unary_finish, Bool.false_eq_true, if_false, if_true]
    have e : (c._stack.push64 (c.reg cpu.IP + 1))
        = ⟨c._stack._stack ++ to_bytes 8 (c.reg cpu.IP + 1)⟩ := by
      unfold stack.push64 stack._push_impl
      rw [List.take_of_length_le (by rw [to_bytes_length])]
    simp only [cpu.set_reg_stack, e]
    simp only [cpu.set_reg, List.set_set, c1, t]
  · intro w2 hf2 ht2 hop2
    have hh1 : c1._flags.halt = false := hh
    have hf1 : c1._instructions[c1.reg cpu.IP]? = some w2 := by
      rw [hc1]
      exact hf2
    rw [next_eq_no_operand c1 w2 hh1 hf1 ht2, ip_succ_mod c1 w2 hil hf1]
    unfold cpu.next_no_operand
    rw [hop2]
    have hs : (c1.set_reg cpu.IP (c1.reg cpu.IP + 1))._stack
        = ⟨c._stack._stack ++ to_bytes 8 (c.reg cpu.IP + 1)⟩ := rfl
    have hv : c.reg cpu.IP + 1 < 2 ^ 64 := by omega
    simp only [hs, pop64_append _ _ _ (to_bytes_length _ _), of_bytes_to_bytes]
    rw [Nat.mod_eq_of_lt (by norm_num; exact hv)]
    simp only [cpu.set_reg, List.set_set, c1, t]

theorem call_then_ret_returns_witness :
    assemble_line system_info ["call 2".toList] 0 = .ok (some 131857)
      ∧ (cpu.new [131857, 0, 8]).next
          = .ok { (cpu.new [131857, 0, 8]).set_reg cpu.IP 2 with
              _stack := ⟨[1, 0, 0, 0, 0, 0, 0, 0]⟩ }
      ∧ cycles 2 (cpu.new [131857, 0, 8]) = .ok ((cpu.new [131857, 0, 8]).set_reg cpu.IP 1) :=
  ⟨by decide,
    (call_then_ret_returns (cpu.new [131857, 0, 8]) 131857 (by decide) (by decide)
      (by decide) (by decide) (by decide) (by decide)).1,
    cycles_two _ _ _
      (call_then_ret_returns (cpu.new [131857, 0, 8]) 131857 (by decide) (by decide)
        (by decide) (by decide) (by decide) (by decide)).1
      ((call_then_ret_returns (cpu.new [131857, 0, 8]) 131857 (by decide) (by decide)
        (by decide) (by decide) (by decide) (by decide)).2.2.2.2.1 8 (by decide) (by decide)
        (by decide))⟩

/-! ## Increment, decrement and pop -/

theorem next_unary_assign (c : cpu) (w : instruction) (c2 : cpu) (d : Nat)
    (hlen : c._instructions.length < 2 ^ 64) (hh : c._flags.halt = false)
    (hf : c._instructions[c.reg cpu.IP]? = some w)
    (ht : instruction.type.get w = UNARY)
    (hs : (c.set_reg cpu.IP (c.reg cpu.IP + 1)).unary_switch w
        ((c.set_reg cpu.IP (c.reg cpu.IP + 1)).unary_data w)
      = .ok (some (c2, d, true, false))) :
    c.next = .ok (match unary.type.get w with
      | 0b00 => c2.set_reg (unary.reg.operand.get w) d
      | _ => c2) := by
  rw [next_eq_unary c w hh hf ht, ip_succ_mod c w hlen hf]
  unfold cpu.next_unary
  rw [hs]
  simp only [cpu.unary_finish, if_true, Bool.false_eq_true, if_false]

/-- Claim C24, amended.  In a non-halted state that fetches a UNARY word with operation
inc, dec or pop, let `c1` be the state after the fetch (the instruction pointer
incremented) and `v` the value in `c1` of the operand register `r`: the value before the
cycle when `r` is not the instruction pointer, the old value plus one when it is.  With
the register subtype (00), inc sets `r` to `v + 1` and dec sets it to `v - 1` (modulo
`2 ^ 64`); pop, when the stack ends with the 8 bytes `bs`, removes them and sets `r` to
the 64-bit value of `bs`.  With the pointer (01) or immediate (11) subtype, inc and dec
only increment the instruction pointer and pop only removes the 8 bytes in addition: no
register other than the instruction pointer changes. -/
theorem unary_inc_dec_pop (c : cpu) (w : instruction) (hwf : c.wf)
    (hh : c._flags.halt = false) (hf : c._instructions[c.reg cpu.IP]? = some w)
    (ht : instruction.type.get w = UNARY) :
    let c1 := c.set_reg cpu.IP (c.reg cpu.IP + 1);
    let r := unary.reg.operand.get w;
    let v := c1.reg r;
    (r ≠ cpu.IP → v = c.reg r) ∧ (r = cpu.IP → v = c.reg cpu.IP + 1)
      ∧ (unary.type.get w = 0b00 →
          (instruction.instruction.get w = 0b00000 →
            c.next = .ok (c1.set_reg r ((v + 1) % 2 ^ 64)))
          ∧ (instruction.instruction.get w = 0b00001 →
            ∃ x : Nat, c.next = .ok (c1.set_reg r x)
              ∧ (x : Int) = ((v : Int) - 1) % 2 ^ 64)
          ∧ (instruction.instruction.get w = 0b01100 →
            ∀ rest bs, c._stack._stack = rest ++ bs → bs.length = 8 →
              c.next = .ok ({ c1 with _stack := ⟨rest⟩ }.set_reg r (of_bytes bs))))
      ∧ (unary.type.get w = 0b01 ∨ unary.type.get w = 0b11 →
          (instruction.instruction.get w = 0b00000 ∨ instruction.instruction.get w = 0b00001 →
            c.next = .ok c1)
          ∧ (instruction.instruction.get w = 0b01100 →
            ∀ rest bs, c._stack._stack = rest ++ bs → bs.length = 8 →
              c.next = .ok { c1 with _stack := ⟨rest⟩ }))
      ∧ (∀ x, (c1.set_reg r x).reg r = x
          ∧ (∀ q, q ≠ r → q ≠ cpu.IP → (c1.set_reg r x).reg q = c.reg q)
          ∧ (c1.set_reg r x)._flags = c._flags)
      ∧ (∀ q, q ≠ cpu.IP → c1.reg q = c.reg q) := by
  intro c1 r v
  obtain ⟨hlen, hregs, -, -, hil⟩ := hwf
  have hIP : cpu.IP < c._registers.length := by rw [hlen]; decide
  have hr : r < c1._registers.length := by
    have : r < 2 ^ 7 := bitfield.get_lt _ _
    rw [cpu.set_reg_length, hlen]
    exact this
  have hfr := cpu.set_reg_frame c cpu.IP (c.reg cpu.IP + 1) hIP
  have hpop : ∀ rest bs, c._stack._stack = rest ++ bs → bs.length = 8 → ∀ d,
      c1.unary_switch w d = .ok (some ({ c1 with _stack := ⟨rest⟩ }, of_bytes bs, true, false))
        ∨ instruction.instruction.get w ≠ 0b01100 := by
    intro rest bs hst hbs d
    by_cases hop : instruction.instruction.get w = 0b01100
    · left
      unfold cpu.unary_switch
      rw [hop]
      have e : c1._stack = ⟨rest ++ bs⟩ := by
        show c._stack = _
        rw [← hst]
      simp only [e, pop64_append rest bs d hbs]
    · exact Or.inr hop
  refine ⟨fun h => hfr.2.1 r h, fun h => by rw [show v = c1.reg r from rfl, h]; exact hfr.1,
    ?_, ?_, ?_, hfr.2.1⟩
  · intro hty
    have hd : c1.unary_data w = v := by
      unfold cpu.unary_data
      rw [hty]
    refine ⟨?_, ?_, ?_⟩
    · intro hop
      rw [next_unary_assign c w c1 ((v + 1) % 2 ^ 64) hil hh hf ht
        (by unfold cpu.unary_switch; rw [hop, hd]), hty]
    · intro hop
      refine ⟨(v + (2 ^ 64 - 1)) % 2 ^ 64, ?_, ?_⟩
      · rw [next_unary_assign c w c1 ((v + (2 ^ 64 - 1)) % 2 ^ 64) hil hh hf ht
          (by unfold cpu.unary_switch; rw [hop, hd]), hty]
      · omega
    · intro hop rest bs hst hbs
      rcases hpop rest bs hst hbs (c1.unary_data w) with h | h
      · rw [next_unary_assign c w _ _ hil hh hf ht h, hty]
      · exact absurd hop h
  · intro hty
    have hmatch : ∀ c2 : cpu, ∀ d,
        (match unary.type.get w with
          | 0b00 => c2.set_reg (unary.reg.operand.get w) d
          | _ => c2) = c2 := by
      intro c2 d
      rcases hty with h | h <;> rw [h]
    refine ⟨?_, ?_⟩
    · intro hop
      rcases hop with hop | hop
      · rw [next_unary_assign c w c1 ((c1.unary_data w + 1) % 2 ^ 64) hil hh hf ht
          (by unfold cpu.unary_switch; rw [hop]), hmatch]
      · rw [next_unary_assign c w c1 ((c1.unary_data w + (2 ^ 64 - 1)) % 2 ^ 64) hil hh hf ht
          (by unfold cpu.unary_switch; rw [hop]), hmatch]
    · intro hop rest bs hst hbs
      rcases hpop rest bs hst hbs (c1.unary_data w) with h | h
      · rw [next_unary_assign c w _ _ hil hh hf ht h, hmatch]
      · exact absurd hop h
  · intro x
    have hf2 := cpu.set_reg_frame c1 r x hr
    refine ⟨hf2.1, ?_, rfl⟩
    intro q hq hq2
    rw [hf2.2.1 q hq]
    exact hfr.2.1 q hq2

theorem unary_inc_dec_pop_witness :
    assemble_line system_info ["inc rs0".toList] 0 = .ok (some 65537)
      ∧ ((cpu.new [65537]).set_reg 1 41).next
          = .ok ((((cpu.new [65537]).set_reg 1 41).set_reg cpu.IP 1).set_reg 1 42) :=
  ⟨by decide,
    ((unary_inc_dec_pop ((cpu.new [65537]).set_reg 1 41) 65537 (by decide) (by decide)
      (by decide) (by decide)).2.2.1 (by decide)).1 (by decide)⟩

/-- Claim C24, as stated, fails when the operand register is the instruction pointer, and
for pop on a stack of fewer than 8 bytes.  The word 4259841 is `inc ip` (UNARY, register
subtype, operand 65): in the start state the instruction pointer holds 0, and after the
cycle it holds 2, not 0 + 1.  The word 65633 is `pop rs0`: in the start state the stack
is empty and the cycle has no defined result. -/
theorem inc_reads_incremented_instruction_pointer :
    assemble_line system_info ["inc ip".toList] 0 = .ok (some 4259841)
      ∧ instruction.type.get 4259841 = UNARY ∧ instruction.instruction.get 4259841 = 0b00000
      ∧ unary.type.get 4259841 = 0b00 ∧ unary.reg.operand.get 4259841 = cpu.IP
      ∧ (cpu.new [4259841]).reg cpu.IP = 0
      ∧ (cpu.new [4259841]).next.map (fun c => c.reg cpu.IP) = .ok 2
      ∧ assemble_line system_info ["pop rs0".toList] 0 = .ok (some 65633)
      ∧ (cpu.new [65633]).next = .error .undefined_behaviour := by
  decide

/-! ## Complement and exchange -/

theorem xor_all_ones (v : Nat) (hv : v < 2 ^ 64) : (2 ^ 64 - 1) ^^^ v = 2 ^ 64 - 1 - v := by
  apply Nat.eq_of_testBit_eq
  intro i
  have e : 2 ^ 64 - 1 - v = 2 ^ 64 - (v + 1) := by omega
  rw [e, Nat.testBit_two_pow_sub_succ hv, Nat.testBit_xor, Nat.testBit_two_pow_sub_one]
  by_cases hi : i < 64
  · simp [hi]
  · have h2 : v < 2 ^ i :=
      Nat.lt_of_lt_of_le hv (Nat.pow_le_pow_right (by norm_num) (by omega))
    simp [hi, Nat.testBit_lt_two_pow h2]

theorem next_not (c : cpu) (w : instruction) (hlen : c._instructions.length < 2 ^ 64)
    (hh : c._flags.halt = false) (hf : c._instructions[c.reg cpu.IP]? = some w)
    (ht : instruction.type.get w = BINOMIAL) (hop : instruction.instruction.get w = 0b00000) :
    c.next = .ok ((c.set_reg cpu.IP (c.reg cpu.IP + 1)).set_reg (binomial.operand1.get w)
      ((2 ^ 64 - 1)
        ^^^ (c.set_reg cpu.IP (c.reg cpu.IP + 1)).reg (binomial.operand2.get w))) := by
  rw [next_eq_binomial c w hh hf ht, ip_succ_mod c w hlen hf]
  unfold cpu.next_binomial
  simp only [hop]

theorem next_xchg (c : cpu) (w : instruction) (hlen : c._instructions.length < 2 ^ 64)
    (hh : c._flags.halt = false) (hf : c._instructions[c.reg cpu.IP]? = some w)
    (ht : instruction.type.get w = BINOMIAL) (hop : instruction.instruction.get w = 0b00001) :
    c.next = .ok
      (if binomial.operand1.get w ≠ binomial.operand2.get w then
        ((c.set_reg cpu.IP (c.reg cpu.IP + 1)).set_reg (binomial.operand1.get w)
          ((c.set_reg cpu.IP (c.reg cpu.IP + 1)).reg (binomial.operand2.get w))).set_reg
          (binomial.operand2.get w)
          ((c.set_reg cpu.IP (c.reg cpu.IP + 1)).reg (binomial.operand1.get w))
      else c.set_reg cpu.IP (c.reg cpu.IP + 1)) := by
  rw [next_eq_binomial c w hh hf ht, ip_succ_mod c w hlen hf]
  unfold cpu.next_binomial
  simp only [hop]
  split <;> rfl

/-- Two cycles of `xchg a,b` on registers other than the instruction pointer: every
register other than the instruction pointer is as before. -/
theorem xchg_twice (c : cpu) (w w2 : instruction) (hwf : c.wf) (hh : c._flags.halt = false)
    (hf : c._instructions[c.reg cpu.IP]? = some w)
    (hf2 : c._instructions[c.reg cpu.IP + 1]? = some w2)
    (ht : instruction.type.get w = BINOMIAL) (hop : instruction.instruction.get w = 0b00001)
    (ht2 : instruction.type.get w2 = BINOMIAL)
    (hop2 : instruction.instruction.get w2 = 0b00001)
    (h1 : binomial.operand1.get w2 = binomial.operand1.get w)
    (h2 : binomial.operand2.get w2 = binomial.operand2.get w)
    (ha : binomial.operand1.get w ≠ cpu.IP) (hb : binomial.operand2.get w ≠ cpu.IP) :
    ∃ c2, cycles 2 c = .ok c2 ∧ (∀ q, q ≠ cpu.IP → c2.reg q = c.reg q)
      ∧ c2.reg cpu.IP = c.reg cpu.IP + 2 ∧ c2._flags = c._flags ∧ c2._stack = c._stack := by
  obtain ⟨hlen, -, -, -, hil⟩ := hwf
  have hIP : cpu.IP < c._registers.length := by rw [hlen]; decide
  have hal : binomial.operand1.get w < 128 := bitfield.get_lt _ _
  have hbl : binomial.operand2.get w < 128 := bitfield.get_lt _ _
  have s1 := next_xchg c w hil hh hf ht hop
  generalize hc1 : (if binomial.operand1.get w ≠ binomial.operand2.get w then
        ((c.set_reg cpu.IP (c.reg cpu.IP + 1)).set_reg (binomial.operand1.get w)
          ((c.set_reg cpu.IP (c.reg cpu.IP + 1)).reg (binomial.operand2.get w))).set_reg
          (binomial.operand2.get w)
          ((c.set_reg cpu.IP (c.reg cpu.IP + 1)).reg (binomial.operand1.get w))
      else c.set_reg cpu.IP (c.reg cpu.IP + 1)) = c1 at s1
  have r1 : ∀ q, c1.reg q =
      if q = cpu.IP then c.reg cpu.IP + 1
      else if q = binomial.operand1.get w then c.reg (binomial.operand2.get w)
      else if q = binomial.operand2.get w then c.reg (binomial.operand1.get w)
      else c.reg q := by
    intro q
    rw [← hc1]
    split
    · simp (disch := first | assumption | omega | (simp only [cpu.set_reg_length]; omega))
        only [cpu.reg_set_reg]
      split_ifs <;> first | rfl | simp_all
    · simp (disch := first | assumption | omega | (simp only [cpu.set_reg_length]; omega))
        only [cpu.reg_set_reg]
      split_ifs <;> first | rfl | simp_all
  have p1 : c1._flags = c._flags ∧ c1._stack = c._stack ∧ c1._instructions = c._instructions
      ∧ c1._registers.length = c._registers.length := by
    rw [← hc1]
    split <;> simp only [cpu.set_reg_flags, cpu.set_reg_stack, cpu.set_reg_instructions,
      cpu.set_reg_length, and_self]
  have hip1 : c1.reg cpu.IP = c.reg cpu.IP + 1 := by rw [r1, if_pos rfl]
  have hh1 : c1._flags.halt = false := by rw [p1.1]; exact hh
  have hf1 : c1._instructions[c1.reg cpu.IP]? = some w2 := by rw [p1.2.2.1, hip1]; exact hf2
  have hil1 : c1._instructions.length < 2 ^ 64 := by rw [p1.2.2.1]; exact hil
  have hIP1 : cpu.IP < c1._registers.length := by rw [p1.2.2.2]; exact hIP
  have s2 := next_xchg c1 w2 hil1 hh1 hf1 ht2 hop2
  rw [h1, h2] at s2
  refine ⟨_, cycles_two c c1 _ s1 s2, ?_, ?_, ?_, ?_⟩
  · intro q hq
    split
    · simp (disch := first | assumption | omega | (simp only [cpu.set_reg_length]; omega))
        only [cpu.reg_set_reg, r1]
      split_ifs <;> first | rfl | simp_all
    · simp (disch := first | assumption | omega | (simp only [cpu.set_reg_length]; omega))
        only [cpu.reg_set_reg, r1]
      split_ifs <;> first | rfl | simp_all
  · split
    · simp (disch := first | assumption | omega | (simp only [cpu.set_reg_length]; omega))
        only [cpu.reg_set_reg, r1]
      split_ifs <;> first | rfl | simp_all
    · simp (disch := first | assumption | omega | (simp only [cpu.set_reg_length]; omega))
        only [cpu.reg_set_reg, r1]
      split_ifs <;> rfl
  · split <;> simp only [cpu.set_reg_flags, p1.1]
  · split <;> simp only [cpu.set_reg_stack, p1.2.1]

/-- Claim C25, amended.  In a non-halted state that fetches a BINOMIAL word with operand
registers `a` and `b`, let `c1` be the state after the fetch: the instruction pointer
incremented, every other register as before the cycle.  Then `not` sets `a` to the
bitwise complement of the value of `b` in `c1`, and `xchg` exchanges the values that `a`
and `b` have in `c1` and changes nothing when `a` and `b` are the same slot; no register
other than `a`, `b` and the instruction pointer changes and no flag changes.  So for
operands other than the instruction pointer the values are those from before the cycle,
and two cycles that execute `xchg a,b` twice restore every register other than the
instruction pointer. -/
theorem not_and_xchg (c : cpu) (w : instruction) (hwf : c.wf) (hh : c._flags.halt = false)
    (hf : c._instructions[c.reg cpu.IP]? = some w)
    (ht : instruction.type.get w = BINOMIAL) :
    let c1 := c.set_reg cpu.IP (c.reg cpu.IP + 1);
    let a := binomial.operand1.get w;
    let b := binomial.operand2.get w;
    (∀ q, q ≠ cpu.IP → c1.reg q = c.reg q) ∧ c1.reg cpu.IP = c.reg cpu.IP + 1
      ∧ (instruction.instruction.get w = 0b00000 →
          c.next = .ok (c1.set_reg a (2 ^ 64 - 1 - c1.reg b)))
      ∧ (instruction.instruction.get w = 0b00001 → a ≠ b →
          c.next = .ok ((c1.set_reg a (c1.reg b)).set_reg b (c1.reg a)))
      ∧ (instruction.instruction.get w = 0b00001 → a = b → c.next = .ok c1)
      ∧ (∀ x y, (c1.set_reg a x).reg a = x
          ∧ (∀ q, q ≠ a → q ≠ cpu.IP → (c1.set_reg a x).reg q = c.reg q)
          ∧ (c1.set_reg a x)._flags = c._flags
          ∧ ((c1.set_reg a x).set_reg b y).reg b = y
          ∧ (a ≠ b → ((c1.set_reg a x).set_reg b y).reg a = x)
          ∧ (∀ q, q ≠ a → q ≠ b → q ≠ cpu.IP →
              ((c1.set_reg a x).set_reg b y).reg q = c.reg q)
          ∧ ((c1.set_reg a x).set_reg b y)._flags = c._flags)
      ∧ (instruction.instruction.get w = 0b00001 → a ≠ cpu.IP → b ≠ cpu.IP →
          ∀ w2, c._instructions[c.reg cpu.IP + 1]? = some w2 →
            instruction.type.get w2 = BINOMIAL → instruction.instruction.get w2 = 0b00001 →
            binomial.operand1.get w2 = a → binomial.operand2.get w2 = b →
            ∃ c2, cycles 2 c = .ok c2 ∧ (∀ q, q ≠ cpu.IP → c2.reg q = c.reg q)
              ∧ c2.reg cpu.IP = c.reg cpu.IP + 2 ∧ c2._flags = c._flags
              ∧ c2._stack = c._stack) := by
  intro c1 a b
  have hwf2 := hwf
  obtain ⟨hlen, hregs, -, -, hil⟩ := hwf
  have hIP : cpu.IP < c._registers.length := by rw [hlen]; decide
  have hal : a < 128 := bitfield.get_lt _ _
  have hbl : b < 128 := bitfield.get_lt _ _
  have hfr := cpu.set_reg_frame c cpu.IP (c.reg cpu.IP + 1) hIP
  have hipl : c.reg cpu.IP < c._instructions.length := by
    rcases Nat.lt_or_ge (c.reg cpu.IP) c._instructions.length with h | h
    · exact h
    · rw [List.getElem?_eq_none h] at hf
      contradiction
  have hvb : c1.reg b < 2 ^ 64 := by
    apply cpu.reg_lt
    intro v hv
    rcases List.mem_or_eq_of_mem_set hv with h | h
    · exact hregs v h
    · omega
  refine ⟨hfr.2.1, hfr.1, ?_, ?_, ?_, ?_, ?_⟩
  · intro hop
    rw [next_not c w hil hh hf ht hop, xor_all_ones _ hvb]
  · intro hop hab
    rw [next_xchg c w hil hh hf ht hop, if_pos hab]
  · intro hop hab
    rw [next_xchg c w hil hh hf ht hop, if_neg (not_not.mpr hab)]
  · intro x y
    have hq : ∀ q, q ≠ cpu.IP → c1.reg q = c.reg q := hfr.2.1
    have haL : a < c1._registers.length := by
      show a < (c.set_reg cpu.IP (c.reg cpu.IP + 1))._registers.length
      rw [cpu.set_reg_length, hlen]
      exact hal
    have hbL : b < (c1.set_reg a x)._registers.length := by
      show b < ((c.set_reg cpu.IP (c.reg cpu.IP + 1)).set_reg a x)._registers.length
      rw [cpu.set_reg_length, cpu.set_reg_length, hlen]
      exact hbl
    refine ⟨?_, ?_, rfl, ?_, ?_, ?_, rfl⟩
    · rw [cpu.reg_set_reg _ _ _ _ haL, if_pos rfl]
    · intro q h1 h2
      rw [cpu.reg_set_reg_ne _ _ _ _ h1]
      exact hq q h2
    · rw [cpu.reg_set_reg _ _ _ _ hbL, if_pos rfl]
    · intro hab
      rw [cpu.reg_set_reg_ne _ _ _ _ hab, cpu.reg_set_reg _ _ _ _ haL, if_pos rfl]
    · intro q h1 h2 h3
      rw [cpu.reg_set_reg_ne _ _ _ _ h2, cpu.reg_set_reg_ne _ _ _ _ h1]
      exact hq q h3
  · intro hop ha hb w2 hf2 ht2 hop2 h1 h2
    exact xchg_twice c w w2 hwf2 hh hf hf2 ht hop ht2 hop2 h1 h2 ha hb

theorem not_and_xchg_witness :
    assemble_line system_info ["not rs0,rs1".toList] 0 = .ok (some 263170)
      ∧ ((cpu.new [263170]).set_reg 2 5).next
          = .ok ((((cpu.new [263170]).set_reg 2 5).set_reg cpu.IP 1).set_reg 1 (2 ^ 64 - 6)) :=
  ⟨by decide,
    (not_and_xchg ((cpu.new [263170]).set_reg 2 5) 263170 (by decide) (by decide)
      (by decide) (by decide)).2.2.1 (by decide)⟩

/-- Claim C25, as stated, fails when an operand is the instruction pointer.  The word
8520706 is `not rs0,ip`: in the start state the instruction pointer holds 0, whose
complement is `2 ^ 64 - 1`, and the cycle leaves `2 ^ 64 - 2` in `rs0`, the complement
of the incremented instruction pointer.  The word 8520714 is `xchg rs0,ip`: with 5 in
`rs0` and 0 in the instruction pointer, the cycle leaves 1 in `rs0`, not 0. -/
theorem not_reads_incremented_instruction_pointer :
    assemble_line system_info ["not rs0,ip".toList] 0 = .ok (some 8520706)
      ∧ (cpu.new [8520706]).reg cpu.IP = 0
      ∧ (cpu.new [8520706]).next.map (fun c => c.reg 1) = .ok (2 ^ 64 - 2)
      ∧ assemble_line system_info ["xchg rs0,ip".toList] 0 = .ok (some 8520714)
      ∧ ((cpu.new [8520714]).set_reg 1 5).reg cpu.IP = 0
      ∧ ((cpu.new [8520714]).set_reg 1 5).next.map (fun c => (c.reg 1, c.reg cpu.IP))
          = .ok (1, 5) := by
  decide

/-! ## Normalisation of the source text -/

theorem remove_if_empty (lines : List string) :
    remove_if lines (fun line => line.isEmpty)
      = lines.filter (fun line => !line.isEmpty)
        ++ List.replicate (lines.length - (lines.filter (fun line => !line.isEmpty)).length)
            [] := by
  unfold remove_if
  simp only []
  congr 1
  rw [List.eq_replicate_iff]
  refine ⟨by simp, ?_⟩
  intro b hb
  obtain ⟨l, -, hl⟩ := List.mem_map.mp hb
  rw [← hl]
  split
  · rename_i he
    exact List.isEmpty_iff.mp he
  · rfl

/-- What `std::remove_if` without `erase` does to the lines.  Let `pieces` be the list
obtained by lowercasing the text, replacing every `,` and `:` together with its
surrounding white space by the bare character, splitting at every newline and `;`, and
trimming each piece.  Then `reformat_data` returns a list of the same length as `pieces`:
the non-empty pieces, in their order, followed by one empty entry for every empty
piece. -/
theorem reformat_data_moves_empty_lines_to_end (content : string) :
    let pieces := (split (regex_replace (regex_replace (content.map tolower) REGEX_COMMA
      ",".toList) REGEX_COLON ":".toList) (is_any_of "\n;".toList)).map trim;
    reformat_data content
        = pieces.filter (fun line => !line.isEmpty)
          ++ List.replicate
              (pieces.length - (pieces.filter (fun line => !line.isEmpty)).length) []
      ∧ (reformat_data content).length = pieces.length := by
  intro pieces
  have h : reformat_data content = remove_if pieces (fun line => line.isEmpty) := rfl
  have hle : (pieces.filter (fun line => !line.isEmpty)).length ≤ pieces.length :=
    List.length_filter_le _ _
  rw [h, remove_if_empty]
  refine ⟨rfl, ?_⟩
  rw [List.length_append, List.length_replicate]
  omega

/-- Claim C26 (fails on the code).  Under the comment `// remove empty line`,
`reformat_data` calls `std::remove_if` and drops its result without `erase`: no entry is
removed, but the non-empty lines are moved to the front and empty strings are left
behind them.  The text of an empty line followed by the line `hlt` is cut into the
pieces `""` and `"hlt"`, and `reformat_data` returns `"hlt"` at index 0 and `""` at index
1: the same length, another entry at both indices.  Likewise `a;;b` is cut into `"a"`,
`""`, `"b"` and comes back as `"a"`, `"b"`, `""`. -/
theorem reformat_data_reorders_lines :
    (split (regex_replace (regex_replace ("\nhlt".toList.map tolower) REGEX_COMMA
        ",".toList) REGEX_COLON ":".toList) (is_any_of "\n;".toList)).map trim
        = ["".toList, "hlt".toList]
      ∧ reformat_data "\nhlt".toList = ["hlt".toList, "".toList]
      ∧ (split (regex_replace (regex_replace ("a;;b".toList.map tolower) REGEX_COMMA
        ",".toList) REGEX_COLON ":".toList) (is_any_of "\n;".toList)).map trim
        = ["a".toList, "".toList, "b".toList]
      ∧ reformat_data "a;;b".toList = ["a".toList, "b".toList, "".toList] := by
  decide

/-! ## One word for every line with a body -/

theorem assemble_line_none_iff (sys_info : system_info_t) (lines : List string) (index : Nat)
    (line : string) (o : Option instruction) (hline : lines[index]? = some line)
    (h : assemble_line sys_info lines index = .ok o) :
    o = none ↔ (strip_label line).isEmpty = true := by
  unfold assemble_line at h
  simp only [hline] at h
  split at h
  · rename_i he
    injection h with h
    exact ⟨fun _ => he, fun _ => h.symm⟩
  · rename_i he
    constructor
    · intro ho
      subst ho
      simp only [bind, Except.bind, pure, Except.pure] at h
      split at h
      · contradiction
      · split at h
        · contradiction
        · injection h with h
          contradiction
    · intro h2
      exact absurd h2 he

theorem assemble_loop_words (sys_info : system_info_t) (lines : List string) (n i : Nat)
    (acc out : List instruction) (h : assemble.loop sys_info lines n i acc = .ok out) :
    ∃ words : List (Option instruction), words.length = n
      ∧ (∀ k, k < n → assemble_line sys_info lines (i + k) = .ok (words.getD k none))
      ∧ out = acc ++ words.filterMap id := by
  induction n generalizing i acc with
  | zero =>
    unfold assemble.loop at h
    injection h with h
    exact ⟨[], rfl, fun k hk => absurd hk (Nat.not_lt_zero k), by simp [h]⟩
  | succ n ih =>
    unfold assemble.loop at h
    split at h
    · contradiction
    · rename_i h0
      obtain ⟨ws, hl, hw, ho⟩ := ih (i + 1) acc h
      refine ⟨none :: ws, by simp [hl], ?_, by simpa using ho⟩
      intro k hk
      cases k with
      | zero => simpa using h0
      | succ k =>
        have := hw k (by omega)
        rw [show i + (k + 1) = i + 1 + k by omega]
        simpa using this
    · rename_i ins h0
      obtain ⟨ws, hl, hw, ho⟩ := ih (i + 1) (acc ++ [ins]) h
      refine ⟨some ins :: ws, by simp [hl], ?_, by simpa using ho⟩
      intro k hk
      cases k with
      | zero => simpa using h0
      | succ k =>
        have := hw k (by omega)
        rw [show i + (k + 1) = i + 1 + k by omega]
        simpa using this

theorem length_filterMap_id_eq (words : List (Option instruction)) (lines : List string)
    (p : string → Bool) (hl : words.length = lines.length)
    (h : ∀ k line, lines[k]? = some line → ((words.getD k none).isSome = p line)) :
    (words.filterMap id).length = (lines.filter p).length := by
  induction words generalizing lines with
  | nil =>
    cases lines with
    | nil => rfl
    | cons l ls => simp at hl
  | cons w ws ih =>
    cases lines with
    | nil => simp at hl
    | cons l ls =>
      have h0 := h 0 l (by simp)
      have ht := ih ls (by simpa using hl) (fun k line hk => by
        have := h (k + 1) line (by simpa using hk)
        simpa using this)
      simp only [List.getD_cons_zero] at h0
      cases w with
      | none =>
        have hp : p l = false := by simpa using h0.symm
        simp [List.filter_cons, hp, ht]
      | some x =>
        have hp : p l = true := by simpa using h0.symm
        simp [List.filter_cons, hp, ht]

/-- Claim C21: for a source text that assembles without error, with `lines` its
normalised lines, there is one result per line, `words`, such that `assemble_line` returns
`words[k]` for line `k`; `words[k]` is no word exactly when the body of line `k` (the text
after its first `:` if it has one, trimmed) is empty; and the emitted sequence is made of
the words of `words` in line order.  So its length is the number of lines with a
non-empty body. -/
theorem assemble_emits_one_word_per_body (sys_info : system_info_t) (content : string)
    (out : List instruction) (h : assemble sys_info content = .ok out) :
    let lines := reformat_data content;
    ∃ words : List (Option instruction), words.length = lines.length
      ∧ (∀ k, k < lines.length → assemble_line sys_info lines k = .ok (words.getD k none))
      ∧ (∀ k line, lines[k]? = some line →
          (words.getD k none = none ↔ (strip_label line).isEmpty = true))
      ∧ out = words.filterMap id
      ∧ out.length = (lines.filter (fun line => !(strip_label line).isEmpty)).length := by
  intro lines
  obtain ⟨words, hl, hw, ho⟩ := assemble_loop_words sys_info lines lines.length 0 [] out h
  have hiff : ∀ k line, lines[k]? = some line →
      (words.getD k none = none ↔ (strip_label line).isEmpty = true) := by
    intro k line hk
    have hk2 : k < lines.length := by
      rcases Nat.lt_or_ge k lines.length with h | h
      · exact h
      · rw [List.getElem?_eq_none h] at hk
        contradiction
    have := hw k hk2
    rw [Nat.zero_add] at this
    exact assemble_line_none_iff sys_info lines k line _ hk this
  refine ⟨words, hl, fun k hk => by simpa using hw k hk, hiff, by simpa using ho, ?_⟩
  rw [ho, List.nil_append]
  apply length_filterMap_id_eq words lines _ hl
  intro k line hk
  have := hiff k line hk
  cases hw : words.getD k none with
  | none =>
    rw [hw] at this
    simp [this.mp rfl]
  | some x =>
    rw [hw] at this
    cases he : (strip_label line).isEmpty with
    | true => exact absurd (this.mpr he) (by simp)
    | false => simp

theorem assemble_emits_one_word_per_body_witness :
    assemble system_info "jmp end\n\nend:hlt".toList = .ok [66329, 0]
      ∧ reformat_data "jmp end\n\nend:hlt".toList
          = ["jmp end".toList, "end:hlt".toList, "".toList]
      ∧ [66329, 0].length
          = ((reformat_data "jmp end\n\nend:hlt".toList).filter
              (fun line => !(strip_label line).isEmpty)).length :=
  ⟨by decide, by decide,
    (assemble_emits_one_word_per_body system_info "jmp end\n\nend:hlt".toList [66329, 0]
      (by decide)).choose_spec.2.2.2.2⟩

/-! ## Label addresses and instruction positions -/

/-- Claim C22 (fails on the code).  A label resolves to the index of its line among the
normalised lines, but a line that holds a label only emits no word, so after such a line
the index of a line is larger than the position of its word.  The source
`a:;jmp b;b:hlt` has the lines `a:`, `jmp b` and `b:hlt` and assembles to two words, the
`jmp` at position 0 and the `hlt` at position 1; the immediate of the `jmp` is 2, the
line index of `b:hlt`, and the emitted sequence has no word at position 2: the cycle
that executes the `jmp` leaves the instruction pointer past the end of the program.
Without the line `a:` the immediate is 1 and is the position of the `hlt`. -/
theorem label_address_counts_label_only_lines :
    reformat_data "a:;jmp b;b:hlt".toList = ["a:".toList, "jmp b".toList, "b:hlt".toList]
      ∧ assemble system_info "a:;jmp b;b:hlt".toList = .ok [131865, 0]
      ∧ instruction.type.get 131865 = UNARY ∧ instruction.instruction.get 131865 = 0b00011
      ∧ unary.type.get 131865 = 0b11 ∧ unary.imm.immediate.get 131865 = 2
      ∧ assemble_line system_info ["hlt".toList] 0 = .ok (some 0)
      ∧ [131865, 0][1]? = some 0 ∧ ([131865, 0] : List instruction)[2]? = none
      ∧ (cpu.new [131865, 0]).next.map (fun c => (c.reg cpu.IP, c.has_next, c.halted))
          = .ok (2, false, false)
      ∧ assemble system_info "jmp b;b:hlt".toList = .ok [66329, 0]
      ∧ unary.imm.immediate.get 66329 = 1 := by
  decide

/-! ## Options of register operands -/

theorem split_mem_subset (input : string) (pred : Char → Bool) :
    ∀ t ∈ split input pred, ∀ c ∈ t, c ∈ input ∧ pred c = false := by
  induction input with
  | nil =>
    intro t ht c hc
    simp only [split, List.mem_singleton] at ht
    subst ht
    simp at hc
  | cons x xs ih =>
    intro t ht c hc
    unfold split at ht
    split at ht
    · rcases List.mem_cons.mp ht with h | h
      · subst h
        simp at hc
      · exact ⟨List.mem_cons_of_mem _ (ih t h c hc).1, (ih t h c hc).2⟩
    · rename_i hx
      split at ht
      · simp only [List.mem_singleton] at ht
        subst ht
        simp only [List.mem_singleton] at hc
        subst hc
        exact ⟨List.mem_cons_self _ _, by simpa using hx⟩
      · rename_i t0 ts heq
        rcases List.mem_cons.mp ht with h | h
        · subst h
          rcases List.mem_cons.mp hc with h2 | h2
          · subst h2
            exact ⟨List.mem_cons_self _ _, by simpa using hx⟩
          · have := ih t0 (by rw [heq]; exact List.mem_cons_self _ _) c h2
            exact ⟨List.mem_cons_of_mem _ this.1, this.2⟩
        · have := ih t (by rw [heq]; exact List.mem_cons_of_mem _ h) c hc
          exact ⟨List.mem_cons_of_mem _ this.1, this.2⟩

theorem decode_operand_mode (rm : register_map_t) (operand : string) (index r o t : Nat)
    (hns : ∀ c ∈ operand, c ≠ ' ') (h : decode_operand rm operand index = .ok (r, o, t)) :
    (t = 0 ∧ o = 0) ∨ t = 1 := by
  unfold decode_operand at h
  split at h
  · right
    simp only [] at h
    repeat' split at h
    all_goals first
      | contradiction
      | (simp only [Except.ok.injEq, Prod.mk.injEq] at h
         exact h.2.2.symm)
  · left
    have hs : split operand (is_any_of " ".toList) = [operand] :=
      split_eq_singleton operand _ (fun c hc => by
        have := hns c hc
        simp [is_any_of, this])
    simp only [hs, List.map_cons, List.map_nil, List.length_singleton] at h
    split at h
    · contradiction
    · simp only [Except.ok.injEq, Prod.mk.injEq] at h
      refine ⟨h.2.2.symm, ?_⟩
      rw [← h.2.1]
      rfl

theorem getD_no_space (operand : List string) (k : Nat)
    (hns : ∀ op ∈ operand, ∀ c ∈ op, c ≠ ' ') : ∀ c ∈ operand.getD k [], c ≠ ' ' := by
  intro c hc
  rw [List.getD_eq_getElem?_getD] at hc
  cases h : operand[k]? with
  | none => rw [h] at hc; simp at hc
  | some op =>
    rw [h] at hc
    exact hns op (List.getElem?_mem h) c hc

theorem assemble_operands_three_address_option (rm : register_map_t) (lines : List string)
    (index : Nat) (m : string) (operand : List string) (ins w : instruction)
    (hns : ∀ op ∈ operand, ∀ c ∈ op, c ≠ ' ') (h0 : three_address.type.get ins = 0)
    (h : assemble_operands rm lines index m THREE_ADDRESS operand ins = .ok w) :
    ((three_address.type.get w).testBit 2 = false → three_address.destination_option.get w = 0)
      ∧ ((three_address.type.get w).testBit 1 = false →
          three_address.source1_option.get w = 0)
      ∧ ((three_address.type.get w).testBit 0 = false →
          three_address.source2_option.get w = 0) := by
  unfold assemble_operands at h
  rw [if_pos rfl] at h
  simp only [bind, Except.bind, pure, Except.pure] at h
  split at h
  · contradiction
  · split at h
    · contradiction
    · rename_i v1 hd1
      obtain ⟨rd, od, td⟩ := v1
      simp only [] at h
      split at h
      · contradiction
      · rename_i v2 hd2
        obtain ⟨rs1, os1, ts1⟩ := v2
        simp only [] at h
        split at h
        · contradiction
        · rename_i v3 hd3
          obtain ⟨rs2, os2, ts2⟩ := v3
          simp only [Except.ok.injEq] at h
          have m1 := decode_operand_mode rm _ index rd od td (getD_no_space operand 0 hns) hd1
          have m2 := decode_operand_mode rm _ index rs1 os1 ts1 (getD_no_space operand 1 hns) hd2
          have m3 := decode_operand_mode rm _ index rs2 os2 ts2 (getD_no_space operand 2 hns) hd3
          subst h
          simp (disch := decide) only [bitfield.get_set_disjoint, bitfield.get_set_same, h0]
          rcases m1 with ⟨rfl, rfl⟩ | rfl <;> rcases m2 with ⟨rfl, rfl⟩ | rfl <;>
            rcases m3 with ⟨rfl, rfl⟩ | rfl <;> refine ⟨?_, ?_, ?_⟩ <;> intro hb <;>
            first
              | rfl
              | exact absurd hb (by decide)

theorem assemble_operands_binomial_option (rm : register_map_t) (lines : List string)
    (index : Nat) (m : string) (operand : List string) (ins w : instruction)
    (hns : ∀ op ∈ operand, ∀ c ∈ op, c ≠ ' ') (h0 : binomial.type.get ins = 0)
    (h : assemble_operands rm lines index m BINOMIAL operand ins = .ok w) :
    ((binomial.type.get w).testBit 1 = false → binomial.operand1_option.get w = 0)
      ∧ ((binomial.type.get w).testBit 0 = false → binomial.operand2_option.get w = 0) := by
  unfold assemble_operands at h
  rw [if_neg (by decide), if_pos rfl] at h
  simp only [bind, Except.bind, pure, Except.pure] at h
  split at h
  · contradiction
  · split at h
    · contradiction
    · rename_i v1 hd1
      obtain ⟨r1, o1, t1⟩ := v1
      simp only [] at h
      split at h
      · contradiction
      · rename_i v2 hd2
        obtain ⟨r2, o2, t2⟩ := v2
        simp only [Except.ok.injEq] at h
        have m1 := decode_operand_mode rm _ index r1 o1 t1 (getD_no_space operand 0 hns) hd1
        have m2 := decode_operand_mode rm _ index r2 o2 t2 (getD_no_space operand 1 hns) hd2
        subst h
        simp (disch := decide) only [bitfield.get_set_disjoint, bitfield.get_set_same, h0]
        rcases m1 with ⟨rfl, rfl⟩ | rfl <;> rcases m2 with ⟨rfl, rfl⟩ | rfl <;>
          refine ⟨?_, ?_⟩ <;> intro hb <;>
          first
            | rfl
            | exact absurd hb (by decide)

theorem assemble_operands_unary_option (rm : register_map_t) (lines : List string)
    (index : Nat) (m : string) (operand : List string) (ins w : instruction)
    (hns : ∀ op ∈ operand, ∀ c ∈ op, c ≠ ' ')
    (h : assemble_operands rm lines index m UNARY operand ins = .ok w) :
    unary.type.get w = 0b00 → unary.reg.operand_option.get w = 0 := by
  unfold assemble_operands at h
  rw [if_neg (by decide), if_neg (by decide), if_pos rfl] at h
  simp only [bind, Except.bind, pure, Except.pure] at h
  split at h
  · contradiction
  · split at h
    · split at h
      · contradiction
      · simp only [Except.ok.injEq] at h
        subst h
        intro hb
        rw [bitfield.get_set_same] at hb
        exact absurd hb (by decide)
    · split at h
      · split at h
        · contradiction
        · simp only [Except.ok.injEq] at h
          subst h
          intro hb
          rw [bitfield.get_set_same] at hb
          exact absurd hb (by decide)
      · split at h
        · contradiction
        · rename_i v1 hd1
          obtain ⟨r1, o1, t1⟩ := v1
          simp only [Except.ok.injEq] at h
          have m1 := decode_operand_mode rm _ index r1 o1 t1 (getD_no_space operand 0 hns) hd1
          subst h
          simp (disch := decide) only [bitfield.get_set_disjoint, bitfield.get_set_same]
          rcases m1 with ⟨rfl, rfl⟩ | rfl <;> intro hb <;>
            first
              | rfl
              | exact absurd hb (by decide)

theorem process_pseudo_instructions_no_space (index : Nat) (parts parts' : List string)
    (hns : ∀ p ∈ parts, ∀ c ∈ p, c ≠ ' ')
    (h : process_pseudo_instructions index parts = .ok parts') :
    ∀ p ∈ parts', ∀ c ∈ p, c ≠ ' ' := by
  have hset : ∀ (l : List string) (k : Nat) (x : string), (∀ p ∈ l, ∀ c ∈ p, c ≠ ' ') →
      (∀ c ∈ x, c ≠ ' ') → ∀ p ∈ l.set k x, ∀ c ∈ p, c ≠ ' ' := by
    intro l k x hl hx p hp c hc
    rcases List.mem_or_eq_of_mem_set hp with h | h
    · exact hl p h c hc
    · subst h
      exact hx c hc
  unfold process_pseudo_instructions at h
  split at h
  · injection h with h
    subst h
    intro p hp c hc
    rcases List.mem_append.mp hp with h | h
    · exact hset parts 0 _ hns (by decide) p h c hc
    · simp only [List.mem_singleton] at h
      subst h
      exact (by decide : ∀ c ∈ "r0,r0".toList, c ≠ ' ') c hc
  · split at h
    · injection h with h
      subst h
      intro p hp c hc
      rcases List.mem_append.mp hp with h | h
      · exact hset parts 0 _ hns (by decide) p h c hc
      · simp only [List.mem_singleton] at h
        subst h
        exact (by decide : ∀ c ∈ "r0,r0".toList, c ≠ ' ') c hc
    · split at h
      · split at h
        · contradiction
        · rename_i p1 hp1
          simp only [bind, Except.bind, pure, Except.pure] at h
          split at h
          · contradiction
          · injection h with h
            subst h
            have hp1ns : ∀ c ∈ p1, c ≠ ' ' := hns p1 (List.getElem?_mem hp1)
            have hop : ∀ k, ∀ c ∈ (split p1 (is_any_of ",".toList)).getD k [], c ≠ ' ' := by
              intro k
              apply getD_no_space
              intro op hop c hc
              exact hp1ns c (split_mem_subset p1 _ op hop c hc).1
            apply hset _ 1 _ (hset parts 0 _ hns (by decide))
            intro c hc
            simp only [List.mem_append] at hc
            rcases hc with ((h | h) | h) | h
            · exact hop 0 c h
            · exact (by decide : ∀ c ∈ ",".toList, c ≠ ' ') c h
            · exact hop 1 c h
            · exact (by decide : ∀ c ∈ ",r0".toList, c ≠ ' ') c h
      · injection h with h
        subst h
        exact hns

theorem assemble_parts_option (lines : List string) (index : Nat) (parts : List string)
    (w : instruction) (hns : ∀ p ∈ parts, ∀ c ∈ p, c ≠ ' ')
    (h : assemble_parts system_info lines index parts = .ok w) :
    (instruction.type.get w = THREE_ADDRESS →
        ((three_address.type.get w).testBit 2 = false →
            three_address.destination_option.get w = 0)
          ∧ ((three_address.type.get w).testBit 1 = false →
            three_address.source1_option.get w = 0)
          ∧ ((three_address.type.get w).testBit 0 = false →
            three_address.source2_option.get w = 0))
      ∧ (instruction.type.get w = BINOMIAL →
        ((binomial.type.get w).testBit 1 = false → binomial.operand1_option.get w = 0)
          ∧ ((binomial.type.get w).testBit 0 = false → binomial.operand2_option.get w = 0))
      ∧ (instruction.type.get w = UNARY → unary.type.get w = 0b00 →
        unary.reg.operand_option.get w = 0) := by
  cases hl : instruction_map.lookup (parts.getD 0 []) with
  | none =>
    unfold assemble_parts at h
    simp only [system_info, hl] at h
    contradiction
  | some e =>
    obtain ⟨number, type⟩ := e
    have hty := (assemble_parts_opcode lines index parts number type w hl h).1
    have hop : ∀ p, parts[1]? = some p →
        ∀ op ∈ split p (is_any_of ",".toList), ∀ c ∈ op, c ≠ ' ' := by
      intro p hp op hop c hc
      exact hns p (List.getElem?_mem hp) c (split_mem_subset p _ op hop c hc).1
    have h3 : ∀ x n, three_address.type.get
        (instruction.instruction.set (instruction.type.set 0 x) n) = 0 := by
      intro x n
      simp (disch := decide) only [bitfield.get_set_disjoint]
      rfl
    have h2 : ∀ x n, binomial.type.get
        (instruction.instruction.set (instruction.type.set 0 x) n) = 0 := by
      intro x n
      simp (disch := decide) only [bitfield.get_set_disjoint]
      rfl
    unfold assemble_parts at h
    simp only [system_info, hl, bind, Except.bind, pure, Except.pure] at h
    have hent := instruction_map_entries _ (mem_of_lookup_eq_some _ _ _ hl)
    simp only at hent
    rcases hent with ⟨rfl, -⟩ | ⟨rfl, -⟩ | ⟨rfl, -⟩ | ⟨rfl, -⟩ | ⟨rfl, -⟩
    · rw [if_pos (by decide)] at h
      split at h
      · contradiction
      · rename_i p hp
        · refine ⟨fun _ => assemble_operands_three_address_option _ _ _ _ _ _ _ (hop p hp)
            (h3 _ _) h, ?_, ?_⟩
          · intro hb
            rw [hty] at hb
            exact absurd hb (by decide)
          · intro hb
            rw [hty] at hb
            exact absurd hb (by decide)
    · rw [if_pos (by decide)] at h
      split at h
      · contradiction
      · rename_i p hp
        · refine ⟨?_, fun _ => assemble_operands_binomial_option _ _ _ _ _ _ _ (hop p hp)
            (h2 _ _) h, ?_⟩
          · intro hb
            rw [hty] at hb
            exact absurd hb (by decide)
          · intro hb
            rw [hty] at hb
            exact absurd hb (by decide)
    · rw [if_pos (by decide)] at h
      split at h
      · contradiction
      · rename_i p hp
        · refine ⟨?_, ?_, fun _ => assemble_operands_unary_option _ _ _ _ _ _ _ (hop p hp) h⟩
          · intro hb
            rw [hty] at hb
            exact absurd hb (by decide)
          · intro hb
            rw [hty] at hb
            exact absurd hb (by decide)
    · refine ⟨?_, ?_, ?_⟩ <;>
      · intro hb
        rw [hty] at hb
        exact absurd hb (by decide)
    · refine ⟨?_, ?_, ?_⟩ <;>
      · intro hb
        rw [hty] at hb
        exact absurd hb (by decide)

/-- Claim C30: in every THREE_ADDRESS, BINOMIAL or UNARY word that `assemble_line`
produces, an operand whose addressing mode is register has option field 0.  The mode of
the destination, first source and second source of a THREE_ADDRESS word is bit 2, 1 and
0 of its addressing flags, the mode of the first and second operand of a BINOMIAL word
is bit 1 and 0, and a UNARY word in register mode has addressing subtype 00.  The line
is cut at blanks before its operand list is taken, so no operand text that reaches
`decode_operand` holds a blank, and the register form reads a size keyword only from an
operand text with two blanks. -/
theorem register_operands_have_zero_option (lines : List string) (index : Nat)
    (w : instruction) (h : assemble_line system_info lines index = .ok (some w)) :
    (instruction.type.get w = THREE_ADDRESS →
        ((three_address.type.get w).testBit 2 = false →
            three_address.destination_option.get w = 0)
          ∧ ((three_address.type.get w).testBit 1 = false →
            three_address.source1_option.get w = 0)
          ∧ ((three_address.type.get w).testBit 0 = false →
            three_address.source2_option.get w = 0))
      ∧ (instruction.type.get w = BINOMIAL →
        ((binomial.type.get w).testBit 1 = false → binomial.operand1_option.get w = 0)
          ∧ ((binomial.type.get w).testBit 0 = false → binomial.operand2_option.get w = 0))
      ∧ (instruction.type.get w = UNARY → unary.type.get w = 0b00 →
        unary.reg.operand_option.get w = 0) := by
  unfold assemble_line at h
  split at h
  · contradiction
  · rename_i line hline
    simp only [bind, Except.bind, pure, Except.pure] at h
    split at h
    · injection h with h
      contradiction
    · split at h
      · contradiction
      · rename_i parts hparts
        split at h
        · contradiction
        · rename_i ins hins
          injection h with h
          injection h with h
          subst h
          apply assemble_parts_option lines index parts ins _ hins
          apply process_pseudo_instructions_no_space index _ parts _ hparts
          intro p hp c hc hsp
          have := (split_mem_subset _ _ p hp c hc).2
          rw [hsp] at this
          exact absurd this (by decide)

theorem register_operands_have_zero_option_witness :
    assemble_line system_info ["add rs2,[rs0+8],rs1".toList] 0 = .ok (some 35184439466499)
      ∧ instruction.type.get 35184439466499 = THREE_ADDRESS
      ∧ three_address.type.get 35184439466499 = 0b010
      ∧ three_address.destination_option.get 35184439466499 = 0
      ∧ three_address.source1_option.get 35184439466499 = 8
      ∧ three_address.source2_option.get 35184439466499 = 0 :=
  ⟨by decide, by decide, by decide,
    ((register_operands_have_zero_option ["add rs2,[rs0+8],rs1".toList] 0 35184439466499
      (by decide)).1 (by decide)).1 (by decide),
    by decide,
    ((register_operands_have_zero_option ["add rs2,[rs0+8],rs1".toList] 0 35184439466499
      (by decide)).1 (by decide)).2.2 (by decide)⟩

/-! ## Jump words -/

theorem get_absolute_label_address_ok (lines : List string) (index : Nat) (L : string)
    (a : Nat) (h : get_absolute_label_address lines index L = .ok a) :
    ∃ l ∈ lines, (L ++ ":".toList) <+: l := by
  unfold get_absolute_label_address at h
  simp only [] at h
  split at h
  · contradiction
  · rename_i hne
    have hlt : lines.findIdx (label_matches (L ++ ":".toList)) < lines.length :=
      Nat.lt_of_le_of_ne (List.findIdx_le_length _) hne
    obtain ⟨l, hl, hp⟩ := List.findIdx_lt_length.mp hlt
    exact ⟨l, hl, (label_matches_iff _ _).mp hp⟩

theorem assemble_operands_jump_ok (lines : List string) (index : Nat) (m : string)
    (operand : List string) (ins w : instruction) (hm : m ∈ JUMP_TYPE_OPERATORS)
    (h : assemble_operands register_map lines index m UNARY operand ins = .ok w) :
    unary.type.get w = 0b11
      ∧ ∃ L, operand = [L]
          ∧ (regex_match L NUMBERS = true ∨ ∃ l ∈ lines, (L ++ ":".toList) <+: l) := by
  unfold assemble_operands at h
  rw [if_neg (by decide), if_neg (by decide), if_pos rfl] at h
  simp only [bind, Except.bind, pure, Except.pure, operand_count_check] at h
  split at h
  · contradiction
  · rename_i hc
    split at hc
    · contradiction
    · rename_i hlen
      have hlen : operand.length = 1 := by
        by_contra hn
        exact hlen hn
      obtain ⟨L, rfl⟩ := List.length_eq_one.mp hlen
      simp only [List.getD_cons_zero, hm, if_true] at h
      split at h
      · rename_i hnum
        split at h
        · contradiction
        · simp only [Except.ok.injEq] at h
          subst h
          exact ⟨by rw [bitfield.get_set_same]; rfl, L, rfl, Or.inl hnum⟩
      · split at h
        · contradiction
        · rename_i a ha
          simp only [Except.ok.injEq] at h
          subst h
          exact ⟨by rw [bitfield.get_set_same]; rfl, L, rfl,
            Or.inr (get_absolute_label_address_ok lines index L a ha)⟩

/-- Claim C29: every word that `assemble_line` produces for a line whose mnemonic is a
control-flow mnemonic (`call`, `jmp`, `jr`, `je`, `jne`, `ja`, `jae`, `jb`, `jbe`) is a
UNARY word of addressing subtype 11 (immediate).  The line has exactly one operand `L`,
and `L` is a numeric literal or some line begins with `L:`: an operand that is a register
name is looked up as a label, and no register-mode jump is ever produced. -/
theorem jump_words_are_immediate (lines : List string) (index : Nat) (line m : string)
    (rest : List string) (w : instruction) (hline : lines[index]? = some line)
    (hparts : split (strip_label line) (is_any_of " ".toList) = m :: rest)
    (hm : m ∈ JUMP_TYPE_OPERATORS)
    (h : assemble_line system_info lines index = .ok (some w)) :
    instruction.type.get w = UNARY ∧ unary.type.get w = 0b11
      ∧ ∃ p L, rest.head? = some p ∧ split p (is_any_of ",".toList) = [L]
          ∧ (regex_match L NUMBERS = true ∨ ∃ l ∈ lines, (L ++ ":".toList) <+: l) := by
  obtain ⟨k1, k2, k3, k4⟩ := jump_type_operators_unary m hm
  have hne : (strip_label line).isEmpty = false := by
    cases he : (strip_label line).isEmpty with
    | false => rfl
    | true =>
      unfold assemble_line at h
      simp only [hline, he, if_true] at h
      injection h with h
      contradiction
  have hpseudo : process_pseudo_instructions index (m :: rest) = .ok (m :: rest) := by
    unfold process_pseudo_instructions
    simp only [List.getD_cons_zero]
    rw [if_neg k1, if_neg k2, if_neg k3]
  rw [assemble_line_of_parts lines index line _ _ hline hne hparts hpseudo] at h
  cases hap : assemble_parts system_info lines index (m :: rest) with
  | error e =>
    rw [hap] at h
    contradiction
  | ok ins =>
    rw [hap] at h
    injection h with h
    injection h with h
    subst h
    cases hl : instruction_map.lookup m with
    | none =>
      rw [hl] at k4
      contradiction
    | some e =>
      obtain ⟨number, type⟩ := e
      rw [hl] at k4
      simp only [Option.map_some', Option.some.injEq] at k4
      subst k4
      have hty := (assemble_parts_opcode lines index (m :: rest) number UNARY ins
        (by simpa using hl) hap).1
      unfold assemble_parts at hap
      simp only [system_info, List.getD_cons_zero, hl, bind, Except.bind, pure,
        Except.pure] at hap
      rw [if_pos (by decide)] at hap
      split at hap
      · contradiction
      · rename_i p hp
        have hjump := assemble_operands_jump_ok lines index m _ _ ins hm hap
        refine ⟨hty, hjump.1, p, ?_⟩
        obtain ⟨L, hL, hor⟩ := hjump.2
        refine ⟨L, ?_, hL, hor⟩
        cases rest with
        | nil => simp at hp
        | cons r rs =>
          simp only [List.getElem?_cons_succ, List.getElem?_cons_zero,
            Option.some.injEq] at hp
          simp [hp]

theorem jump_words_are_immediate_witness :
    assemble_line system_info ["jmp rs0".toList, "rs0:hlt".toList] 0 = .ok (some 66329)
      ∧ instruction.type.get 66329 = UNARY ∧ unary.type.get 66329 = 0b11
      ∧ unary.imm.immediate.get 66329 = 1
      ∧ assemble_line system_info ["jmp rs0".toList] 0
          = .error (.undefined_identifier "rs0".toList 1) :=
  ⟨by decide,
    (jump_words_are_immediate ["jmp rs0".toList, "rs0:hlt".toList] 0 "jmp rs0".toList
      "jmp".toList ["rs0".toList] 66329 (by decide) (by decide) (by decide) (by decide)).1,
    (jump_words_are_immediate ["jmp rs0".toList, "rs0:hlt".toList] 0 "jmp rs0".toList
      "jmp".toList ["rs0".toList] 66329 (by decide) (by decide) (by decide) (by decide)).2.1,
    by decide, by decide⟩

/-! ## Register 0 -/

/-- Claim C16, amended: no cycle guards register 0, so it keeps the 0 of the start state
as long as no executed word assigns to it.  Take a run of `n` cycles from the start state
of a program.  If no word fetched in a non-halted state of the run writes register 0 (as
the destination of a defined THREE_ADDRESS operation, as the first operand of `not`, as
one of two different operands of `xchg`, as the register operand of `inc`, `dec` or
`pop`, or as the register of a defined REGISTER_IMMEDIATE operation), then register 0
reads 0 after the run.  Words that only read register 0 are allowed: `nop`
(`xchg r0,r0`), `raise` (`cmp r0,r0`), `push r0`, `cmp rs0,r0`, `not rs0,r0`, a source
operand `r0`; so are words of the program that the run does not execute. -/
theorem register_zero_stays_zero_when_never_written (prog : List instruction) (n : Nat)
    (c : cpu)
    (hp : ∀ k ck w, k < n → cycles k (cpu.new prog) = .ok ck → ck._flags.halt = false →
      ck._instructions[ck.reg cpu.IP]? = some w → writes_register w 0 = false)
    (h : cycles n (cpu.new prog) = .ok c) : c.reg 0 = 0 := by
  rw [cycles_keeps n (cpu.new prog) c 0 (by decide) hp h]
  exact cpu.new_reg prog 0

/-- An instance of `register_zero_stays_zero_when_never_written`: the program `nop`,
`raise`, `push r0`, `cmp rs0,r0`, `not rs0,r0`, `add rs0,r0,r0`, `hlt` reads register 0
in every line and never writes it; its seven cycles succeed and leave 0 in register 0. -/
theorem register_zero_stays_zero_when_never_written_witness :
    assemble system_info
        "nop;raise;push r0;cmp rs0,r0;not rs0,r0;add rs0,r0,r0;hlt".toList
        = .ok [10, 18, 89, 1042, 1026, 2051, 0]
      ∧ (∀ w ∈ [10, 18, 89, 1042, 1026, 2051, 0], writes_register w 0 = false)
      ∧ ∃ c, cycles 7 (cpu.new [10, 18, 89, 1042, 1026, 2051, 0]) = .ok c ∧ c.reg 0 = 0 := by
  have hall : ∀ w ∈ [10, 18, 89, 1042, 1026, 2051, 0], writes_register w 0 = false := by
    decide
  refine ⟨by decide, hall, ?_⟩
  have hok : (cycles 7 (cpu.new [10, 18, 89, 1042, 1026, 2051, 0])).isOk = true := by decide
  cases h : cycles 7 (cpu.new [10, 18, 89, 1042, 1026, 2051, 0]) with
  | error e =>
    rw [h] at hok
    exact absurd hok (by simp [Except.isOk, Except.toBool])
  | ok c =>
    exact ⟨c, rfl,
      register_zero_stays_zero_when_never_written [10, 18, 89, 1042, 1026, 2051, 0] 7 c
        (fun k ck w _ hck _ hf => hall w (by
          have hi := (cycles_above k _ ck hck).2
          rw [hi] at hf
          exact List.getElem?_mem hf)) h⟩

/-- Claim C16, as stated, fails: `asgn r0,5` assembles to the word 163844, a
register-immediate instruction on register 0, and one cycle of the program made of that
word, from the start state, leaves 5 in register 0. -/
theorem register_zero_is_writable :
    assemble_line system_info ["asgn r0,5".toList] 0 = .ok (some 163844)
      ∧ writes_register 163844 0 = true
      ∧ (cpu.new [163844]).reg 0 = 0
      ∧ (cycles 1 (cpu.new [163844])).map (fun c => c.reg 0) = .ok 5 := by
  decide

end n64
